import Mathlib

/-!
# dvmhost: BPTC (196,96) FEC and trunking signalling block codecs

A shallow embedding of

* `src/common/edac/BPTC19696.cpp` (the block product turbo code),
* `src/common/p25/lc/tsbk/*.cpp`, `src/common/p25/lc/tsbk/mbt/*.cpp` and
  `src/common/dmr/lc/csbk/CSBK_CALL_ALRT.cpp` (signalling block variants),

followed by the properties proved about them.

Conventions.  A C array reached through a pointer (`bool*`, `uint8_t*`) is a
total function on `Nat`; only the indices the code touches matter.  A
`uint8_t` is a `Nat` below 256, a `ulong64_t` computation is reduced modulo
`2 ^ 64` after every step.  Member functions take the object as an explicit
argument and return the updated object.
-/

/-! ## Utils -/

namespace Utils

/-- Modelled from the spec: `Utils::byteToBitsBE(byte, bits)` (Utils.cpp is not
among the sources).  Writes the eight bits of `byte` to `bits[0..7]`, most
significant bit first ("big-endian bit order"); `off` is the offset of the
pointer argument, as in `m_rawData + 8U`. -/
def byteToBitsBE (byte : Nat) (bits : Nat → Bool) (off : Nat) : Nat → Bool :=
  fun j => if off ≤ j ∧ j < off + 8 then byte.testBit (7 - (j - off)) else bits j

/-- Modelled from the spec: `Utils::bitsToByteBE(bits, byte)` (Utils.cpp is not
among the sources).  Packs `bits[0..7]` into one byte, most significant bit
first; `off` is the offset of the pointer argument. -/
def bitsToByteBE (bits : Nat → Bool) (off : Nat) : Nat :=
  (if bits off then 0x80 else 0) + (if bits (off + 1) then 0x40 else 0) +
  (if bits (off + 2) then 0x20 else 0) + (if bits (off + 3) then 0x10 else 0) +
  (if bits (off + 4) then 0x08 else 0) + (if bits (off + 5) then 0x04 else 0) +
  (if bits (off + 6) then 0x02 else 0) + (if bits (off + 7) then 0x01 else 0)

end Utils

/-! ## Bit access macros -/

/-- Modelled from the spec: the entry `BIT_MASK_TABLE[i & 7]` used by the bit
macros (common/Defines.h is not among the sources), for the big-endian bit
order of the spec: 0x80, 0x40, 0x20, 0x10, 0x08, 0x04, 0x02, 0x01. -/
def bitMask (i : Nat) : Nat := 0x80 >>> (i &&& 7)

/-- Modelled from the spec: the macro `READ_BIT(p, i)` (common/Defines.h is not
among the sources): bit `i` of the byte array `p`, the most significant bit of
each byte first. -/
def readBit (p : Nat → Nat) (i : Nat) : Bool :=
  (p (i >>> 3) &&& bitMask i) != 0

/-- Modelled from the spec: the macro `WRITE_BIT(p, i, b)` (common/Defines.h is
not among the sources): set or clear bit `i` of the byte array `p`, the most
significant bit of each byte first; the result is stored in a byte. -/
def writeBit (p : Nat → Nat) (i : Nat) (b : Bool) : Nat → Nat :=
  Function.update p (i >>> 3)
    (if b then (p (i >>> 3) ||| bitMask i) % 256 else p (i >>> 3) &&& (0xFF ^^^ bitMask i))

/-! ## Hamming codewords -/

namespace edac

/-- Fixed-size bit array holding one Hamming codeword (a column of 13 bits or a
row of 15 bits). -/
abbrev Codeword (n : Nat) := Fin n → Bool

/-- Read position `i` of a codeword (false outside of it). -/
def Codeword.get {n : Nat} (d : Codeword n) (i : Nat) : Bool :=
  if h : i < n then d ⟨i, h⟩ else false

/-- The four routines of `edac/Hamming.h` that BPTC19696 calls.  Hamming.cpp is
not among the sources, so the BPTC embedding takes them as an argument.  Each
routine works in place on a fixed-size bit array; the decoders also return
whether they corrected a bit. -/
structure HammingOps where
  /-- Hamming (15,11,3) encode: `Hamming::encode15113_2`. -/
  encode15113_2 : Codeword 15 → Codeword 15
  /-- Hamming (15,11,3) check: `Hamming::decode15113_2`. -/
  decode15113_2 : Codeword 15 → Bool × Codeword 15
  /-- Hamming (13,9,3) encode: `Hamming::encode1393`. -/
  encode1393 : Codeword 13 → Codeword 13
  /-- Hamming (13,9,3) check: `Hamming::decode1393`. -/
  decode1393 : Codeword 13 → Bool × Codeword 13

/-- The encoders write only the parity positions: `d[11..14]` of a row,
`d[9..12]` of a column. -/
def HammingOps.WritesParityOnly (H : HammingOps) : Prop :=
  (∀ (d : Codeword 15) (i : Fin 15), i.val < 11 → H.encode15113_2 d i = d i) ∧
  (∀ (d : Codeword 13) (i : Fin 13), i.val < 9 → H.encode1393 d i = d i)

/-- The decoders leave a valid codeword (one produced by the encoder) unchanged
and report no correction. -/
def HammingOps.KeepsValid (H : HammingOps) : Prop :=
  (∀ d : Codeword 15, H.decode15113_2 (H.encode15113_2 d) = (false, H.encode15113_2 d)) ∧
  (∀ d : Codeword 13, H.decode1393 (H.encode1393 d) = (false, H.encode1393 d))

/-- The (13,9,3) decoder corrects any single inverted bit of a valid column and
reports the correction. -/
def HammingOps.CorrectsSingle1393 (H : HammingOps) : Prop :=
  ∀ (d : Codeword 13) (i : Fin 13),
    H.decode1393 (Function.update (H.encode1393 d) i (!(H.encode1393 d i))) =
      (true, H.encode1393 d)

namespace Hamming

/-- Modelled from the spec: `Hamming::encode15113_2` (Hamming.cpp is not among
the sources).  "Parity bits computed and written in place over the non-data
positions": data bits are `d[0..10]`, parity bits `d[11..14]`, with the parity
equations of the (15,11,3) code of the DMR air interface. -/
def encode15113_2 (d : Codeword 15) : Codeword 15 :=
  fun i =>
    if i = 11 then xor (xor (xor (xor (xor (xor (d 0) (d 1)) (d 2)) (d 3)) (d 5)) (d 7)) (d 8)
    else if i = 12 then xor (xor (xor (xor (xor (xor (d 1) (d 2)) (d 3)) (d 4)) (d 6)) (d 8)) (d 9)
    else if i = 13 then xor (xor (xor (xor (xor (xor (d 2) (d 3)) (d 4)) (d 5)) (d 7)) (d 9)) (d 10)
    else if i = 14 then xor (xor (xor (xor (xor (xor (d 0) (d 1)) (d 2)) (d 4)) (d 6)) (d 7)) (d 10)
    else d i

/-- Modelled from the spec: `Hamming::decode15113_2` (Hamming.cpp is not among
the sources).  "Standard syndrome computation": a zero syndrome means no error,
a non-zero syndrome maps through a fixed table to the single bit to flip, and
the result is true exactly when a bit was flipped. -/
def decode15113_2 (d : Codeword 15) : Bool × Codeword 15 :=
  let c0 := xor (xor (xor (xor (xor (xor (d 0) (d 1)) (d 2)) (d 3)) (d 5)) (d 7)) (d 8)
  let c1 := xor (xor (xor (xor (xor (xor (d 1) (d 2)) (d 3)) (d 4)) (d 6)) (d 8)) (d 9)
  let c2 := xor (xor (xor (xor (xor (xor (d 2) (d 3)) (d 4)) (d 5)) (d 7)) (d 9)) (d 10)
  let c3 := xor (xor (xor (xor (xor (xor (d 0) (d 1)) (d 2)) (d 4)) (d 6)) (d 7)) (d 10)
  let n : Nat :=
    (if c0 != d 11 then 0x01 else 0x00) + (if c1 != d 12 then 0x02 else 0x00) +
    (if c2 != d 13 then 0x04 else 0x00) + (if c3 != d 14 then 0x08 else 0x00)
  match n with
  -- parity bit errors
  | 0x01 => (true, Function.update d 11 (!d 11))
  | 0x02 => (true, Function.update d 12 (!d 12))
  | 0x04 => (true, Function.update d 13 (!d 13))
  | 0x08 => (true, Function.update d 14 (!d 14))
  -- data bit errors
  | 0x09 => (true, Function.update d 0 (!d 0))
  | 0x0B => (true, Function.update d 1 (!d 1))
  | 0x0F => (true, Function.update d 2 (!d 2))
  | 0x07 => (true, Function.update d 3 (!d 3))
  | 0x0E => (true, Function.update d 4 (!d 4))
  | 0x05 => (true, Function.update d 5 (!d 5))
  | 0x0A => (true, Function.update d 6 (!d 6))
  | 0x0D => (true, Function.update d 7 (!d 7))
  | 0x03 => (true, Function.update d 8 (!d 8))
  | 0x06 => (true, Function.update d 9 (!d 9))
  | 0x0C => (true, Function.update d 10 (!d 10))
  -- no bit errors
  | _ => (false, d)

/-- Modelled from the spec: `Hamming::encode1393` (Hamming.cpp is not among the
sources).  Data bits are `d[0..8]`, parity bits `d[9..12]`, with the parity
equations of the (13,9,3) code of the DMR air interface. -/
def encode1393 (d : Codeword 13) : Codeword 13 :=
  fun i =>
    if i = 9 then xor (xor (xor (xor (d 0) (d 1)) (d 3)) (d 5)) (d 6)
    else if i = 10 then xor (xor (xor (xor (xor (d 0) (d 1)) (d 2)) (d 4)) (d 6)) (d 7)
    else if i = 11 then xor (xor (xor (xor (xor (xor (d 0) (d 1)) (d 2)) (d 3)) (d 5)) (d 7)) (d 8)
    else if i = 12 then xor (xor (xor (xor (d 0) (d 2)) (d 4)) (d 5)) (d 8)
    else d i

/-- Modelled from the spec: `Hamming::decode1393` (Hamming.cpp is not among the
sources).  Syndrome computation and single-bit correction for the (13,9,3)
code; the result is true exactly when a bit was flipped. -/
def decode1393 (d : Codeword 13) : Bool × Codeword 13 :=
  let c0 := xor (xor (xor (xor (d 0) (d 1)) (d 3)) (d 5)) (d 6)
  let c1 := xor (xor (xor (xor (xor (d 0) (d 1)) (d 2)) (d 4)) (d 6)) (d 7)
  let c2 := xor (xor (xor (xor (xor (xor (d 0) (d 1)) (d 2)) (d 3)) (d 5)) (d 7)) (d 8)
  let c3 := xor (xor (xor (xor (d 0) (d 2)) (d 4)) (d 5)) (d 8)
  let n : Nat :=
    (if c0 != d 9 then 0x01 else 0x00) + (if c1 != d 10 then 0x02 else 0x00) +
    (if c2 != d 11 then 0x04 else 0x00) + (if c3 != d 12 then 0x08 else 0x00)
  match n with
  -- parity bit errors
  | 0x01 => (true, Function.update d 9 (!d 9))
  | 0x02 => (true, Function.update d 10 (!d 10))
  | 0x04 => (true, Function.update d 11 (!d 11))
  | 0x08 => (true, Function.update d 12 (!d 12))
  -- data bit errors
  | 0x0F => (true, Function.update d 0 (!d 0))
  | 0x07 => (true, Function.update d 1 (!d 1))
  | 0x0E => (true, Function.update d 2 (!d 2))
  | 0x05 => (true, Function.update d 3 (!d 3))
  | 0x0A => (true, Function.update d 4 (!d 4))
  | 0x0D => (true, Function.update d 5 (!d 5))
  | 0x03 => (true, Function.update d 6 (!d 6))
  | 0x06 => (true, Function.update d 7 (!d 7))
  | 0x0C => (true, Function.update d 8 (!d 8))
  -- no bit errors
  | _ => (false, d)

/-- The Hamming routines as modelled above, bundled for BPTC19696. -/
def ops : HammingOps :=
  ⟨encode15113_2, decode15113_2, encode1393, decode1393⟩

end Hamming

/-! ## BPTC19696 -/

/-- The two scratch planes owned by a BPTC19696 instance (`new bool[196]` each). -/
structure BPTC19696 where
  /-- The raw (interleaved) plane, `m_rawData`. -/
  m_rawData : Nat → Bool
  /-- The deinterleaved plane, `m_deInterData`. -/
  m_deInterData : Nat → Bool

namespace BPTC19696

/-- The interleave sequence of position `a`, computed in both interleaving
loops as `uint32_t interleaveSequence = (a * 181U) % 196U;` (no 32-bit overflow
for `a < 196`). -/
def interleaveSequence (a : Nat) : Nat := (a * 181) % 196

/-- Bit `k` of a byte buffer, counting the bits most significant first:
bit `k % 8` (from the top) of byte `k / 8`. -/
def payloadBit (buf : Nat → Nat) (k : Nat) : Bool := (buf (k / 8)).testBit (7 - k % 8)

/-- Position in the deinterleaved plane of payload bit `k`: the `k`-th element,
in ascending order, of the nine ranges 4..11, 16..26, 31..41, 46..56, 61..71,
76..86, 91..101, 106..116, 121..131 swept by the copy loops. -/
def dataPosition (k : Nat) : Nat := 15 * ((k + 3) / 11) + (k + 3) % 11 + 1

/-- Bounds `(lo, hi)` of the nine copy loops `for (a = lo; a <= hi; a++, pos++)`
shared by `decodeExtractData` and `encodeExtractData`, in program order. -/
def dataRanges : List (Nat × Nat) :=
  [(4, 11), (16, 26), (31, 41), (46, 56), (61, 71), (76, 86), (91, 101), (106, 116), (121, 131)]

/-- Values taken by the loop variable `a` over the nine copy loops, in program
order; the value of the running `pos` is the index in this list. -/
def dataPositions : List Nat :=
  (dataRanges.map (fun r => (List.range (r.2 + 1 - r.1)).map (fun i => r.1 + i))).flatten

/-- The loop `for (i = 0; i < 196; i++) plane[i] = false;`. -/
def clear196 (plane : Nat → Bool) : Nat → Bool :=
  (List.range 196).foldl (fun pl i => Function.update pl i false) plane

/-- One of the nine copy loops of `encodeExtractData`:
`for (a = lo; a <= hi; a++, pos++) m_deInterData[a] = bData[pos];`
The state is the destination plane and the running `pos`. -/
def placeRange (bData : Nat → Bool) (lo hi : Nat) (st : (Nat → Bool) × Nat) : (Nat → Bool) × Nat :=
  (List.range (hi + 1 - lo)).foldl
    (fun s i => (Function.update s.1 (lo + i) (bData s.2), s.2 + 1)) st

/-- One of the nine copy loops of `decodeExtractData`:
`for (a = lo; a <= hi; a++, pos++) bData[pos] = m_deInterData[a];`
The state is the scratch array `bData` and the running `pos`. -/
def takeRange (deInter : Nat → Bool) (lo hi : Nat) (st : (Nat → Bool) × Nat) : (Nat → Bool) × Nat :=
  (List.range (hi + 1 - lo)).foldl
    (fun s i => (Function.update s.1 s.2 (deInter (lo + i)), s.2 + 1)) st

/-- The 15 bits seen through the pointer `m_deInterData + pos`. -/
def loadRow (plane : Nat → Bool) (pos : Nat) : Codeword 15 :=
  fun i => plane (pos + i.val)

/-- Effect on the plane of a Hamming routine that rewrote the 15 bits at
`m_deInterData + pos` in place. -/
def storeRow (plane : Nat → Bool) (pos : Nat) (d : Codeword 15) : Nat → Bool :=
  fun j => if pos ≤ j ∧ j < pos + 15 then d.get (j - pos) else plane j

/-- The loop copying column `c` out of the plane:
`pos = c + 1; for (a = 0; a < 13; a++) { col[a] = m_deInterData[pos]; pos = pos + 15; }`. -/
def loadCol (plane : Nat → Bool) (c : Nat) : Codeword 13 :=
  fun a => plane (c + 1 + 15 * a.val)

/-- The loop copying column `c` back into the plane:
`pos = c + 1; for (a = 0; a < 13; a++) { m_deInterData[pos] = col[a]; pos = pos + 15; }`. -/
def storeCol (plane : Nat → Bool) (c : Nat) (col : Codeword 13) : Nat → Bool :=
  (List.range 13).foldl (fun pl a => Function.update pl (c + 1 + 15 * a) (col.get a)) plane

/-- Translation of `BPTC19696::decodeExtractBinary`. -/
def decodeExtractBinary (self : BPTC19696) (in_ : Nat → Nat) : BPTC19696 :=
  -- first block
  let raw := Utils.byteToBitsBE (in_ 0) self.m_rawData 0
  let raw := Utils.byteToBitsBE (in_ 1) raw 8
  let raw := Utils.byteToBitsBE (in_ 2) raw 16
  let raw := Utils.byteToBitsBE (in_ 3) raw 24
  let raw := Utils.byteToBitsBE (in_ 4) raw 32
  let raw := Utils.byteToBitsBE (in_ 5) raw 40
  let raw := Utils.byteToBitsBE (in_ 6) raw 48
  let raw := Utils.byteToBitsBE (in_ 7) raw 56
  let raw := Utils.byteToBitsBE (in_ 8) raw 64
  let raw := Utils.byteToBitsBE (in_ 9) raw 72
  let raw := Utils.byteToBitsBE (in_ 10) raw 80
  let raw := Utils.byteToBitsBE (in_ 11) raw 88
  let raw := Utils.byteToBitsBE (in_ 12) raw 96
  -- handle the two bits
  let bits := Utils.byteToBitsBE (in_ 20) (fun _ => false) 0
  let raw := Function.update raw 98 (bits 6)
  let raw := Function.update raw 99 (bits 7)
  -- second block
  let raw := Utils.byteToBitsBE (in_ 21) raw 100
  let raw := Utils.byteToBitsBE (in_ 22) raw 108
  let raw := Utils.byteToBitsBE (in_ 23) raw 116
  let raw := Utils.byteToBitsBE (in_ 24) raw 124
  let raw := Utils.byteToBitsBE (in_ 25) raw 132
  let raw := Utils.byteToBitsBE (in_ 26) raw 140
  let raw := Utils.byteToBitsBE (in_ 27) raw 148
  let raw := Utils.byteToBitsBE (in_ 28) raw 156
  let raw := Utils.byteToBitsBE (in_ 29) raw 164
  let raw := Utils.byteToBitsBE (in_ 30) raw 172
  let raw := Utils.byteToBitsBE (in_ 31) raw 180
  let raw := Utils.byteToBitsBE (in_ 32) raw 188
  { self with m_rawData := raw }

/-- Translation of `BPTC19696::decodeDeInterleave`. -/
def decodeDeInterleave (self : BPTC19696) : BPTC19696 :=
  let deInter := clear196 self.m_deInterData
  -- the first bit is R(3) which is not used so can be ignored
  let deInter := (List.range 196).foldl
    (fun de a =>
      -- calculate the interleave sequence, shuffle the data
      Function.update de a (self.m_rawData (interleaveSequence a))) deInter
  { self with m_deInterData := deInter }

/-- Body of the column loop of `decodeErrorCheck` for column `c`; the state is
the flag `fixing` and the plane `m_deInterData`. -/
def decodeColumn (H : HammingOps) (st : Bool × (Nat → Bool)) (c : Nat) : Bool × (Nat → Bool) :=
  let col := loadCol st.2 c
  let r := H.decode1393 col
  if r.1 then (true, storeCol st.2 c r.2) else st

/-- Body of the row loop of `decodeErrorCheck` for row `r`. -/
def decodeRow (H : HammingOps) (st : Bool × (Nat → Bool)) (r : Nat) : Bool × (Nat → Bool) :=
  let pos := (r * 15) + 1
  let res := H.decode15113_2 (loadRow st.2 pos)
  (if res.1 then true else st.1, storeRow st.2 pos res.2)

/-- One pass of the `do { ... } while` body of `decodeErrorCheck`: `fixing` is
reset, the 15 columns are checked, then the 9 rows containing data. -/
def decodePass (H : HammingOps) (deInter : Nat → Bool) : Bool × (Nat → Bool) :=
  let st := (List.range 15).foldl (decodeColumn H) (false, deInter)
  (List.range 9).foldl (decodeRow H) st

/-- The `do { ... count++; } while (fixing && count < 5U)` loop of
`decodeErrorCheck`, started with `count` passes already made.  `fuel` bounds
the number of further passes; 5 is always enough.  Returns the final `count`
and plane. -/
def decodeLoop (H : HammingOps) : Nat → Nat → (Nat → Bool) → Nat × (Nat → Bool)
  | 0, count, deInter => (count, deInter)
  | fuel + 1, count, deInter =>
    let st := decodePass H deInter
    let count := count + 1
    if st.1 && decide (count < 5) then decodeLoop H fuel count st.2 else (count, st.2)

/-- The plane `m_deInterData` after `i` executions of the loop body of
`decodeErrorCheck`, started on `deInter`. -/
def planeAfter (H : HammingOps) (deInter : Nat → Bool) : Nat → (Nat → Bool)
  | 0 => deInter
  | i + 1 => (decodePass H (planeAfter H deInter i)).2

/-- Translation of `BPTC19696::decodeErrorCheck`. -/
def decodeErrorCheck (H : HammingOps) (self : BPTC19696) : BPTC19696 :=
  { self with m_deInterData := (decodeLoop H 5 0 self.m_deInterData).2 }

/-- Translation of `BPTC19696::decodeExtractData`. -/
def decodeExtractData (self : BPTC19696) (data : Nat → Nat) : Nat → Nat :=
  let st : (Nat → Bool) × Nat := (fun _ => false, 0)
  let st := takeRange self.m_deInterData 4 11 st
  let st := takeRange self.m_deInterData 16 26 st
  let st := takeRange self.m_deInterData 31 41 st
  let st := takeRange self.m_deInterData 46 56 st
  let st := takeRange self.m_deInterData 61 71 st
  let st := takeRange self.m_deInterData 76 86 st
  let st := takeRange self.m_deInterData 91 101 st
  let st := takeRange self.m_deInterData 106 116 st
  let st := takeRange self.m_deInterData 121 131 st
  let bData := st.1
  let data := Function.update data 0 (Utils.bitsToByteBE bData 0)
  let data := Function.update data 1 (Utils.bitsToByteBE bData 8)
  let data := Function.update data 2 (Utils.bitsToByteBE bData 16)
  let data := Function.update data 3 (Utils.bitsToByteBE bData 24)
  let data := Function.update data 4 (Utils.bitsToByteBE bData 32)
  let data := Function.update data 5 (Utils.bitsToByteBE bData 40)
  let data := Function.update data 6 (Utils.bitsToByteBE bData 48)
  let data := Function.update data 7 (Utils.bitsToByteBE bData 56)
  let data := Function.update data 8 (Utils.bitsToByteBE bData 64)
  let data := Function.update data 9 (Utils.bitsToByteBE bData 72)
  let data := Function.update data 10 (Utils.bitsToByteBE bData 80)
  let data := Function.update data 11 (Utils.bitsToByteBE bData 88)
  data

/-- Translation of `BPTC19696::encodeExtractData`. -/
def encodeExtractData (self : BPTC19696) (in_ : Nat → Nat) : BPTC19696 :=
  let bData : Nat → Bool := fun _ => false
  let bData := Utils.byteToBitsBE (in_ 0) bData 0
  let bData := Utils.byteToBitsBE (in_ 1) bData 8
  let bData := Utils.byteToBitsBE (in_ 2) bData 16
  let bData := Utils.byteToBitsBE (in_ 3) bData 24
  let bData := Utils.byteToBitsBE (in_ 4) bData 32
  let bData := Utils.byteToBitsBE (in_ 5) bData 40
  let bData := Utils.byteToBitsBE (in_ 6) bData 48
  let bData := Utils.byteToBitsBE (in_ 7) bData 56
  let bData := Utils.byteToBitsBE (in_ 8) bData 64
  let bData := Utils.byteToBitsBE (in_ 9) bData 72
  let bData := Utils.byteToBitsBE (in_ 10) bData 80
  let bData := Utils.byteToBitsBE (in_ 11) bData 88
  let st : (Nat → Bool) × Nat := (clear196 self.m_deInterData, 0)
  let st := placeRange bData 4 11 st
  let st := placeRange bData 16 26 st
  let st := placeRange bData 31 41 st
  let st := placeRange bData 46 56 st
  let st := placeRange bData 61 71 st
  let st := placeRange bData 76 86 st
  let st := placeRange bData 91 101 st
  let st := placeRange bData 106 116 st
  let st := placeRange bData 121 131 st
  { self with m_deInterData := st.1 }

/-- The nine copy loops of `decodeExtractData` (lines 179-204) on their own: the
scratch array `bData` and the index `pos` after them, for the plane `deInter`
and any content `bData` of the scratch array before them. -/
def decodeCopyLoops (deInter bData : Nat → Bool) : (Nat → Bool) × Nat :=
  let st : (Nat → Bool) × Nat := (bData, 0)
  let st := takeRange deInter 4 11 st
  let st := takeRange deInter 16 26 st
  let st := takeRange deInter 31 41 st
  let st := takeRange deInter 46 56 st
  let st := takeRange deInter 61 71 st
  let st := takeRange deInter 76 86 st
  let st := takeRange deInter 91 101 st
  let st := takeRange deInter 106 116 st
  let st := takeRange deInter 121 131 st
  st

/-- The twelve `byteToBitsBE` calls of `encodeExtractData` (lines 225-236) on
their own: the scratch array `bData` after them. -/
def encodeScratch (in_ : Nat → Nat) : Nat → Bool :=
  let bData : Nat → Bool := fun _ => false
  let bData := Utils.byteToBitsBE (in_ 0) bData 0
  let bData := Utils.byteToBitsBE (in_ 1) bData 8
  let bData := Utils.byteToBitsBE (in_ 2) bData 16
  let bData := Utils.byteToBitsBE (in_ 3) bData 24
  let bData := Utils.byteToBitsBE (in_ 4) bData 32
  let bData := Utils.byteToBitsBE (in_ 5) bData 40
  let bData := Utils.byteToBitsBE (in_ 6) bData 48
  let bData := Utils.byteToBitsBE (in_ 7) bData 56
  let bData := Utils.byteToBitsBE (in_ 8) bData 64
  let bData := Utils.byteToBitsBE (in_ 9) bData 72
  let bData := Utils.byteToBitsBE (in_ 10) bData 80
  let bData := Utils.byteToBitsBE (in_ 11) bData 88
  bData

/-- The nine copy loops of `encodeExtractData` (lines 242-267) on their own: the
plane and the index `pos` after them, for the scratch array `bData` and the
plane `deInter` before them. -/
def encodeCopyLoops (bData deInter : Nat → Bool) : (Nat → Bool) × Nat :=
  let st : (Nat → Bool) × Nat := (deInter, 0)
  let st := placeRange bData 4 11 st
  let st := placeRange bData 16 26 st
  let st := placeRange bData 31 41 st
  let st := placeRange bData 46 56 st
  let st := placeRange bData 61 71 st
  let st := placeRange bData 76 86 st
  let st := placeRange bData 91 101 st
  let st := placeRange bData 106 116 st
  let st := placeRange bData 121 131 st
  st

/-- Body of the row loop of `encodeErrorCheck` for row `r`. -/
def encodeRow (H : HammingOps) (deInter : Nat → Bool) (r : Nat) : Nat → Bool :=
  let pos := (r * 15) + 1
  storeRow deInter pos (H.encode15113_2 (loadRow deInter pos))

/-- Body of the column loop of `encodeErrorCheck` for column `c`. -/
def encodeColumn (H : HammingOps) (deInter : Nat → Bool) (c : Nat) : Nat → Bool :=
  let col := loadCol deInter c
  let col := H.encode1393 col
  storeCol deInter c col

/-- Translation of `BPTC19696::encodeErrorCheck`. -/
def encodeErrorCheck (H : HammingOps) (self : BPTC19696) : BPTC19696 :=
  -- run through each of the 9 rows containing data
  let deInter := (List.range 9).foldl (encodeRow H) self.m_deInterData
  -- run through each of the 15 columns
  let deInter := (List.range 15).foldl (encodeColumn H) deInter
  { self with m_deInterData := deInter }

/-- Translation of `BPTC19696::encodeInterleave`. -/
def encodeInterleave (self : BPTC19696) : BPTC19696 :=
  let raw := clear196 self.m_rawData
  -- the first bit is R(3) which is not used so can be ignored
  let raw := (List.range 196).foldl
    (fun rw a =>
      -- calculate the interleave sequence, unshuffle the data
      Function.update rw (interleaveSequence a) (self.m_deInterData a)) raw
  { self with m_rawData := raw }

/-- Translation of `BPTC19696::encodeExtractBinary`. -/
def encodeExtractBinary (self : BPTC19696) (data : Nat → Nat) : Nat → Nat :=
  -- first block
  let data := Function.update data 0 (Utils.bitsToByteBE self.m_rawData 0)
  let data := Function.update data 1 (Utils.bitsToByteBE self.m_rawData 8)
  let data := Function.update data 2 (Utils.bitsToByteBE self.m_rawData 16)
  let data := Function.update data 3 (Utils.bitsToByteBE self.m_rawData 24)
  let data := Function.update data 4 (Utils.bitsToByteBE self.m_rawData 32)
  let data := Function.update data 5 (Utils.bitsToByteBE self.m_rawData 40)
  let data := Function.update data 6 (Utils.bitsToByteBE self.m_rawData 48)
  let data := Function.update data 7 (Utils.bitsToByteBE self.m_rawData 56)
  let data := Function.update data 8 (Utils.bitsToByteBE self.m_rawData 64)
  let data := Function.update data 9 (Utils.bitsToByteBE self.m_rawData 72)
  let data := Function.update data 10 (Utils.bitsToByteBE self.m_rawData 80)
  let data := Function.update data 11 (Utils.bitsToByteBE self.m_rawData 88)
  -- handle the two bits
  let byte := Utils.bitsToByteBE self.m_rawData 96
  let data := Function.update data 12 ((data 12 &&& 0x3F) ||| ((byte >>> 0) &&& 0xC0))
  let data := Function.update data 20 ((data 20 &&& 0xFC) ||| ((byte >>> 4) &&& 0x03))
  -- second block
  let data := Function.update data 21 (Utils.bitsToByteBE self.m_rawData 100)
  let data := Function.update data 22 (Utils.bitsToByteBE self.m_rawData 108)
  let data := Function.update data 23 (Utils.bitsToByteBE self.m_rawData 116)
  let data := Function.update data 24 (Utils.bitsToByteBE self.m_rawData 124)
  let data := Function.update data 25 (Utils.bitsToByteBE self.m_rawData 132)
  let data := Function.update data 26 (Utils.bitsToByteBE self.m_rawData 140)
  let data := Function.update data 27 (Utils.bitsToByteBE self.m_rawData 148)
  let data := Function.update data 28 (Utils.bitsToByteBE self.m_rawData 156)
  let data := Function.update data 29 (Utils.bitsToByteBE self.m_rawData 164)
  let data := Function.update data 30 (Utils.bitsToByteBE self.m_rawData 172)
  let data := Function.update data 31 (Utils.bitsToByteBE self.m_rawData 180)
  let data := Function.update data 32 (Utils.bitsToByteBE self.m_rawData 188)
  data

/-- Translation of `BPTC19696::decode`: returns the updated object and the
output buffer. -/
def decode (H : HammingOps) (self : BPTC19696) (in_ : Nat → Nat) (out : Nat → Nat) :
    BPTC19696 × (Nat → Nat) :=
  -- get the raw binary
  let self := self.decodeExtractBinary in_
  -- deinterleave
  let self := self.decodeDeInterleave
  -- error check
  let self := self.decodeErrorCheck H
  -- extract Data
  (self, self.decodeExtractData out)

/-- Translation of `BPTC19696::encode`: returns the updated object and the
output buffer. -/
def encode (H : HammingOps) (self : BPTC19696) (in_ : Nat → Nat) (out : Nat → Nat) :
    BPTC19696 × (Nat → Nat) :=
  -- extract Data
  let self := self.encodeExtractData in_
  -- error check
  let self := self.encodeErrorCheck H
  -- interleave
  let self := self.encodeInterleave
  -- get the raw binary
  (self, self.encodeExtractBinary out)

/-- Index of the buffer byte that carries raw plane position `k`, following the
layout of `decodeExtractBinary`: bytes 0..11 carry positions 0..95, the top two
bits of byte 12 carry 96 and 97, the low two bits of byte 20 carry 98 and 99,
bytes 21..32 carry positions 100..195. -/
def rawBitByte (k : Nat) : Nat :=
  if k < 96 then k / 8 else if k < 98 then 12 else if k < 100 then 20 else 21 + (k - 100) / 8

/-- Number (0 = least significant) of the bit of byte `rawBitByte k` that
carries raw plane position `k`. -/
def rawBitShift (k : Nat) : Nat :=
  if k < 96 then 7 - k % 8 else if k < 98 then 7 - (k - 96) else if k < 100 then 1 - (k - 98)
  else 7 - (k - 100) % 8

/-- The buffer `buf` with the bit that carries raw plane position `k` inverted. -/
def invertRawBit (k : Nat) (buf : Nat → Nat) : Nat → Nat :=
  Function.update buf (rawBitByte k) (buf (rawBitByte k) ^^^ (1 <<< rawBitShift k))

/-- Two planes agree on the positions 1..195, which are the only positions the
error check and the data extraction read. -/
def Agree (D E : Nat → Bool) : Prop := ∀ j, 1 ≤ j → j < 196 → D j = E j

/-- Two planes hold the same bits at all 196 positions `0..195` of the arrays
`m_rawData` and `m_deInterData`. -/
def SamePlane (D E : Nat → Bool) : Prop := ∀ j, j < 196 → D j = E j

/-- Every column of the plane is a codeword produced by the (13,9,3) encoder and
every one of the nine data rows a codeword produced by the (15,11,3) encoder. -/
def ValidPlane (H : HammingOps) (E : Nat → Bool) : Prop :=
  (∀ c, c < 15 → ∃ d, loadCol E c = H.encode1393 d) ∧
  (∀ r, r < 9 → ∃ d, loadRow E (r * 15 + 1) = H.encode15113_2 d)

/-- A sample instance: both scratch planes hold stale bits. -/
def exampleState : BPTC19696 := ⟨fun _ => true, fun j => j % 2 == 0⟩

/-- A sample 12-byte payload: 11, 48, 85, 122, 159, 196, 233, 14, 51, 88, 125, 162. -/
def examplePayload : Nat → Nat := fun i => (i * 37 + 11) % 256

/-- A sample input whose byte 20 holds 0x03 - its two least significant bits
set - and whose other bytes are zero. -/
def exampleSplitInput : Nat → Nat := fun i => if i = 20 then 0x03 else 0

/-- The input `exampleSplitInput` with the neighbouring field filled in: bytes
13..19 hold 0xFF, byte 12 holds 0x3F and byte 20 holds 0xFF (its low two bits
set, as in `exampleSplitInput`). -/
def exampleNeighbourInput : Nat → Nat := fun i =>
  if i = 12 then 0x3F else if i = 20 then 0xFF else if 13 ≤ i ∧ i ≤ 19 then 0xFF else 0

/-- A sample output buffer whose bytes all hold 0xA5 before the call. -/
def exampleBuffer : Nat → Nat := fun _ => 0xA5

end BPTC19696

end edac

/-! ## Signalling blocks (P25 TSBK / AMBT, DMR CSBK) -/

/-- Modelled from the spec: the framing layer of the base classes (`TSBK::decode`
with `TSBK::toValue`, `TSBK::fromValue` with `TSBK::encode`, and the same for
`CSBK`; TSBK.cpp and CSBK.cpp are not among the sources).  "This core treats
that as a capability boundary: `frame bytes -> raw value` and back, exposed as
an interface `{decodeFrame(bytes) -> (value, ok); encodeFrame(value) -> bytes}`."
The embedding of every variant takes the codec as an argument. -/
structure BlockCodec where
  /-- Strip framing, trellis and CRC from `data`: whether the check passed, and
  the 64-bit value of the payload (`rawTSBK` selects the untrellised form). -/
  decodeFrame : (Nat → Nat) → Bool → Bool × Nat
  /-- Frame the 64-bit value into the buffer `data` (`rawTSBK`, `noTrellis`
  select the form); the result is the buffer after the call. -/
  encodeFrame : Nat → Bool → Bool → (Nat → Nat) → (Nat → Nat)

/-- Spec-side definition, to compare the values built by the `encode` routines
with: the plain bitwise concatenation of a list of fields `(width, value)`,
most significant field first. -/
def concatFields (fs : List (Nat × Nat)) : Nat :=
  fs.foldl (fun acc f => acc * 2 ^ f.1 + f.2) 0

/-- The number of bits the fields `(width, value)` take together. -/
def totalWidth (fs : List (Nat × Nat)) : Nat :=
  (fs.map Prod.fst).sum

namespace p25

/-- The part of `SiteData` (not among the sources) that the variants read. -/
structure SiteData where
  /-- Location registration area, `lra()`. -/
  lra : Nat
  /-- Network active flag, `netActive()`. -/
  netActive : Bool
  /-- RF subsystem ID, `rfssId()`. -/
  rfssId : Nat
  /-- Site ID, `siteId()`. -/
  siteId : Nat
  /-- Channel ID of the site, `channelId()`. -/
  channelId : Nat
  /-- Channel number of the site, `channelNo()`. -/
  channelNo : Nat
  /-- System service class, `serviceClass()`. -/
  serviceClass : Nat

/-- The part of `lookups::IdenTable` (not among the sources) that the variants
read.  The three `float` members are held as the rationals they denote, which
is exact for their comparisons with zero and with constants; their arithmetic
is not carried out on rationals but left to `FloatOps`. -/
structure IdenTable where
  /-- Channel ID of the identity entry, `channelId()`. -/
  channelId : Nat
  /-- Base frequency in Hz (`uint32_t`), `baseFrequency()`. -/
  baseFrequency : Nat
  /-- Channel spacing in kHz (`float`), `chSpaceKhz()`. -/
  chSpaceKhz : ℚ
  /-- Transmit offset in MHz (`float`), `txOffsetMhz()`. -/
  txOffsetMhz : ℚ
  /-- Channel bandwidth in kHz (`float`), `chBandwidthKhz()`. -/
  chBandwidthKhz : ℚ

/-- The floating-point expressions of `OSP_IDEN_UP_VU::encode` and
`OSP_SNDCP_CH_GNT::encode`.  Their values depend on the rounding of `float` and
`double` arithmetic and on what a conversion to `uint32_t` does with a value
out of range; none of this is computed here.  Each expression is an argument
of the embedding, and of its result only the type `uint32_t` is used (the
result is reduced modulo 2^32 where it is read). -/
structure FloatOps where
  /-- The expression `(uint32_t)(chSpaceKhz / 0.125)`, as a function of
  `chSpaceKhz`. -/
  spaceToUInt32 : ℚ → Nat
  /-- The expression `(uint32_t)((fabs(txOffsetMhz) / chSpaceKhz) * 1000.0F)`, as
  a function of `txOffsetMhz` and `chSpaceKhz`. -/
  txOffsetToUInt32 : ℚ → ℚ → Nat
  /-- The expression `(uint32_t)calcTxOffset` for the `float`
  `calcTxOffset = txOffsetMhz * 1000000.0`, as a function of `txOffsetMhz`. -/
  txOffsetHzToUInt32 : ℚ → Nat
  /-- The conversion to `uint32_t` of `rootFreq / (chSpaceKhz * 1000)`, as a
  function of the `uint32_t` value `rootFreq` and of `chSpaceKhz`. -/
  chanNoToUInt32 : Nat → ℚ → Nat

/-- An arbitrary choice of the float expressions, for examples whose statement
does not depend on them: every conversion yields 0. -/
def exampleFloatOps : FloatOps :=
  { spaceToUInt32 := fun _ => 0, txOffsetToUInt32 := fun _ _ => 0,
    txOffsetHzToUInt32 := fun _ => 0, chanNoToUInt32 := fun _ _ => 0 }

/-- The members of the base class `TSBK` (TSBK.h is not among the sources) that
the variants under `tsbk/` read and write. -/
structure TSBK where
  /-- Opcode tag, `m_lco`. -/
  m_lco : Nat
  /-- Manufacturer ID, `m_mfId`. -/
  m_mfId : Nat
  /-- Emergency flag, `m_emergency`. -/
  m_emergency : Bool
  /-- Encryption flag, `m_encrypted`. -/
  m_encrypted : Bool
  /-- Priority, `m_priority` (`uint8_t`). -/
  m_priority : Nat
  /-- Voice channel ID, `m_grpVchId` (`uint8_t`). -/
  m_grpVchId : Nat
  /-- Voice channel number, `m_grpVchNo` (`uint32_t`). -/
  m_grpVchNo : Nat
  /-- Destination address, `m_dstId` (`uint32_t`). -/
  m_dstId : Nat
  /-- Source address, `m_srcId` (`uint32_t`). -/
  m_srcId : Nat
  /-- Network ID, `m_netId` (`uint32_t`). -/
  m_netId : Nat
  /-- System ID, `m_sysId` (`uint32_t`). -/
  m_sysId : Nat
  /-- Site data, `m_siteData`. -/
  m_siteData : SiteData
  /-- Site identity entry, `m_siteIdenEntry`. -/
  m_siteIdenEntry : IdenTable

/-- The class `IOSP_GRP_VCH`: a `TSBK` with the member `m_forceChannelId`. -/
structure IOSP_GRP_VCH extends TSBK where
  /-- Flag forcing the block's own channel ID, `m_forceChannelId`. -/
  m_forceChannelId : Bool

namespace IOSP_GRP_VCH

/-- The field extraction of `IOSP_GRP_VCH::decode` (lines 55-61), applied to the
64-bit value `tsbkValue`. -/
def decodeValue (self : IOSP_GRP_VCH) (tsbkValue : Nat) : IOSP_GRP_VCH :=
  { self with
    m_emergency := (((tsbkValue >>> 56) &&& 0xFF) &&& 0x80) == 0x80   -- Emergency Flag
    m_encrypted := (((tsbkValue >>> 56) &&& 0xFF) &&& 0x40) == 0x40   -- Encryption Flag
    m_priority := ((tsbkValue >>> 56) &&& 0xFF) &&& 0x07              -- Priority
    m_grpVchId := (tsbkValue >>> 52) &&& 0x0F                         -- Channel ID
    m_grpVchNo := (tsbkValue >>> 40) &&& 0xFFF                        -- Channel Number
    m_dstId := (tsbkValue >>> 24) &&& 0xFFFF                          -- Target Radio Address
    m_srcId := tsbkValue &&& 0xFFFFFF }                               -- Source Radio Address

/-- Translation of `IOSP_GRP_VCH::decode`: the result of the call and the object
after it. -/
def decode (C : BlockCodec) (self : IOSP_GRP_VCH) (data : Nat → Nat) (rawTSBK : Bool) :
    Bool × IOSP_GRP_VCH :=
  let r := C.decodeFrame data rawTSBK
  if !r.1 then (false, self)
  else (true, self.decodeValue r.2)

/-- The 64-bit value built by `IOSP_GRP_VCH::encode` (lines 76-90). -/
def encodeValue (self : IOSP_GRP_VCH) : Nat :=
  let tsbkValue : Nat :=
    ((if self.m_emergency then 0x80 else 0x00) +                      -- Emergency Flag
     (if self.m_encrypted then 0x40 else 0x00) +                      -- Encrypted Flag
     (self.m_priority &&& 0x07)) % 2 ^ 64                             -- Priority
  let tsbkValue :=
    if (self.m_grpVchId != 0) || self.m_forceChannelId then
      ((tsbkValue <<< 4) + self.m_grpVchId) % 2 ^ 64                  -- Channel ID
    else
      ((tsbkValue <<< 4) + self.m_siteData.channelId) % 2 ^ 64        -- Channel ID
  let tsbkValue := ((tsbkValue <<< 12) + self.m_grpVchNo) % 2 ^ 64    -- Channel Number
  let tsbkValue := ((tsbkValue <<< 16) + self.m_dstId) % 2 ^ 64       -- Talkgroup Address
  let tsbkValue := ((tsbkValue <<< 24) + self.m_srcId) % 2 ^ 64       -- Source Radio Address
  tsbkValue

/-- The first field of the value (lines 78-81): the two flags and the priority. -/
def optionsField (self : IOSP_GRP_VCH) : Nat :=
  (if self.m_emergency then 0x80 else 0x00) + (if self.m_encrypted then 0x40 else 0x00) +
    (self.m_priority &&& 0x07)

/-- The channel ID that `IOSP_GRP_VCH::encode` writes (lines 82-87): the block's
own, or the site's when the block's is zero and not forced. -/
def channelIdField (self : IOSP_GRP_VCH) : Nat :=
  if (self.m_grpVchId != 0) || self.m_forceChannelId then self.m_grpVchId
  else self.m_siteData.channelId

/-- Spec-side definition: the fields of the block as `(width, value)` pairs, in
the order `encode` shifts them in (8 + 4 + 12 + 16 + 24 bits). -/
def fields (self : IOSP_GRP_VCH) : List (Nat × Nat) :=
  [(8, self.optionsField), (4, self.channelIdField), (12, self.m_grpVchNo),
    (16, self.m_dstId), (24, self.m_srcId)]

/-- Translation of `IOSP_GRP_VCH::encode`: the buffer `data` after the call. -/
def encode (C : BlockCodec) (self : IOSP_GRP_VCH) (data : Nat → Nat) (rawTSBK noTrellis : Bool) :
    Nat → Nat :=
  C.encodeFrame self.encodeValue rawTSBK noTrellis data

/-- The declared widths of the fields of the block: priority 3 bits, channel ID
4 bits, channel number 12 bits, destination 16 bits, source 24 bits. -/
def InWidth (self : IOSP_GRP_VCH) : Prop :=
  self.m_priority < 8 ∧ self.m_grpVchId < 16 ∧ self.m_grpVchNo < 4096 ∧
  self.m_dstId < 2 ^ 16 ∧ self.m_srcId < 2 ^ 24

/-- The block of the worked example: emergency, not encrypted, priority 3,
channel 1-100, destination 0x1234, source 0x5678, for the site data `site` and
the flag `force`. -/
def exampleGrant (site : SiteData) (force : Bool) : IOSP_GRP_VCH :=
  { m_lco := 0, m_mfId := 0, m_emergency := true, m_encrypted := false, m_priority := 3,
    m_grpVchId := 1, m_grpVchNo := 100, m_dstId := 0x1234, m_srcId := 0x5678,
    m_netId := 0, m_sysId := 0, m_siteData := site,
    m_siteIdenEntry := ⟨0, 0, 0, 0, 0⟩, m_forceChannelId := force }

/-- A site whose channel ID is 1. -/
def exampleSite : SiteData :=
  { lra := 0, netActive := false, rfssId := 1, siteId := 1, channelId := 1, channelNo := 1,
    serviceClass := 0 }

/-- A block whose channel ID is left unset (zero), at `exampleSite`. -/
def exampleUnset : IOSP_GRP_VCH :=
  { exampleGrant exampleSite false with m_grpVchId := 0 }

end IOSP_GRP_VCH

namespace OSP_DVM_LC_CALL_TERM

/-- The field extraction of `OSP_DVM_LC_CALL_TERM::decode` (lines 54-57). -/
def decodeValue (self : TSBK) (tsbkValue : Nat) : TSBK :=
  { self with
    m_grpVchId := (tsbkValue >>> 52) &&& 0x0F                         -- Channel ID
    m_grpVchNo := (tsbkValue >>> 40) &&& 0xFFF                        -- Channel Number
    m_dstId := (tsbkValue >>> 24) &&& 0xFFFF                          -- Target Radio Address
    m_srcId := tsbkValue &&& 0xFFFFFF }                               -- Source Radio Address

/-- Translation of `OSP_DVM_LC_CALL_TERM::decode`. -/
def decode (C : BlockCodec) (self : TSBK) (data : Nat → Nat) (rawTSBK : Bool) : Bool × TSBK :=
  let r := C.decodeFrame data rawTSBK
  if !r.1 then (false, self)
  else (true, decodeValue self r.2)

/-- The 64-bit value built by `OSP_DVM_LC_CALL_TERM::encode` (lines 72-79). -/
def encodeValue (self : TSBK) : Nat :=
  let tsbkValue : Nat := 0
  let tsbkValue := ((tsbkValue <<< 4) + self.m_siteData.channelId) % 2 ^ 64   -- Channel ID
  let tsbkValue := ((tsbkValue <<< 12) + self.m_grpVchNo) % 2 ^ 64            -- Channel Number
  let tsbkValue := ((tsbkValue <<< 16) + self.m_dstId) % 2 ^ 64               -- Talkgroup Address
  let tsbkValue := ((tsbkValue <<< 24) + self.m_srcId) % 2 ^ 64               -- Source Radio Address
  tsbkValue

/-- Spec-side definition: the fields of the block as `(width, value)` pairs, in
the order `encode` shifts them in (4 + 12 + 16 + 24 bits). -/
def fields (self : TSBK) : List (Nat × Nat) :=
  [(4, self.m_siteData.channelId), (12, self.m_grpVchNo), (16, self.m_dstId),
    (24, self.m_srcId)]

/-- Translation of `OSP_DVM_LC_CALL_TERM::encode`: the buffer `data` and the
object after the call.  `mfgDvmOcs` stands for the constant `MFG_DVM_OCS`
(P25Defines.h is not among the sources), which the call stores in `m_mfId`. -/
def encode (C : BlockCodec) (mfgDvmOcs : Nat) (self : TSBK) (data : Nat → Nat)
    (rawTSBK noTrellis : Bool) : (Nat → Nat) × TSBK :=
  let self := { self with m_mfId := mfgDvmOcs }
  (C.encodeFrame (encodeValue self) rawTSBK noTrellis data, self)

/-- A block with channel 1-100, destination 0x1234 and source 0x5678, at a site
whose channel ID is 2. -/
def exampleTerm : TSBK :=
  { m_lco := 0, m_mfId := 0, m_emergency := false, m_encrypted := false, m_priority := 0,
    m_grpVchId := 1, m_grpVchNo := 100, m_dstId := 0x1234, m_srcId := 0x5678,
    m_netId := 0, m_sysId := 0,
    m_siteData := { lra := 0, netActive := false, rfssId := 1, siteId := 1, channelId := 2,
                    channelNo := 1, serviceClass := 0 },
    m_siteIdenEntry := ⟨0, 0, 0, 0, 0⟩ }

/-- The block `exampleTerm` with manufacturer ID 1 instead of 0. -/
def exampleTermMf1 : TSBK := { exampleTerm with m_mfId := 1 }

end OSP_DVM_LC_CALL_TERM

namespace OSP_IDEN_UP_VU

/-- Translation of `OSP_IDEN_UP_VU::decode`, a stub: the frame is not looked at. -/
def decode (self : TSBK) (_data : Nat → Nat) (_rawTSBK : Bool) : Bool × TSBK :=
  /- stub -/
  (true, self)

/-- The condition under which `OSP_IDEN_UP_VU::encode` builds a value (lines
49-50): none of bandwidth, spacing, transmit offset and base frequency is
zero. -/
def paramsValid (e : IdenTable) : Bool :=
  (e.chBandwidthKhz != 0) && (e.chSpaceKhz != 0) && (e.txOffsetMhz != 0) && (e.baseFrequency != 0)

/-- The 64-bit value built by `OSP_IDEN_UP_VU::encode` (lines 51-65) when the
parameters are valid.  `bw125K` and `bw625K` stand for the constants
`IDEN_UP_VU_BW_125K` and `IDEN_UP_VU_BW_625K` (P25Defines.h is not among the
sources); the two `float` expressions are those of `F`. -/
def encodeValue (F : FloatOps) (bw125K bw625K : Nat) (e : IdenTable) : Nat :=
  let calcSpace : Nat := F.spaceToUInt32 e.chSpaceKhz % 2 ^ 32
  let uCalcTxOffset : Nat := F.txOffsetToUInt32 e.txOffsetMhz e.chSpaceKhz % 2 ^ 32
  let uCalcTxOffset := if e.txOffsetMhz > 0 then uCalcTxOffset ||| 0x2000 else uCalcTxOffset
  let calcBaseFreq : Nat := e.baseFrequency / 5
  let chanBw : Nat := if e.chBandwidthKhz ≥ 25 / 2 then bw125K else bw625K
  let tsbkValue := e.channelId % 2 ^ 64                               -- Channel ID
  let tsbkValue := ((tsbkValue <<< 4) + chanBw) % 2 ^ 64              -- Channel Bandwidth
  let tsbkValue := ((tsbkValue <<< 14) + uCalcTxOffset) % 2 ^ 64      -- Transmit Offset
  let tsbkValue := ((tsbkValue <<< 10) + calcSpace) % 2 ^ 64          -- Channel Spacing
  let tsbkValue := ((tsbkValue <<< 32) + calcBaseFreq) % 2 ^ 64       -- Base Frequency
  tsbkValue

/-- The local `calcSpace` of `OSP_IDEN_UP_VU::encode` (line 51). -/
def calcSpace (F : FloatOps) (e : IdenTable) : Nat := F.spaceToUInt32 e.chSpaceKhz % 2 ^ 32

/-- The local `uCalcTxOffset` of `OSP_IDEN_UP_VU::encode` (lines 53-56). -/
def uCalcTxOffset (F : FloatOps) (e : IdenTable) : Nat :=
  let uCalcTxOffset : Nat := F.txOffsetToUInt32 e.txOffsetMhz e.chSpaceKhz % 2 ^ 32
  if e.txOffsetMhz > 0 then uCalcTxOffset ||| 0x2000 else uCalcTxOffset

/-- The local `calcBaseFreq` of `OSP_IDEN_UP_VU::encode` (line 58). -/
def calcBaseFreq (e : IdenTable) : Nat := e.baseFrequency / 5

/-- The local `chanBw` of `OSP_IDEN_UP_VU::encode` (line 59). -/
def chanBw (bw125K bw625K : Nat) (e : IdenTable) : Nat :=
  if e.chBandwidthKhz ≥ 25 / 2 then bw125K else bw625K

/-- An identity entry of a 12.5 kHz channel plan at 851 MHz, 45 MHz above. -/
def exampleIden : IdenTable :=
  { channelId := 1, baseFrequency := 851006250, chSpaceKhz := 25 / 2, txOffsetMhz := 45,
    chBandwidthKhz := 25 / 2 }

/-- Spec-side definition: the fields of the block as `(width, value)` pairs, in
the order `encode` shifts them in (4 + 4 + 14 + 10 + 32 bits). -/
def fields (F : FloatOps) (bw125K bw625K : Nat) (e : IdenTable) : List (Nat × Nat) :=
  [(4, e.channelId), (4, chanBw bw125K bw625K e), (14, uCalcTxOffset F e), (10, calcSpace F e),
    (32, calcBaseFreq e)]

/-- Translation of `OSP_IDEN_UP_VU::encode`: the buffer `data` after the call,
and the value handed to the frame encoder (`none` when the frame encoder is not
called). -/
def encode (C : BlockCodec) (F : FloatOps) (bw125K bw625K : Nat) (self : TSBK)
    (data : Nat → Nat) (rawTSBK noTrellis : Bool) : (Nat → Nat) × Option Nat :=
  if paramsValid self.m_siteIdenEntry then
    let tsbkValue := encodeValue F bw125K bw625K self.m_siteIdenEntry
    (C.encodeFrame tsbkValue rawTSBK noTrellis data, some tsbkValue)
  else
    -- LogError(...); return; "blatantly ignore creating this TSBK"
    (data, none)

end OSP_IDEN_UP_VU

/-- The class `OSP_SNDCP_CH_GNT`: a `TSBK` with two more members. -/
structure OSP_SNDCP_CH_GNT extends TSBK where
  /-- SNDCP data service options, `m_dataServiceOptions`. -/
  m_dataServiceOptions : Nat
  /-- Data channel number, `m_dataChannelNo`. -/
  m_dataChannelNo : Nat

namespace OSP_SNDCP_CH_GNT

/-- Translation of `OSP_SNDCP_CH_GNT::decode`, a stub: the frame is not looked at. -/
def decode (self : OSP_SNDCP_CH_GNT) (_data : Nat → Nat) (_rawTSBK : Bool) :
    Bool × OSP_SNDCP_CH_GNT :=
  /- stub -/
  (true, self)

/-- The local `rxChNo` of `OSP_SNDCP_CH_GNT::encode` (lines 52-59).  The three
`float` expressions are those of `F`; the `uint32_t` sums, products and
differences between them wrap modulo 2^32. -/
def rxChNo (F : FloatOps) (self : OSP_SNDCP_CH_GNT) : Nat :=
  let calcSpace : Nat := F.spaceToUInt32 self.m_siteIdenEntry.chSpaceKhz % 2 ^ 32
  let txFrequency : Nat :=
    (self.m_siteIdenEntry.baseFrequency + ((calcSpace * 125) * self.m_dataChannelNo)) % 2 ^ 32
  let rxFrequency : Nat :=
    (txFrequency + F.txOffsetHzToUInt32 self.m_siteIdenEntry.txOffsetMhz % 2 ^ 32) % 2 ^ 32
  let rootFreq : Nat :=
    (rxFrequency + 2 ^ 32 - self.m_siteIdenEntry.baseFrequency % 2 ^ 32) % 2 ^ 32
  let rxChNo : Nat := F.chanNoToUInt32 rootFreq self.m_siteIdenEntry.chSpaceKhz % 2 ^ 32
  rxChNo

/-- The channel ID that `OSP_SNDCP_CH_GNT::encode` writes, twice (lines 63-68
and 70-75): the block's own, or the site's when the block's is zero. -/
def channelIdField (self : OSP_SNDCP_CH_GNT) : Nat :=
  if self.m_grpVchId != 0 then self.m_grpVchId else self.m_siteData.channelId

/-- The 64-bit value built by `OSP_SNDCP_CH_GNT::encode` (lines 61-77). -/
def encodeValue (F : FloatOps) (self : OSP_SNDCP_CH_GNT) : Nat :=
  let tsbkValue : Nat := 0
  let tsbkValue := ((tsbkValue <<< 8) + self.m_dataServiceOptions) % 2 ^ 64   -- Data Service Options
  let tsbkValue :=
    if self.m_grpVchId != 0 then
      ((tsbkValue <<< 4) + self.m_grpVchId) % 2 ^ 64                  -- Channel (T) ID
    else
      ((tsbkValue <<< 4) + self.m_siteData.channelId) % 2 ^ 64        -- Channel (T) ID
  let tsbkValue := ((tsbkValue <<< 12) + self.m_dataChannelNo) % 2 ^ 64       -- Channel (T) Number
  let tsbkValue :=
    if self.m_grpVchId != 0 then
      ((tsbkValue <<< 4) + self.m_grpVchId) % 2 ^ 64                  -- Channel (R) ID
    else
      ((tsbkValue <<< 4) + self.m_siteData.channelId) % 2 ^ 64        -- Channel (R) ID
  let tsbkValue := ((tsbkValue <<< 12) + (rxChNo F self &&& 0xFFF)) % 2 ^ 64  -- Channel (R) Number
  let tsbkValue := ((tsbkValue <<< 24) + self.m_dstId) % 2 ^ 64               -- Target Radio Address
  tsbkValue

/-- Spec-side definition: the fields of the block as `(width, value)` pairs, in
the order `encode` shifts them in (8 + 4 + 12 + 4 + 12 + 24 bits). -/
def fields (F : FloatOps) (self : OSP_SNDCP_CH_GNT) : List (Nat × Nat) :=
  [(8, self.m_dataServiceOptions), (4, self.channelIdField), (12, self.m_dataChannelNo),
    (4, self.channelIdField), (12, rxChNo F self &&& 0xFFF), (24, self.m_dstId)]

/-- Translation of `OSP_SNDCP_CH_GNT::encode`: the buffer `data` after the call. -/
def encode (C : BlockCodec) (F : FloatOps) (self : OSP_SNDCP_CH_GNT) (data : Nat → Nat)
    (rawTSBK noTrellis : Bool) : Nat → Nat :=
  C.encodeFrame (encodeValue F self) rawTSBK noTrellis data

/-- A data channel grant with service options 0x12, channel ID unset (zero),
data channel 100 and destination 0x5678, at a site whose channel ID is 2 on
the identity entry `OSP_IDEN_UP_VU.exampleIden`. -/
def exampleDataGrant : OSP_SNDCP_CH_GNT :=
  { m_lco := 0, m_mfId := 0, m_emergency := false, m_encrypted := false, m_priority := 0,
    m_grpVchId := 0, m_grpVchNo := 0, m_dstId := 0x5678, m_srcId := 0,
    m_netId := 0, m_sysId := 0,
    m_siteData := { lra := 0, netActive := false, rfssId := 1, siteId := 1, channelId := 2,
                    channelNo := 1, serviceClass := 0 },
    m_siteIdenEntry := OSP_IDEN_UP_VU.exampleIden,
    m_dataServiceOptions := 0x12, m_dataChannelNo := 100 }

end OSP_SNDCP_CH_GNT

/-! ### Alternate (multi-block) variants -/

/-- The part of `data::DataHeader` (not among the sources) that the variants
use: `DataHeader{ logicalAddress, blocksToFollow }`. -/
structure DataHeader where
  /-- Logical link ID, `getLLId()` / `setLLId()`. -/
  llId : Nat
  /-- Number of data blocks that follow the header, `getBlocksToFollow()`. -/
  blocksToFollow : Nat

/-- One data block, `DataBlock{ userData: bytes }`. -/
structure DataBlock where
  /-- The user data carried by the block. -/
  userData : List Nat

/-- Modelled from the spec: the block assembly of the base class `AMBT`
(`AMBT::decode` and `AMBT::toValue`; AMBT.cpp is not among the sources), taken
as an argument by the variants: from a header and the supplied blocks,
whether the assembly succeeded, and the assembled value. -/
structure AMBTCodec where
  /-- `AMBT::decode` followed by `AMBT::toValue`. -/
  assemble : DataHeader → List DataBlock → Bool × Nat

namespace MBT_ISP_AUTH_SU_DMD

/-- Translation of the constructor `MBT_ISP_AUTH_SU_DMD::MBT_ISP_AUTH_SU_DMD()`:
`base` is the object as the base constructor `AMBT()` left it, `tsbkoGrpAff`
stands for the constant `TSBKO::IOSP_GRP_AFF` (P25Defines.h is not among the
sources), which the body assigns to `m_lco`. -/
def new (tsbkoGrpAff : Nat) (base : TSBK) : TSBK :=
  { base with m_lco := tsbkoGrpAff }

/-- Translation of `MBT_ISP_AUTH_SU_DMD::toString`. -/
def toString (_isp : Bool) : String :=
  "TSBKO, ISP_AUTH_SU_DMD (Authentication SU Demand)"

/-- Translation of `MBT_ISP_AUTH_SU_DMD::decodeMBT`. -/
def decodeMBT (A : AMBTCodec) (self : TSBK) (dataHeader : DataHeader) (blocks : List DataBlock) :
    Bool × TSBK :=
  let r := A.assemble dataHeader blocks
  if !r.1 then (false, self)
  else
    let tsbkValue := r.2
    (true, { self with
      m_netId := (tsbkValue >>> 44) &&& 0xFFFFF                       -- Network ID
      m_sysId := (tsbkValue >>> 32) &&& 0xFFF                         -- System ID
      m_srcId := dataHeader.llId })                                   -- Source Radio Address

/-- A block assembly that succeeds with the value `v`, whatever it is given. -/
def exampleAssembly (v : Nat) : AMBTCodec :=
  { assemble := fun _ _ => (true, v) }

end MBT_ISP_AUTH_SU_DMD

namespace MBT_OSP_RFSS_STS_BCAST

/-- Translation of `MBT_OSP_RFSS_STS_BCAST::decodeMBT`, a stub: neither the
header nor the blocks are looked at. -/
def decodeMBT (self : TSBK) (_dataHeader : DataHeader) (_blocks : List DataBlock) : Bool × TSBK :=
  /- stub -/
  (true, self)

/-- The logical link ID packed by `MBT_OSP_RFSS_STS_BCAST::encodeMBT` (lines
60-64) in the `uint32_t` local `llId`, handed to `setLLId` (line 65). -/
def packLLId (site : SiteData) : Nat :=
  -- pack LRA and system ID into LLID
  let llId : Nat := site.lra % 2 ^ 32                                 -- Location Registration Area
  let llId := ((llId <<< 12) + site.siteId) % 2 ^ 32                  -- System ID
  let llId := if site.netActive then llId ||| 0x1000 else llId        -- Network Active Flag
  llId

/-- Translation of `MBT_OSP_RFSS_STS_BCAST::encodeMBT`.  `ambtEncode` stands for
`AMBT::encode` (AMBT.cpp is not among the sources), which receives the header
after `setLLId` and the buffer after the seven stores; the result is the
header and the buffer after the call. -/
def encodeMBT (ambtEncode : DataHeader → (Nat → Nat) → DataHeader × (Nat → Nat)) (self : TSBK)
    (dataHeader : DataHeader) (pduUserData : Nat → Nat) : DataHeader × (Nat → Nat) :=
  let dataHeader := { dataHeader with llId := packLLId self.m_siteData }
  /- Block 1 -/
  let pduUserData := Function.update pduUserData 0
    (self.m_siteData.rfssId &&& 0xFF)                                 -- RF Sub-System ID
  let pduUserData := Function.update pduUserData 1
    (self.m_siteData.siteId &&& 0xFF)                                 -- Site ID
  let pduUserData := Function.update pduUserData 2
    ((((self.m_siteData.channelId &&& 0x0F) <<< 4) +                  -- Transmit Channel ID & Channel Number MSB
      ((self.m_siteData.channelNo >>> 8) &&& 0xFF)) % 256)
  let pduUserData := Function.update pduUserData 3
    ((self.m_siteData.channelNo >>> 0) &&& 0xFF)                      -- Transmit Channel Number LSB
  let pduUserData := Function.update pduUserData 4
    ((((self.m_siteData.channelId &&& 0x0F) <<< 4) +                  -- Receive Channel ID & Channel Number MSB
      ((self.m_siteData.channelNo >>> 8) &&& 0xFF)) % 256)
  let pduUserData := Function.update pduUserData 5
    ((self.m_siteData.channelNo >>> 0) &&& 0xFF)                      -- Receive Channel Number LSB
  let pduUserData := Function.update pduUserData 6
    (self.m_siteData.serviceClass % 256)                              -- System Service Class
  ambtEncode dataHeader pduUserData

/-- A stand-in for `AMBT::encode` that leaves the header and the buffer as it
receives them. -/
def exampleAmbtEncode (dataHeader : DataHeader) (pduUserData : Nat → Nat) :
    DataHeader × (Nat → Nat) :=
  (dataHeader, pduUserData)

/-- A site with registration area 4, site ID 0x123 and the network active. -/
def exampleActiveSite : SiteData :=
  { lra := 4, netActive := true, rfssId := 1, siteId := 0x123, channelId := 1, channelNo := 1,
    serviceClass := 0 }

/-- A site with the odd registration area 5, site ID 0x123 and the network
not active. -/
def exampleOddSite : SiteData :=
  { lra := 5, netActive := false, rfssId := 1, siteId := 0x123, channelId := 1, channelNo := 1,
    serviceClass := 0 }

/-- A header that declares two blocks to follow. -/
def exampleHeader : DataHeader := { llId := 0x123456, blocksToFollow := 2 }

/-- A block set holding a single 12-byte data block. -/
def exampleBlocks : List DataBlock := [{ userData := [1, 2, 3, 4, 5, 6, 7, 8, 9, 10, 11, 12] }]

end MBT_OSP_RFSS_STS_BCAST

end p25

/-- A framing layer whose check fails on every frame. -/
def BlockCodec.rejectAll : BlockCodec :=
  { decodeFrame := fun _ _ => (false, 0), encodeFrame := fun _ _ _ data => data }

namespace dmr

/-- The members of the base class `CSBK` (CSBK.h is not among the sources) that
`CSBK_CALL_ALRT` reads and writes. -/
structure CSBK where
  /-- Opcode, `m_CSBKO`. -/
  m_CSBKO : Nat
  /-- Feature ID, `m_FID`. -/
  m_FID : Nat
  /-- Group/individual flag, `m_GI`. -/
  m_GI : Bool
  /-- Destination address, `m_dstId` (`uint32_t`). -/
  m_dstId : Nat
  /-- Source address, `m_srcId` (`uint32_t`). -/
  m_srcId : Nat

namespace CSBK_CALL_ALRT

/-- The field extraction of `CSBK_CALL_ALRT::decode` (lines 54-56). -/
def decodeValue (self : CSBK) (csbkValue : Nat) : CSBK :=
  { self with
    m_GI := (((csbkValue >>> 56) &&& 0xFF) &&& 0x40) == 0x40          -- Group/Individual Flag
    m_dstId := (csbkValue >>> 24) &&& 0xFFFFFF                        -- Target Radio Address
    m_srcId := csbkValue &&& 0xFFFFFF }                               -- Source Radio Address

/-- Translation of `CSBK_CALL_ALRT::decode`. -/
def decode (C : BlockCodec) (self : CSBK) (data : Nat → Nat) : Bool × CSBK :=
  let r := C.decodeFrame data false
  if !r.1 then (false, self)
  else (true, decodeValue self r.2)

/-- The 64-bit value built by `CSBK_CALL_ALRT::encode` (lines 69-73). -/
def encodeValue (self : CSBK) : Nat :=
  let csbkValue : Nat := if self.m_GI then 0x40 else 0x00             -- Group/Individual Flag
  let csbkValue := ((csbkValue <<< 32) + self.m_dstId) % 2 ^ 64       -- Target Radio Address
  let csbkValue := ((csbkValue <<< 24) + self.m_srcId) % 2 ^ 64       -- Source Radio Address
  csbkValue

/-- Spec-side definition: the fields of the block as `(width, value)` pairs, in
the order `encode` shifts them in (8 + 32 + 24 bits). -/
def fields (self : CSBK) : List (Nat × Nat) :=
  [(8, if self.m_GI then 0x40 else 0x00), (32, self.m_dstId), (24, self.m_srcId)]

/-- Translation of `CSBK_CALL_ALRT::encode`: the buffer `data` after the call. -/
def encode (C : BlockCodec) (self : CSBK) (data : Nat → Nat) : Nat → Nat :=
  C.encodeFrame (encodeValue self) false false data

/-- A call alert to a group: flag set, destination 0x00ABCD, source 0x123456. -/
def exampleAlert : CSBK :=
  { m_CSBKO := 0, m_FID := 0, m_GI := true, m_dstId := 0x00ABCD, m_srcId := 0x123456 }

end CSBK_CALL_ALRT

end dmr

/-! ## NXDN link information channel -/

namespace nxdn

namespace channel

/-- The members of the class `LICH` (LICH.h is not among the sources); the three
enumerations are held as their numeric values. -/
structure LICH where
  /-- RF channel type, `m_rfct`. -/
  m_rfct : Nat
  /-- Functional channel type, `m_fct`. -/
  m_fct : Nat
  /-- Channel option, `m_option`. -/
  m_option : Nat
  /-- Outbound flag, `m_outbound`. -/
  m_outbound : Bool
  /-- The LICH byte, `m_lich` (`uint8_t`). -/
  m_lich : Nat

namespace LICH

/-- Translation of `LICH::getParity`. -/
def getParity (self : LICH) : Bool :=
  match self.m_lich &&& 0xF0 with
  | 0x80 => true
  | 0xB0 => true
  | _ => false

/-- Translation of `LICH::decode`: the result of the call and the object after
it.  `fswLengthBits` and `lichLengthBits` stand for the constants
`NXDN_FSW_LENGTH_BITS` and `NXDN_LICH_LENGTH_BITS` (NXDNDefines.h is not among
the sources).  The state of the loop is the local array `lich` and `offset`. -/
def decode (fswLengthBits lichLengthBits : Nat) (self : LICH) (data : Nat → Nat) : Bool × LICH :=
  let lich : Nat → Nat := fun _ => 0x00
  let st := (List.range (lichLengthBits / 2)).foldl
    (fun (st : (Nat → Nat) × Nat) i =>
      let b := readBit data st.2
      (writeBit st.1 i b, st.2 + 2)) (lich, fswLengthBits)
  let self := { self with m_lich := st.1 0 }
  let newParity := self.getParity
  let origParity := (self.m_lich &&& 0x01) == 0x01
  let self := { self with
    m_rfct := (self.m_lich >>> 6) &&& 0x03
    m_fct := (self.m_lich >>> 4) &&& 0x03
    m_option := (self.m_lich >>> 2) &&& 0x03
    m_outbound := ((self.m_lich >>> 1) &&& 0x01) == 0x01 }
  (origParity == newParity, self)

/-- The LICH byte that `LICH::encode` assembles from the four fields before it
sets the parity bit (lines 109-121). -/
def encodeFields (self : LICH) : LICH :=
  let m_lich : Nat := 0
  let m_lich := m_lich &&& 0x3F
  let m_lich := (m_lich ||| ((self.m_rfct &&& 0x03) <<< 6)) % 256
  let m_lich := m_lich &&& 0xCF
  let m_lich := (m_lich ||| ((self.m_fct &&& 0x03) <<< 4)) % 256
  let m_lich := m_lich &&& 0xF3
  let m_lich := (m_lich ||| ((self.m_option &&& 0x03) <<< 2)) % 256
  let m_lich := m_lich &&& 0xFD
  let m_lich := (m_lich ||| ((if self.m_outbound then 0x01 else 0x00) <<< 1)) % 256
  { self with m_lich := m_lich }

/-- The object after the parity step of `LICH::encode` (lines 127-131). -/
def encodeParity (self : LICH) : LICH :=
  let parity := self.getParity
  if parity then { self with m_lich := (self.m_lich ||| 0x01) % 256 }
  else { self with m_lich := self.m_lich &&& 0xFE }

/-- Translation of `LICH::encode`: the object and the buffer `data` after the
call.  The state of the loop is the buffer and `offset`. -/
def encode (fswLengthBits lichLengthBits : Nat) (self : LICH) (data : Nat → Nat) :
    LICH × (Nat → Nat) :=
  let self := self.encodeFields
  let self := self.encodeParity
  let lich : Nat → Nat := fun _ => 0x00
  let lich := Function.update lich 0 self.m_lich
  let st := (List.range (lichLengthBits / 2)).foldl
    (fun (st : (Nat → Nat) × Nat) i =>
      let b := readBit lich i
      let data := writeBit st.1 st.2 b
      let offset := st.2 + 1
      let data := writeBit data offset true
      let offset := offset + 1
      (data, offset)) (data, fswLengthBits)
  (self, st.1)

/-- Spec-side definition: the byte assembled, most significant bit first, from
the 8 bits of `data` read at every second bit position starting at
`fswLengthBits`. -/
def lichBits (fswLengthBits : Nat) (data : Nat → Nat) : Nat :=
  Utils.bitsToByteBE (fun i => readBit data (fswLengthBits + 2 * i)) 0

/-- Spec-side definition: the LICH byte with bits 7..6 = `rfct`, 5..4 = `fct`,
3..2 = `option`, bit 1 = `outbound` and bit 0 set exactly when `rfct = 2` and
`fct` is 0 or 3. -/
def lichWord (rfct fct option : Nat) (outbound : Bool) : Nat :=
  rfct * 64 + fct * 16 + option * 4 + (if outbound then 2 else 0) +
    (if rfct = 2 ∧ (fct = 0 ∨ fct = 3) then 1 else 0)

/-- A LICH for the combination RF channel type 2, functional channel type 3,
option 1, outbound. -/
def exampleLich : LICH :=
  { m_rfct := 2, m_fct := 3, m_option := 1, m_outbound := true, m_lich := 0 }

end LICH

end channel

end nxdn

/-! ## Talkgroup rules lookup table -/

namespace lookups

/-- The members of `TalkgroupRuleGroupVoiceSource` (TalkgroupRulesLookup.h is not
among the sources). -/
structure TalkgroupRuleGroupVoiceSource where
  /-- Talkgroup ID, `tgId()`. -/
  tgId : Nat
  /-- Talkgroup DMR slot, `tgSlot()`. -/
  tgSlot : Nat

/-- The members of `TalkgroupRuleConfig` (TalkgroupRulesLookup.h is not among the
sources) that `addEntry` sets; `other` stands for the remaining members, which
are copied as a whole. -/
structure TalkgroupRuleConfig where
  /-- Flag indicating whether the rule is active, `active()`. -/
  active : Bool
  /-- Flag indicating whether the talkgroup is non-preferred, `nonPreferred()`. -/
  nonPreferred : Bool
  /-- The remaining members of the configuration. -/
  other : Nat

/-- The members of `TalkgroupRuleGroupVoice` (TalkgroupRulesLookup.h is not among
the sources); `other` stands for the members besides the configuration and
the source, which are copied as a whole. -/
structure TalkgroupRuleGroupVoice where
  /-- The members besides `config()` and `source()`. -/
  other : Nat
  /-- Configuration, `config()`. -/
  config : TalkgroupRuleConfig
  /-- Source talkgroup, `source()`. -/
  source : TalkgroupRuleGroupVoiceSource

namespace TalkgroupRulesLookup

/-- The call `std::find_if(v.begin(), v.end(), pred)`: the position of the first
element that satisfies `pred`, or `none` for `v.end()`. -/
def findIf {α : Type} (pred : α → Bool) : List α → Option Nat
  | [] => none
  | x :: xs => if pred x then some 0 else (findIf pred xs).map (fun i => i + 1)

/-- The predicate shared by `addEntry` and `find` (lines 135-143, 183-191,
225-233): with a non-zero `slot` both the talkgroup ID and the slot must
match, with slot 0 the talkgroup ID alone. -/
def matchEntry (id slot : Nat) (x : TalkgroupRuleGroupVoice) : Bool :=
  if slot != 0 then
    x.source.tgId == id && x.source.tgSlot == slot
  else
    x.source.tgId == id

/-- The predicate of `eraseEntry` (line 207). -/
def matchExact (id slot : Nat) (x : TalkgroupRuleGroupVoice) : Bool :=
  x.source.tgId == id && x.source.tgSlot == slot

/-- Translation of `TalkgroupRulesLookup::clear`: the vector `m_groupVoice`
after the call. -/
def clear (_m_groupVoice : List TalkgroupRuleGroupVoice) : List TalkgroupRuleGroupVoice :=
  []

/-- Translation of `TalkgroupRulesLookup::addEntry(uint32_t, uint8_t, bool,
bool)`: the vector `m_groupVoice` after the call.  `dflt` stands for a
default-constructed `TalkgroupRuleGroupVoice` (its constructor is not among
the sources). -/
def addEntry (dflt : TalkgroupRuleGroupVoice) (m_groupVoice : List TalkgroupRuleGroupVoice)
    (id slot : Nat) (enabled nonPreferred : Bool) : List TalkgroupRuleGroupVoice :=
  let source := { dflt.source with tgId := id, tgSlot := slot }
  let config := { dflt.config with active := enabled, nonPreferred := nonPreferred }
  match findIf (matchEntry id slot) m_groupVoice with
  | some idx =>
    let it := m_groupVoice.getD idx dflt
    let source := { it.source with tgId := id, tgSlot := slot }
    let config := { it.config with active := enabled, nonPreferred := nonPreferred }
    let entry := { it with config := config, source := source }
    m_groupVoice.set idx entry
  | none =>
    let entry := { dflt with config := config, source := source }
    m_groupVoice ++ [entry]

/-- Translation of `TalkgroupRulesLookup::addEntry(TalkgroupRuleGroupVoice)`.
`isInvalid` stands for `TalkgroupRuleGroupVoice::isInvalid` (not among the
sources). -/
def addEntryGroup (isInvalid : TalkgroupRuleGroupVoice → Bool)
    (m_groupVoice : List TalkgroupRuleGroupVoice) (groupVoice : TalkgroupRuleGroupVoice) :
    List TalkgroupRuleGroupVoice :=
  if isInvalid groupVoice then m_groupVoice
  else
    let entry := groupVoice
    let id := entry.source.tgId
    let slot := entry.source.tgSlot
    match findIf (matchEntry id slot) m_groupVoice with
    | some idx => m_groupVoice.set idx entry
    | none => m_groupVoice ++ [entry]

/-- Translation of `TalkgroupRulesLookup::eraseEntry`. -/
def eraseEntry (m_groupVoice : List TalkgroupRuleGroupVoice) (id slot : Nat) :
    List TalkgroupRuleGroupVoice :=
  match findIf (matchExact id slot) m_groupVoice with
  | some idx => m_groupVoice.eraseIdx idx
  | none => m_groupVoice

/-- Translation of `TalkgroupRulesLookup::find`. -/
def find (dflt : TalkgroupRuleGroupVoice) (m_groupVoice : List TalkgroupRuleGroupVoice)
    (id slot : Nat) : TalkgroupRuleGroupVoice :=
  match findIf (matchEntry id slot) m_groupVoice with
  | some idx => m_groupVoice.getD idx dflt
  | none => dflt

/-- One call on the table: either overload of `addEntry`, `eraseEntry` or
`clear`. -/
inductive Call where
  /-- The call `addEntry(id, slot, enabled, nonPreferred)`. -/
  | add (id slot : Nat) (enabled nonPreferred : Bool)
  /-- The call `addEntry(groupVoice)`. -/
  | addGroup (groupVoice : TalkgroupRuleGroupVoice)
  /-- The call `eraseEntry(id, slot)`. -/
  | erase (id slot : Nat)
  /-- The call `clear()`. -/
  | clear

/-- The table after one call. -/
def step (dflt : TalkgroupRuleGroupVoice) (isInvalid : TalkgroupRuleGroupVoice → Bool)
    (m_groupVoice : List TalkgroupRuleGroupVoice) : Call → List TalkgroupRuleGroupVoice
  | Call.add id slot enabled nonPreferred => addEntry dflt m_groupVoice id slot enabled nonPreferred
  | Call.addGroup groupVoice => addEntryGroup isInvalid m_groupVoice groupVoice
  | Call.erase id slot => eraseEntry m_groupVoice id slot
  | Call.clear => clear m_groupVoice

/-- The table after a sequence of calls, starting from the empty table. -/
def run (dflt : TalkgroupRuleGroupVoice) (isInvalid : TalkgroupRuleGroupVoice → Bool)
    (calls : List Call) : List TalkgroupRuleGroupVoice :=
  calls.foldl (step dflt isInvalid) []

/-- Two entries, the first before the second in the table, are compatible: if
they carry the same talkgroup ID, the second has a non-zero slot, different
from the slot of the first. -/
def Compatible (x y : TalkgroupRuleGroupVoice) : Prop :=
  x.source.tgId = y.source.tgId → y.source.tgSlot ≠ 0 ∧ y.source.tgSlot ≠ x.source.tgSlot

/-- A default-constructed entry: talkgroup 0, slot 0, inactive. -/
def exampleDefault : TalkgroupRuleGroupVoice :=
  { other := 0, config := { active := false, nonPreferred := false, other := 0 },
    source := { tgId := 0, tgSlot := 0 } }

end TalkgroupRulesLookup

end lookups

/-! ## Auxiliary facts about loops that write an array -/

namespace edac

theorem foldl_range_succ {σ : Type} (f : σ → Nat → σ) (n : Nat) (s : σ) :
    (List.range (n + 1)).foldl f s = f ((List.range n).foldl f s) n := by
  rw [List.range_succ, List.foldl_append]
  rfl

/-- An invariant indexed by the loop counter is carried through a counted loop. -/
theorem foldl_range_invariant {σ : Type} (P : Nat → σ → Prop) (f : σ → Nat → σ) (n : Nat) (s : σ)
    (h0 : P 0 s) (hstep : ∀ i t, i < n → P i t → P (i + 1) (f t i)) :
    P n ((List.range n).foldl f s) := by
  induction n with
  | zero => simpa using h0
  | succ n ih =>
    rw [foldl_range_succ]
    exact hstep n _ (Nat.lt_succ_self n)
      (ih (fun i t hi hP => hstep i t (Nat.lt_succ_of_lt hi) hP))

/-- A loop `for a < n: m[k a] = v a` leaves the cells it does not address alone. -/
theorem foldl_update_of_not_key {α : Type} (k : Nat → Nat) (v : Nat → α) (n : Nat) (m : Nat → α)
    (j : Nat) (hj : ∀ a, a < n → k a ≠ j) :
    (List.range n).foldl (fun m a => Function.update m (k a) (v a)) m j = m j := by
  induction n with
  | zero => rfl
  | succ n ih =>
    rw [foldl_range_succ, Function.update_apply, if_neg (fun h => hj n (Nat.lt_succ_self n) h.symm)]
    exact ih (fun a ha => hj a (Nat.lt_succ_of_lt ha))

/-- A loop `for a < n: m[k a] = v a` with pairwise distinct addresses stores
`v a` at `k a`. -/
theorem foldl_update_of_key {α : Type} (k : Nat → Nat) (v : Nat → α) (n : Nat) (m : Nat → α)
    (hk : ∀ a b, a < n → b < n → k a = k b → a = b) (a : Nat) (ha : a < n) :
    (List.range n).foldl (fun m a => Function.update m (k a) (v a)) m (k a) = v a := by
  induction n with
  | zero => omega
  | succ n ih =>
    rw [foldl_range_succ, Function.update_apply]
    by_cases h : a = n
    · subst h; simp
    · have han : a < n := by omega
      have hne : k a ≠ k n := fun e => h (hk a n ha (Nat.lt_succ_self n) e)
      rw [if_neg hne]
      exact ih (fun x y hx hy => hk x y (Nat.lt_succ_of_lt hx) (Nat.lt_succ_of_lt hy)) han

namespace BPTC19696

theorem clear196_apply (plane : Nat → Bool) (j : Nat) :
    clear196 plane j = if j < 196 then false else plane j := by
  unfold clear196
  by_cases h : j < 196
  · rw [if_pos h]
    exact foldl_update_of_key (fun i => i) (fun _ => false) 196 plane (fun _ _ _ _ e => e) j h
  · rw [if_neg h]
    exact foldl_update_of_not_key (fun i => i) (fun _ => false) 196 plane j (fun a ha e => h (e ▸ ha))

theorem placeRange_eq (bData : Nat → Bool) (lo hi : Nat) (de : Nat → Bool) (pos : Nat) :
    placeRange bData lo hi (de, pos) =
      (fun j => if lo ≤ j ∧ j < lo + (hi + 1 - lo) then bData (pos + (j - lo)) else de j,
        pos + (hi + 1 - lo)) := by
  unfold placeRange
  generalize hi + 1 - lo = n
  induction n with
  | zero =>
    simp only [List.range_zero, List.foldl_nil, Nat.add_zero]
    congr 1
    funext j
    rw [if_neg (by omega)]
  | succ n ih =>
    rw [foldl_range_succ, ih]
    refine Prod.ext ?_ (by simp only; omega)
    funext j
    simp only [Function.update_apply]
    by_cases h : j = lo + n
    · subst h
      rw [if_pos rfl, if_pos (by omega)]
      congr 1; omega
    · rw [if_neg h]
      by_cases h2 : lo ≤ j ∧ j < lo + n
      · rw [if_pos h2, if_pos (by omega)]
      · rw [if_neg h2, if_neg (by omega)]

theorem takeRange_eq (deInter : Nat → Bool) (lo hi : Nat) (bd : Nat → Bool) (pos : Nat) :
    takeRange deInter lo hi (bd, pos) =
      (fun k => if pos ≤ k ∧ k < pos + (hi + 1 - lo) then deInter (lo + (k - pos)) else bd k,
        pos + (hi + 1 - lo)) := by
  unfold takeRange
  generalize hi + 1 - lo = n
  induction n with
  | zero =>
    simp only [List.range_zero, List.foldl_nil, Nat.add_zero]
    congr 1
    funext j
    rw [if_neg (by omega)]
  | succ n ih =>
    rw [foldl_range_succ, ih]
    refine Prod.ext ?_ (by simp only; omega)
    funext j
    simp only [Function.update_apply]
    by_cases h : j = pos + n
    · subst h
      rw [if_pos rfl, if_pos (by omega)]
      congr 1; omega
    · rw [if_neg h]
      by_cases h2 : pos ≤ j ∧ j < pos + n
      · rw [if_pos h2, if_pos (by omega)]
      · rw [if_neg h2, if_neg (by omega)]

theorem storeCol_apply (plane : Nat → Bool) (c : Nat) (col : Codeword 13) (j : Nat) :
    storeCol plane c col j =
      if c + 1 ≤ j ∧ (j - (c + 1)) % 15 = 0 ∧ (j - (c + 1)) / 15 < 13
      then col.get ((j - (c + 1)) / 15) else plane j := by
  unfold storeCol
  by_cases h : c + 1 ≤ j ∧ (j - (c + 1)) % 15 = 0 ∧ (j - (c + 1)) / 15 < 13
  · rw [if_pos h]
    have hj : j = c + 1 + 15 * ((j - (c + 1)) / 15) := by omega
    conv_lhs => rw [hj]
    exact foldl_update_of_key (fun a => c + 1 + 15 * a) (fun a => col.get a) 13 plane
      (fun a b _ _ e => by simp only at e; omega) _ h.2.2
  · rw [if_neg h]
    exact foldl_update_of_not_key (fun a => c + 1 + 15 * a) (fun a => col.get a) 13 plane j
      (fun a ha e => h (by simp only at e; omega))

end BPTC19696

end edac

/-! ## Bytes and bits -/

namespace Utils

theorem byteToBitsBE_apply (byte : Nat) (bits : Nat → Bool) (off j : Nat) :
    byteToBitsBE byte bits off j =
      if off ≤ j ∧ j < off + 8 then byte.testBit (7 - (j - off)) else bits j := rfl

theorem testBit_pack (b0 b1 b2 b3 b4 b5 b6 b7 : Bool) :
    let v := (if b0 then 0x80 else 0) + (if b1 then 0x40 else 0) + (if b2 then 0x20 else 0) +
      (if b3 then 0x10 else 0) + (if b4 then 0x08 else 0) + (if b5 then 0x04 else 0) +
      (if b6 then 0x02 else 0) + (if b7 then 0x01 else 0)
    v.testBit 7 = b0 ∧ v.testBit 6 = b1 ∧ v.testBit 5 = b2 ∧ v.testBit 4 = b3 ∧
    v.testBit 3 = b4 ∧ v.testBit 2 = b5 ∧ v.testBit 1 = b6 ∧ v.testBit 0 = b7 := by
  cases b0 <;> cases b1 <;> cases b2 <;> cases b3 <;> cases b4 <;> cases b5 <;> cases b6 <;>
    cases b7 <;> decide

/-- Bit `7 - i` of the packed byte is `bits[i]`. -/
theorem testBit_bitsToByteBE (bits : Nat → Bool) (off i : Nat) (hi : i < 8) :
    (bitsToByteBE bits off).testBit (7 - i) = bits (off + i) := by
  have h := testBit_pack (bits off) (bits (off + 1)) (bits (off + 2)) (bits (off + 3))
    (bits (off + 4)) (bits (off + 5)) (bits (off + 6)) (bits (off + 7))
  obtain ⟨h0, h1, h2, h3, h4, h5, h6, h7⟩ := h
  unfold bitsToByteBE
  interval_cases i
  · exact h0
  · exact h1
  · exact h2
  · exact h3
  · exact h4
  · exact h5
  · exact h6
  · exact h7

theorem bitsToByteBE_lt (bits : Nat → Bool) (off : Nat) : bitsToByteBE bits off < 256 := by
  unfold bitsToByteBE
  split_ifs <;> omega

theorem sum_testBit_eq (b : Nat) (hb : b < 256) :
    (if b.testBit 7 then 0x80 else 0) + (if b.testBit 6 then 0x40 else 0) +
    (if b.testBit 5 then 0x20 else 0) + (if b.testBit 4 then 0x10 else 0) +
    (if b.testBit 3 then 0x08 else 0) + (if b.testBit 2 then 0x04 else 0) +
    (if b.testBit 1 then 0x02 else 0) + (if b.testBit 0 then 0x01 else 0) = b := by
  interval_cases b <;> rfl

/-- Packing the bits that `byteToBitsBE` wrote gives the byte back. -/
theorem bitsToByteBE_of_testBit (bits : Nat → Bool) (off b : Nat) (hb : b < 256)
    (h : ∀ i, i < 8 → bits (off + i) = b.testBit (7 - i)) : bitsToByteBE bits off = b := by
  unfold bitsToByteBE
  have h0 := h 0 (by omega)
  rw [Nat.add_zero] at h0
  rw [h0, h 1 (by omega), h 2 (by omega), h 3 (by omega), h 4 (by omega), h 5 (by omega),
    h 6 (by omega), h 7 (by omega)]
  exact sum_testBit_eq b hb

end Utils

namespace edac

namespace BPTC19696

/-! ## The packed buffer and the raw plane -/

/-- A run of `byteToBitsBE` calls over consecutive bytes and bit offsets. -/
theorem foldl_byteToBitsBE (src : Nat → Nat) (s0 off n : Nat) (base : Nat → Bool) (j : Nat) :
    (List.range n).foldl (fun b i => Utils.byteToBitsBE (src (s0 + i)) b (off + 8 * i)) base j =
      if off ≤ j ∧ j < off + 8 * n then (src (s0 + (j - off) / 8)).testBit (7 - (j - off) % 8)
      else base j := by
  induction n with
  | zero => rw [if_neg (by omega)]; rfl
  | succ n ih =>
    rw [foldl_range_succ, Utils.byteToBitsBE_apply, ih]
    by_cases h : off + 8 * n ≤ j ∧ j < off + 8 * n + 8
    · rw [if_pos h, if_pos (by omega)]
      have h1 : (j - off) / 8 = n := by omega
      have h2 : (j - off) % 8 = j - (off + 8 * n) := by omega
      rw [h1, h2]
    · rw [if_neg h]
      by_cases h2 : off ≤ j ∧ j < off + 8 * n
      · rw [if_pos h2, if_pos (by omega)]
      · rw [if_neg h2, if_neg (by omega)]

theorem decodeExtractBinary_raw_eq (self : BPTC19696) (in_ : Nat → Nat) :
    (self.decodeExtractBinary in_).m_rawData =
      (List.range 12).foldl (fun b i => Utils.byteToBitsBE (in_ (21 + i)) b (100 + 8 * i))
        (Function.update (Function.update
          ((List.range 13).foldl (fun b i => Utils.byteToBitsBE (in_ (0 + i)) b (0 + 8 * i))
            self.m_rawData) 98 ((in_ 20).testBit 1)) 99 ((in_ 20).testBit 0)) := rfl

/-- The raw plane that `decodeExtractBinary` builds, position by position. -/
theorem decodeExtractBinary_raw (self : BPTC19696) (in_ : Nat → Nat) (j : Nat) :
    (self.decodeExtractBinary in_).m_rawData j =
      if j < 96 then (in_ (j / 8)).testBit (7 - j % 8)
      else if j < 98 then (in_ 12).testBit (7 - (j - 96))
      else if j < 100 then (in_ 20).testBit (1 - (j - 98))
      else if j < 196 then (in_ (21 + (j - 100) / 8)).testBit (7 - (j - 100) % 8)
      else self.m_rawData j := by
  rw [decodeExtractBinary_raw_eq, foldl_byteToBitsBE, Function.update_apply,
    Function.update_apply, foldl_byteToBitsBE]
  by_cases h1 : j < 96
  · rw [if_neg (show ¬(100 ≤ j ∧ j < 100 + 8 * 12) by omega), if_neg (show ¬j = 99 by omega),
      if_neg (show ¬j = 98 by omega), if_pos (show 0 ≤ j ∧ j < 0 + 8 * 13 by omega), if_pos h1,
      Nat.sub_zero, Nat.zero_add]
  · rw [if_neg h1]
    by_cases h2 : j < 98
    · rw [if_neg (show ¬(100 ≤ j ∧ j < 100 + 8 * 12) by omega), if_neg (show ¬j = 99 by omega),
        if_neg (show ¬j = 98 by omega), if_pos (show 0 ≤ j ∧ j < 0 + 8 * 13 by omega), if_pos h2,
        Nat.sub_zero, Nat.zero_add, show j / 8 = 12 by omega,
        show 7 - j % 8 = 7 - (j - 96) by omega]
    · rw [if_neg h2]
      by_cases h3 : j < 100
      · rw [if_pos h3, if_neg (show ¬(100 ≤ j ∧ j < 100 + 8 * 12) by omega)]
        by_cases h4 : j = 99
        · rw [if_pos h4, h4]
        · rw [if_neg h4, if_pos (show j = 98 by omega), show j = 98 by omega]
      · rw [if_neg h3]
        by_cases h5 : j < 196
        · rw [if_pos h5, if_pos (show 100 ≤ j ∧ j < 100 + 8 * 12 by omega)]
        · rw [if_neg h5, if_neg (show ¬(100 ≤ j ∧ j < 100 + 8 * 12) by omega),
            if_neg (show ¬j = 99 by omega), if_neg (show ¬j = 98 by omega),
            if_neg (show ¬(0 ≤ j ∧ j < 0 + 8 * 13) by omega)]

theorem decodeExtractBinary_deInter (self : BPTC19696) (in_ : Nat → Nat) :
    (self.decodeExtractBinary in_).m_deInterData = self.m_deInterData := rfl

/-- The buffer that `encodeExtractBinary` leaves, byte by byte. -/
theorem encodeExtractBinary_apply (self : BPTC19696) (data : Nat → Nat) (i : Nat) :
    self.encodeExtractBinary data i =
      if i < 12 then Utils.bitsToByteBE self.m_rawData (8 * i)
      else if i = 12 then
        (data 12 &&& 0x3F) ||| ((Utils.bitsToByteBE self.m_rawData 96 >>> 0) &&& 0xC0)
      else if i = 20 then
        (data 20 &&& 0xFC) ||| ((Utils.bitsToByteBE self.m_rawData 96 >>> 4) &&& 0x03)
      else if 21 ≤ i ∧ i < 33 then Utils.bitsToByteBE self.m_rawData (100 + 8 * (i - 21))
      else data i := by
  unfold encodeExtractBinary
  simp only [Function.update_apply]
  by_cases hi : i < 33
  · interval_cases i <;> simp
  · repeat rw [if_neg (by omega)]

/-- Unpacking the buffer written by `encodeExtractBinary` gives back the raw
plane at every one of its 196 positions. -/
theorem decodeExtractBinary_encodeExtractBinary (s t : BPTC19696) (data : Nat → Nat) (j : Nat)
    (hj : j < 196) :
    (s.decodeExtractBinary (t.encodeExtractBinary data)).m_rawData j = t.m_rawData j := by
  rw [decodeExtractBinary_raw]
  by_cases h1 : j < 96
  · rw [if_pos h1, encodeExtractBinary_apply, if_pos (by omega),
      Utils.testBit_bitsToByteBE _ _ _ (Nat.mod_lt _ (by decide))]
    congr 1; omega
  · rw [if_neg h1]
    by_cases h2 : j < 98
    · rw [if_pos h2, encodeExtractBinary_apply, if_neg (by decide), if_pos rfl]
      have h7 := Utils.testBit_bitsToByteBE t.m_rawData 96 0 (by decide)
      have h6 := Utils.testBit_bitsToByteBE t.m_rawData 96 1 (by decide)
      have hj' : j = 96 ∨ j = 97 := by omega
      rcases hj' with rfl | rfl
      · simp only [Nat.testBit_lor, Nat.testBit_land, Nat.shiftRight_zero]
        rw [show (7 - (96 - 96)) = 7 from rfl, show (0x3F : Nat).testBit 7 = false from rfl,
          show (0xC0 : Nat).testBit 7 = true from rfl]
        simpa using h7
      · simp only [Nat.testBit_lor, Nat.testBit_land, Nat.shiftRight_zero]
        rw [show (7 - (97 - 96)) = 6 from rfl, show (0x3F : Nat).testBit 6 = false from rfl,
          show (0xC0 : Nat).testBit 6 = true from rfl]
        simpa using h6
    · rw [if_neg h2]
      by_cases h3 : j < 100
      · rw [if_pos h3, encodeExtractBinary_apply, if_neg (by decide), if_neg (by decide),
          if_pos rfl]
        have h5 := Utils.testBit_bitsToByteBE t.m_rawData 96 2 (by decide)
        have h4 := Utils.testBit_bitsToByteBE t.m_rawData 96 3 (by decide)
        have hj' : j = 98 ∨ j = 99 := by omega
        rcases hj' with rfl | rfl
        · simp only [Nat.testBit_lor, Nat.testBit_land, Nat.testBit_shiftRight]
          rw [show (1 - (98 - 98)) = 1 from rfl, show (0xFC : Nat).testBit 1 = false from rfl,
            show (0x03 : Nat).testBit 1 = true from rfl]
          simpa using h5
        · simp only [Nat.testBit_lor, Nat.testBit_land, Nat.testBit_shiftRight]
          rw [show (1 - (99 - 98)) = 0 from rfl, show (0xFC : Nat).testBit 0 = false from rfl,
            show (0x03 : Nat).testBit 0 = true from rfl]
          simpa using h4
      · rw [if_neg h3, if_pos hj, encodeExtractBinary_apply, if_neg (by omega),
          if_neg (by omega), if_neg (by omega), if_pos (by omega),
          Utils.testBit_bitsToByteBE _ _ _ (Nat.mod_lt _ (by decide))]
        congr 1; omega

end BPTC19696

end edac

namespace edac

namespace BPTC19696

/-! ## The interleaver -/

theorem interleaveSequence_lt (a : Nat) : interleaveSequence a < 196 := by
  unfold interleaveSequence; omega

/-- Multiplying by 13 undoes the interleave sequence: `181 * 13 = 12 * 196 + 1`. -/
theorem interleaveSequence_left_inv (a : Nat) (ha : a < 196) :
    (interleaveSequence a * 13) % 196 = a := by
  unfold interleaveSequence; omega

theorem interleaveSequence_right_inv (j : Nat) (hj : j < 196) :
    interleaveSequence ((j * 13) % 196) = j := by
  unfold interleaveSequence; omega

theorem interleaveSequence_inj (a b : Nat) (ha : a < 196) (hb : b < 196)
    (h : interleaveSequence a = interleaveSequence b) : a = b := by
  rw [← interleaveSequence_left_inv a ha, ← interleaveSequence_left_inv b hb, h]

theorem decodeDeInterleave_deInter (self : BPTC19696) (a : Nat) :
    self.decodeDeInterleave.m_deInterData a =
      if a < 196 then self.m_rawData (interleaveSequence a) else self.m_deInterData a := by
  unfold decodeDeInterleave
  simp only
  by_cases h : a < 196
  · rw [if_pos h]
    exact foldl_update_of_key (fun i => i) (fun i => self.m_rawData (interleaveSequence i)) 196 _
      (fun _ _ _ _ e => e) a h
  · rw [if_neg h]
    rw [foldl_update_of_not_key (fun i => i) (fun i => self.m_rawData (interleaveSequence i)) 196 _
      a (fun x hx e => h (e ▸ hx)), clear196_apply, if_neg h]

theorem decodeDeInterleave_raw (self : BPTC19696) :
    self.decodeDeInterleave.m_rawData = self.m_rawData := rfl

theorem encodeInterleave_raw (self : BPTC19696) (j : Nat) :
    self.encodeInterleave.m_rawData j =
      if j < 196 then self.m_deInterData ((j * 13) % 196) else self.m_rawData j := by
  unfold encodeInterleave
  simp only
  by_cases h : j < 196
  · rw [if_pos h]
    have hk := foldl_update_of_key interleaveSequence (fun a => self.m_deInterData a) 196
      (clear196 self.m_rawData) (fun a b ha hb e => interleaveSequence_inj a b ha hb e)
      ((j * 13) % 196) (Nat.mod_lt _ (by decide))
    rw [interleaveSequence_right_inv j h] at hk
    exact hk
  · rw [if_neg h]
    rw [foldl_update_of_not_key interleaveSequence (fun a => self.m_deInterData a) 196 _ j
      (fun x _ e => h (e ▸ interleaveSequence_lt x)), clear196_apply, if_neg h]

theorem encodeInterleave_deInter (self : BPTC19696) :
    self.encodeInterleave.m_deInterData = self.m_deInterData := rfl

end BPTC19696

end edac

namespace edac

namespace BPTC19696

/-! ## Payload placement -/

/-- The deinterleaved plane after `encodeExtractData`: row `r = (j - 1) / 15`,
offset `o = (j - 1) % 15` holds payload bit `11 * r + o - 3` when `j` is one of
the 96 data positions, and false at the other positions below 196. -/
theorem encodeExtractData_deInter (self : BPTC19696) (in_ : Nat → Nat) (j : Nat) :
    (self.encodeExtractData in_).m_deInterData j =
      if 4 ≤ j ∧ (j - 1) / 15 < 9 ∧ (j - 1) % 15 < 11
      then payloadBit in_ (11 * ((j - 1) / 15) + (j - 1) % 15 - 3)
      else if j < 196 then false else self.m_deInterData j := by
  have hb : ∀ k, (Utils.byteToBitsBE (in_ 11) (Utils.byteToBitsBE (in_ 10)
      (Utils.byteToBitsBE (in_ 9) (Utils.byteToBitsBE (in_ 8) (Utils.byteToBitsBE (in_ 7)
      (Utils.byteToBitsBE (in_ 6) (Utils.byteToBitsBE (in_ 5) (Utils.byteToBitsBE (in_ 4)
      (Utils.byteToBitsBE (in_ 3) (Utils.byteToBitsBE (in_ 2) (Utils.byteToBitsBE (in_ 1)
      (Utils.byteToBitsBE (in_ 0) (fun _ => false) 0) 8) 16) 24) 32) 40) 48) 56) 64) 72) 80) 88) k
      = if k < 96 then payloadBit in_ k else false := by
    intro k
    have h := foldl_byteToBitsBE in_ 0 0 12 (fun _ => false) k
    simp only [Nat.zero_add, Nat.sub_zero, Nat.zero_le, true_and] at h
    exact h
  unfold encodeExtractData
  simp only [placeRange_eq, hb, clear196_apply]
  simp only [Nat.reduceAdd, Nat.reduceSub, Nat.zero_add]
  have hcase : (4 ≤ j ∧ j < 12) ∨ (16 ≤ j ∧ j < 27) ∨ (31 ≤ j ∧ j < 42) ∨ (46 ≤ j ∧ j < 57) ∨
      (61 ≤ j ∧ j < 72) ∨ (76 ≤ j ∧ j < 87) ∨ (91 ≤ j ∧ j < 102) ∨ (106 ≤ j ∧ j < 117) ∨
      (121 ≤ j ∧ j < 132) ∨
      j < 4 ∨ (12 ≤ j ∧ j < 16) ∨ (27 ≤ j ∧ j < 31) ∨ (42 ≤ j ∧ j < 46) ∨ (57 ≤ j ∧ j < 61) ∨
        (72 ≤ j ∧ j < 76) ∨ (87 ≤ j ∧ j < 91) ∨ (102 ≤ j ∧ j < 106) ∨ (117 ≤ j ∧ j < 121) ∨
        132 ≤ j := by omega
  by_cases h196 : j < 196 <;>
  rcases hcase with h | h | h | h | h | h | h | h | h | h | h | h | h | h | h | h | h | h | h <;>
    (repeat (first | rw [if_pos (by omega)] | rw [if_neg (by omega)])) <;>
    (try (exact congrArg (payloadBit in_) (by omega)))

/-- The scratch array `bData` after the nine copy loops of `decodeExtractData`. -/
theorem takeRange_chain (D : Nat → Bool) (k : Nat) :
    (takeRange D 121 131 (takeRange D 106 116 (takeRange D 91 101 (takeRange D 76 86
      (takeRange D 61 71 (takeRange D 46 56 (takeRange D 31 41 (takeRange D 16 26
      (takeRange D 4 11 (fun _ => false, 0)))))))))).1 k =
      if k < 96 then D (dataPosition k) else false := by
  simp only [takeRange_eq, Nat.reduceAdd, Nat.reduceSub, Nat.zero_add]
  unfold dataPosition
  have hcase : k < 8 ∨ (8 ≤ k ∧ k < 19) ∨ (19 ≤ k ∧ k < 30) ∨ (30 ≤ k ∧ k < 41) ∨
      (41 ≤ k ∧ k < 52) ∨ (52 ≤ k ∧ k < 63) ∨ (63 ≤ k ∧ k < 74) ∨ (74 ≤ k ∧ k < 85) ∨
      (85 ≤ k ∧ k < 96) ∨ 96 ≤ k := by omega
  rcases hcase with h | h | h | h | h | h | h | h | h | h <;>
    (repeat (first | rw [if_pos (by omega)] | rw [if_neg (by omega)])) <;>
    (try (exact congrArg D (by omega)))

/-- The output buffer of `decodeExtractData`: twelve bytes packed from the data
positions of the deinterleaved plane, the rest of the buffer untouched. -/
theorem decodeExtractData_apply (self : BPTC19696) (data : Nat → Nat) (i : Nat) :
    self.decodeExtractData data i =
      if i < 12 then
        Utils.bitsToByteBE
          (fun k => if k < 96 then self.m_deInterData (dataPosition k) else false) (8 * i)
      else data i := by
  have hfun : (takeRange self.m_deInterData 121 131 (takeRange self.m_deInterData 106 116
      (takeRange self.m_deInterData 91 101 (takeRange self.m_deInterData 76 86
      (takeRange self.m_deInterData 61 71 (takeRange self.m_deInterData 46 56
      (takeRange self.m_deInterData 31 41 (takeRange self.m_deInterData 16 26
      (takeRange self.m_deInterData 4 11 (fun _ => false, 0)))))))))).1 =
      fun k => if k < 96 then self.m_deInterData (dataPosition k) else false :=
    funext (takeRange_chain self.m_deInterData)
  unfold decodeExtractData
  simp only [hfun, Function.update_apply]
  by_cases hi : i < 12
  · interval_cases i <;> rfl
  · repeat rw [if_neg (by omega)]

end BPTC19696

end edac

namespace edac

theorem Codeword.get_of_lt {n : Nat} (d : Codeword n) (i : Nat) (h : i < n) :
    d.get i = d ⟨i, h⟩ := dif_pos h

theorem Codeword.get_val {n : Nat} (d : Codeword n) (i : Fin n) : d.get i.val = d i :=
  dif_pos i.isLt

namespace BPTC19696

/-! ## Row and column parity of the encoder -/

/-- The plane after the first `R` iterations of the row loop of
`encodeErrorCheck`: the rows below `R` are encoded, the rest is untouched. -/
theorem encodeRows_apply (H : HammingOps) (de0 : Nat → Bool) (R j : Nat) :
    (List.range R).foldl (encodeRow H) de0 j =
      if 1 ≤ j ∧ (j - 1) / 15 < R
      then (H.encode15113_2 (loadRow de0 ((j - 1) / 15 * 15 + 1))).get ((j - 1) % 15)
      else de0 j := by
  induction R generalizing j with
  | zero => rw [if_neg (by omega)]; rfl
  | succ R ih =>
    rw [foldl_range_succ]
    have hrow : loadRow ((List.range R).foldl (encodeRow H) de0) (R * 15 + 1) =
        loadRow de0 (R * 15 + 1) := by
      funext i
      have hi := i.isLt
      show (List.range R).foldl (encodeRow H) de0 (R * 15 + 1 + i.val) = de0 (R * 15 + 1 + i.val)
      rw [ih, if_neg (by omega)]
    show storeRow _ (R * 15 + 1) (H.encode15113_2 (loadRow _ (R * 15 + 1))) j = _
    rw [hrow]
    unfold storeRow
    by_cases hw : R * 15 + 1 ≤ j ∧ j < R * 15 + 1 + 15
    · have h1 : (j - 1) / 15 = R := by omega
      have h2 : (j - 1) % 15 = j - (R * 15 + 1) := by omega
      rw [if_pos hw, if_pos (by omega), h1, h2]
    · rw [if_neg hw, ih]
      by_cases h3 : 1 ≤ j ∧ (j - 1) / 15 < R
      · rw [if_pos h3, if_pos (by omega)]
      · rw [if_neg h3, if_neg (by omega)]

/-- The plane after the first `C` iterations of the column loop of
`encodeErrorCheck`, started on the plane `dR`: the columns below `C` are
encoded, the rest is untouched. -/
theorem encodeCols_apply (H : HammingOps) (dR : Nat → Bool) (C : Nat) (hC : C ≤ 15) (j : Nat) :
    (List.range C).foldl (encodeColumn H) dR j =
      if 1 ≤ j ∧ j < 196 ∧ (j - 1) % 15 < C
      then (H.encode1393 (loadCol dR ((j - 1) % 15))).get ((j - 1) / 15)
      else dR j := by
  induction C generalizing j with
  | zero => rw [if_neg (by omega)]; rfl
  | succ C ih =>
    have ih' := fun j => ih (by omega) j
    rw [foldl_range_succ]
    have hcol : loadCol ((List.range C).foldl (encodeColumn H) dR) C = loadCol dR C := by
      funext a
      have ha := a.isLt
      show (List.range C).foldl (encodeColumn H) dR (C + 1 + 15 * a.val) = dR (C + 1 + 15 * a.val)
      rw [ih', if_neg (by omega)]
    show storeCol _ C (H.encode1393 (loadCol _ C)) j = _
    rw [hcol, storeCol_apply]
    by_cases hw : C + 1 ≤ j ∧ (j - (C + 1)) % 15 = 0 ∧ (j - (C + 1)) / 15 < 13
    · have h1 : (j - 1) % 15 = C := by omega
      have h2 : (j - (C + 1)) / 15 = (j - 1) / 15 := by omega
      rw [if_pos hw, if_pos (by omega), h1, h2]
    · rw [if_neg hw, ih']
      by_cases h3 : 1 ≤ j ∧ j < 196 ∧ (j - 1) % 15 < C
      · rw [if_pos h3, if_pos (by omega)]
      · rw [if_neg h3, if_neg (by omega)]

/-- The deinterleaved plane after `encodeErrorCheck`. -/
theorem encodeErrorCheck_deInter (H : HammingOps) (self : BPTC19696) (j : Nat) :
    (self.encodeErrorCheck H).m_deInterData j =
      if 1 ≤ j ∧ j < 196
      then (H.encode1393
        (loadCol ((List.range 9).foldl (encodeRow H) self.m_deInterData) ((j - 1) % 15))).get
          ((j - 1) / 15)
      else (List.range 9).foldl (encodeRow H) self.m_deInterData j := by
  show (List.range 15).foldl (encodeColumn H) _ j = _
  rw [encodeCols_apply H _ 15 (Nat.le_refl 15)]
  by_cases h : 1 ≤ j ∧ j < 196
  · rw [if_pos h, if_pos (by omega)]
  · rw [if_neg h, if_neg (by omega)]

theorem encodeErrorCheck_raw (H : HammingOps) (self : BPTC19696) :
    (self.encodeErrorCheck H).m_rawData = self.m_rawData := rfl

/-- Every column of the encoded plane is a valid (13,9,3) codeword. -/
theorem encodeErrorCheck_loadCol (H : HammingOps) (self : BPTC19696) (c : Nat) (hc : c < 15) :
    loadCol (self.encodeErrorCheck H).m_deInterData c =
      H.encode1393 (loadCol ((List.range 9).foldl (encodeRow H) self.m_deInterData) c) := by
  funext a
  have ha := a.isLt
  show (self.encodeErrorCheck H).m_deInterData (c + 1 + 15 * a.val) = _
  have h1 : (c + 1 + 15 * a.val - 1) % 15 = c := by omega
  have h2 : (c + 1 + 15 * a.val - 1) / 15 = a.val := by omega
  rw [encodeErrorCheck_deInter, if_pos (by omega), h1, h2, Codeword.get_val]

/-- The column pass does not disturb the nine data rows. -/
theorem encodeErrorCheck_of_row_lt (H : HammingOps) (hW : H.WritesParityOnly) (self : BPTC19696)
    (j : Nat) (h1 : 1 ≤ j) (h2 : (j - 1) / 15 < 9) :
    (self.encodeErrorCheck H).m_deInterData j =
      (List.range 9).foldl (encodeRow H) self.m_deInterData j := by
  rw [encodeErrorCheck_deInter, if_pos (by omega),
    Codeword.get_of_lt _ _ (show (j - 1) / 15 < 13 by omega), hW.2 _ _ (by simpa using h2)]
  have hj : (j - 1) % 15 + 1 + 15 * ((j - 1) / 15) = j := by omega
  show (List.range 9).foldl (encodeRow H) self.m_deInterData ((j - 1) % 15 + 1 + 15 * ((j - 1) / 15)) = _
  rw [hj]

/-- Every data row of the encoded plane is a valid (15,11,3) codeword. -/
theorem encodeErrorCheck_loadRow (H : HammingOps) (hW : H.WritesParityOnly) (self : BPTC19696)
    (r : Nat) (hr : r < 9) :
    loadRow (self.encodeErrorCheck H).m_deInterData (r * 15 + 1) =
      H.encode15113_2 (loadRow self.m_deInterData (r * 15 + 1)) := by
  funext i
  have hi := i.isLt
  show (self.encodeErrorCheck H).m_deInterData (r * 15 + 1 + i.val) = _
  have h1 : (r * 15 + 1 + i.val - 1) / 15 = r := by omega
  have h2 : (r * 15 + 1 + i.val - 1) % 15 = i.val := by omega
  rw [encodeErrorCheck_of_row_lt H hW self _ (by omega) (by omega), encodeRows_apply,
    if_pos (by omega), h1, h2, Codeword.get_val]

/-- The parity passes leave the data positions of the nine data rows alone. -/
theorem encodeErrorCheck_of_data (H : HammingOps) (hW : H.WritesParityOnly) (self : BPTC19696)
    (j : Nat) (h1 : 1 ≤ j) (h2 : (j - 1) / 15 < 9) (h3 : (j - 1) % 15 < 11) :
    (self.encodeErrorCheck H).m_deInterData j = self.m_deInterData j := by
  rw [encodeErrorCheck_of_row_lt H hW self j h1 h2, encodeRows_apply, if_pos (by omega),
    Codeword.get_of_lt _ _ (show (j - 1) % 15 < 15 by omega), hW.1 _ _ (by simpa using h3)]
  have hj : (j - 1) / 15 * 15 + 1 + (j - 1) % 15 = j := by omega
  show self.m_deInterData ((j - 1) / 15 * 15 + 1 + (j - 1) % 15) = _
  rw [hj]

end BPTC19696

end edac

namespace edac

namespace BPTC19696

/-! ## The error check on a valid plane -/

theorem loadCol_congr {D E : Nat → Bool} (hA : Agree D E) (c : Nat) (hc : c < 15) :
    loadCol D c = loadCol E c := by
  funext a
  have ha := a.isLt
  exact hA _ (by omega) (by omega)

theorem loadRow_congr {D E : Nat → Bool} (hA : Agree D E) (r : Nat) (hr : r < 9) :
    loadRow D (r * 15 + 1) = loadRow E (r * 15 + 1) := by
  funext i
  have hi := i.isLt
  exact hA _ (by omega) (by omega)

/-- The plane produced by the encoder is valid. -/
theorem validPlane_encodeErrorCheck (H : HammingOps) (hW : H.WritesParityOnly)
    (self : BPTC19696) : ValidPlane H (self.encodeErrorCheck H).m_deInterData :=
  ⟨fun c hc => ⟨_, encodeErrorCheck_loadCol H self c hc⟩,
    fun r hr => ⟨_, encodeErrorCheck_loadRow H hW self r hr⟩⟩

theorem decodeColumn_of_agree (H : HammingOps) (hK : H.KeepsValid) {E : Nat → Bool}
    (hV : ValidPlane H E) (st : Bool × (Nat → Bool)) (hA : Agree st.2 E) (c : Nat) (hc : c < 15) :
    decodeColumn H st c = st := by
  obtain ⟨d, hd⟩ := hV.1 c hc
  unfold decodeColumn
  simp only [loadCol_congr hA c hc, hd, hK.2 d]
  rfl

theorem decodeRow_of_agree (H : HammingOps) (hK : H.KeepsValid) {E : Nat → Bool}
    (hV : ValidPlane H E) (st : Bool × (Nat → Bool)) (hA : Agree st.2 E) (r : Nat) (hr : r < 9) :
    (decodeRow H st r).1 = st.1 ∧ Agree (decodeRow H st r).2 E := by
  obtain ⟨d, hd⟩ := hV.2 r hr
  unfold decodeRow
  simp only [loadRow_congr hA r hr, hd, hK.1 d]
  refine ⟨by simp, ?_⟩
  intro j h1 h2
  unfold storeRow
  by_cases hw : r * 15 + 1 ≤ j ∧ j < r * 15 + 1 + 15
  · rw [if_pos hw, ← hd, Codeword.get_of_lt _ _ (show j - (r * 15 + 1) < 15 by omega)]
    show E (r * 15 + 1 + (j - (r * 15 + 1))) = E j
    rw [show r * 15 + 1 + (j - (r * 15 + 1)) = j by omega]
  · rw [if_neg hw]
    exact hA j h1 h2

/-- A pass of the error check over a plane that agrees with a valid plane
corrects nothing and keeps the agreement. -/
theorem decodePass_of_agree (H : HammingOps) (hK : H.KeepsValid) {E : Nat → Bool}
    (hV : ValidPlane H E) (D : Nat → Bool) (hA : Agree D E) :
    (decodePass H D).1 = false ∧ Agree (decodePass H D).2 E := by
  unfold decodePass
  have hcols : (List.range 15).foldl (decodeColumn H) (false, D) = (false, D) := by
    apply foldl_range_invariant (fun _ st => st = (false, D)) (decodeColumn H) 15 (false, D) rfl
    intro i t hi ht
    subst ht
    exact decodeColumn_of_agree H hK hV _ hA i hi
  simp only [hcols]
  apply foldl_range_invariant (fun _ st => st.1 = false ∧ Agree st.2 E) (decodeRow H) 9 (false, D)
    ⟨rfl, hA⟩
  intro i t hi ht
  have h := decodeRow_of_agree H hK hV t ht.2 i hi
  exact ⟨h.1.trans ht.1, h.2⟩

/-- The whole correction loop keeps the agreement with a valid plane, however
many passes it makes. -/
theorem decodeLoop_of_agree (H : HammingOps) (hK : H.KeepsValid) {E : Nat → Bool}
    (hV : ValidPlane H E) (fuel count : Nat) (D : Nat → Bool) (hA : Agree D E) :
    Agree (decodeLoop H fuel count D).2 E := by
  induction fuel generalizing count D with
  | zero => exact hA
  | succ fuel ih =>
    have h := decodePass_of_agree H hK hV D hA
    unfold decodeLoop
    simp only [h.1, Bool.false_and]
    exact h.2

/-! ## The error check on a plane with one inverted bit -/

/-- The column loop restores a single inverted bit at position `a`. -/
theorem decodeColumns_single (H : HammingOps) (hK : H.KeepsValid) (hC : H.CorrectsSingle1393)
    {E : Nat → Bool} (hV : ValidPlane H E) (F : Nat → Bool) (a : Nat) (ha1 : 1 ≤ a)
    (ha2 : a < 196) (hF : ∀ j, 1 ≤ j → j < 196 → j ≠ a → F j = E j) (hFa : F a = !E a) :
    Agree ((List.range 15).foldl (decodeColumn H) (false, F)).2 E := by
  have hinv := foldl_range_invariant
    (fun c st => (∀ j, 1 ≤ j → j < 196 → j ≠ a → st.2 j = E j) ∧
      ((a - 1) % 15 < c → st.2 a = E a) ∧ (c ≤ (a - 1) % 15 → st.2 a = !E a))
    (decodeColumn H) 15 (false, F) ⟨hF, fun h => absurd h (by omega), fun _ => hFa⟩ ?_
  · intro j h1 h2
    by_cases hj : j = a
    · subst hj; exact hinv.2.1 (by omega)
    · exact hinv.1 j h1 h2 hj
  · intro c st hc ⟨h1, h2, h3⟩
    by_cases hcc : c = (a - 1) % 15
    · -- the column holding the inverted bit
      obtain ⟨d, hd⟩ := hV.1 c hc
      have hq : (a - 1) / 15 < 13 := by omega
      have hflip : loadCol st.2 c =
          Function.update (H.encode1393 d) ⟨(a - 1) / 15, hq⟩
            (!(H.encode1393 d ⟨(a - 1) / 15, hq⟩)) := by
        funext x
        have hx := x.isLt
        rw [← hd, Function.update_apply]
        by_cases hxa : x = ⟨(a - 1) / 15, hq⟩
        · rw [if_pos hxa, hxa]
          show st.2 (c + 1 + 15 * ((a - 1) / 15)) = !E (c + 1 + 15 * ((a - 1) / 15))
          rw [show c + 1 + 15 * ((a - 1) / 15) = a by omega]
          exact h3 (by omega)
        · rw [if_neg hxa]
          have hne : x.val ≠ (a - 1) / 15 := fun e => hxa (Fin.ext e)
          exact h1 _ (by omega) (by omega) (by omega)
      have hdec : decodeColumn H st c = (true, storeCol st.2 c (H.encode1393 d)) := by
        unfold decodeColumn
        simp only [hflip, hC d]
        rfl
      rw [hdec]
      have hstore : ∀ j, 1 ≤ j → j < 196 → (j - 1) % 15 = c →
          storeCol st.2 c (H.encode1393 d) j = E j := by
        intro j hj1 hj2 hjc
        rw [storeCol_apply, if_pos (by omega), ← hd,
          Codeword.get_of_lt _ _ (show (j - (c + 1)) / 15 < 13 by omega)]
        show E (c + 1 + 15 * ((j - (c + 1)) / 15)) = E j
        rw [show c + 1 + 15 * ((j - (c + 1)) / 15) = j by omega]
      refine ⟨?_, fun _ => hstore a ha1 ha2 hcc.symm, fun h => absurd h (by omega)⟩
      intro j hj1 hj2 hja
      by_cases hjc : (j - 1) % 15 = c
      · exact hstore j hj1 hj2 hjc
      · show storeCol st.2 c (H.encode1393 d) j = E j
        rw [storeCol_apply, if_neg (by omega)]
        exact h1 j hj1 hj2 hja
    · -- a column without the inverted bit is valid
      obtain ⟨d, hd⟩ := hV.1 c hc
      have hcol : loadCol st.2 c = H.encode1393 d := by
        rw [← hd]
        funext x
        have hx := x.isLt
        exact h1 _ (by omega) (by omega) (by omega)
      have hdec : decodeColumn H st c = st := by
        unfold decodeColumn
        simp only [hcol, hK.2 d]
        rfl
      rw [hdec]
      exact ⟨h1, fun h => h2 (by omega), fun h => h3 (by omega)⟩

theorem decodeRows_of_agree (H : HammingOps) (hK : H.KeepsValid) {E : Nat → Bool}
    (hV : ValidPlane H E) (st : Bool × (Nat → Bool)) (hA : Agree st.2 E) :
    Agree ((List.range 9).foldl (decodeRow H) st).2 E := by
  apply foldl_range_invariant (fun _ t => Agree t.2 E) (decodeRow H) 9 st hA
  intro i t hi ht
  exact (decodeRow_of_agree H hK hV t ht i hi).2

/-- The correction loop restores a plane in which one position differs from a
valid plane. -/
theorem decodeLoop_single (H : HammingOps) (hK : H.KeepsValid) (hC : H.CorrectsSingle1393)
    {E : Nat → Bool} (hV : ValidPlane H E) (F : Nat → Bool) (a : Nat) (ha2 : a < 196)
    (hF : ∀ j, 1 ≤ j → j < 196 → j ≠ a → F j = E j) (hFa : F a = !E a)
    (fuel count : Nat) :
    Agree (decodeLoop H (fuel + 1) count F).2 E := by
  by_cases ha1 : 1 ≤ a
  · have hcols := decodeColumns_single H hK hC hV F a ha1 ha2 hF hFa
    have hpass : Agree (decodePass H F).2 E := by
      unfold decodePass
      exact decodeRows_of_agree H hK hV ((List.range 15).foldl (decodeColumn H) (false, F)) hcols
    unfold decodeLoop
    simp only
    split
    · exact decodeLoop_of_agree H hK hV fuel (count + 1) (decodePass H F).2 hpass
    · exact hpass
  · exact decodeLoop_of_agree H hK hV (fuel + 1) count F
      (fun j h1 h2 => hF j h1 h2 (by omega))

end BPTC19696

end edac

namespace edac

namespace BPTC19696

/-! ## From the encoder to the decoder -/

theorem encode_snd (H : HammingOps) (s : BPTC19696) (p buf : Nat → Nat) :
    (encode H s p buf).2 =
      (((s.encodeExtractData p).encodeErrorCheck H).encodeInterleave).encodeExtractBinary buf :=
  rfl

theorem decode_snd (H : HammingOps) (s : BPTC19696) (in_ out : Nat → Nat) :
    (decode H s in_ out).2 =
      (((s.decodeExtractBinary in_).decodeDeInterleave).decodeErrorCheck H).decodeExtractData out :=
  rfl

/-- The raw plane the decoder unpacks from an encoded buffer is the interleaved
encoder plane. -/
theorem raw_of_encode (H : HammingOps) (s s' : BPTC19696) (p buf : Nat → Nat) (j : Nat)
    (hj : j < 196) :
    (s'.decodeExtractBinary (encode H s p buf).2).m_rawData j =
      ((s.encodeExtractData p).encodeErrorCheck H).m_deInterData ((j * 13) % 196) := by
  rw [encode_snd, decodeExtractBinary_encodeExtractBinary _ _ _ _ hj, encodeInterleave_raw,
    if_pos hj]

/-- The decoder's deinterleaved plane, before the error check, is the plane the
encoder built. -/
theorem deInter_of_encode (H : HammingOps) (s s' : BPTC19696) (p buf : Nat → Nat) (j : Nat)
    (hj : j < 196) :
    ((s'.decodeExtractBinary (encode H s p buf).2).decodeDeInterleave).m_deInterData j =
      ((s.encodeExtractData p).encodeErrorCheck H).m_deInterData j := by
  rw [decodeDeInterleave_deInter, if_pos hj, raw_of_encode H s s' p buf _ (interleaveSequence_lt j),
    interleaveSequence_left_inv j hj]

/-- Extracting the data from a plane that agrees with the encoder's plane gives
the payload. -/
theorem decodeExtractData_of_agree (H : HammingOps) (hW : H.WritesParityOnly) (s : BPTC19696)
    (p : Nat → Nat) (hp : ∀ i, i < 12 → p i < 256) (D : BPTC19696)
    (hA : Agree D.m_deInterData ((s.encodeExtractData p).encodeErrorCheck H).m_deInterData)
    (out : Nat → Nat) (i : Nat) (hi : i < 12) : D.decodeExtractData out i = p i := by
  rw [decodeExtractData_apply, if_pos hi]
  apply Utils.bitsToByteBE_of_testBit _ _ _ (hp i hi)
  intro t ht
  have hk : 8 * i + t < 96 := by omega
  simp only [if_pos hk]
  have hpos1 : 1 ≤ dataPosition (8 * i + t) := by unfold dataPosition; omega
  have hpos2 : dataPosition (8 * i + t) < 196 := by unfold dataPosition; omega
  have hrow : (dataPosition (8 * i + t) - 1) / 15 = (8 * i + t + 3) / 11 := by
    unfold dataPosition; omega
  have hoff : (dataPosition (8 * i + t) - 1) % 15 = (8 * i + t + 3) % 11 := by
    unfold dataPosition; omega
  rw [hA _ hpos1 hpos2,
    encodeErrorCheck_of_data H hW _ _ hpos1 (by rw [hrow]; omega) (by rw [hoff]; omega),
    encodeExtractData_deInter, if_pos ⟨by unfold dataPosition; omega, by rw [hrow]; omega,
      by rw [hoff]; omega⟩, hrow, hoff]
  unfold payloadBit
  have h1 : (11 * ((8 * i + t + 3) / 11) + (8 * i + t + 3) % 11 - 3) / 8 = i := by omega
  have h2 : (11 * ((8 * i + t + 3) / 11) + (8 * i + t + 3) % 11 - 3) % 8 = t := by omega
  rw [h1, h2]

end BPTC19696

end edac

namespace edac

namespace Hamming

/-! ## The Hamming routines as modelled -/

theorem encode15113_2_data (d : Codeword 15) (i : Fin 15) (hi : i.val < 11) :
    encode15113_2 d i = d i := by
  unfold encode15113_2
  rw [if_neg (fun h => by subst h; revert hi; decide),
    if_neg (fun h => by subst h; revert hi; decide),
    if_neg (fun h => by subst h; revert hi; decide),
    if_neg (fun h => by subst h; revert hi; decide)]

theorem encode1393_data (d : Codeword 13) (i : Fin 13) (hi : i.val < 9) :
    encode1393 d i = d i := by
  unfold encode1393
  rw [if_neg (fun h => by subst h; revert hi; decide),
    if_neg (fun h => by subst h; revert hi; decide),
    if_neg (fun h => by subst h; revert hi; decide),
    if_neg (fun h => by subst h; revert hi; decide)]

theorem decode15113_2_encode (d : Codeword 15) :
    decode15113_2 (encode15113_2 d) = (false, encode15113_2 d) := by
  simp [decode15113_2, encode15113_2]

theorem decode1393_encode (d : Codeword 13) :
    decode1393 (encode1393 d) = (false, encode1393 d) := by
  simp [decode1393, encode1393]

theorem ops_writesParityOnly : ops.WritesParityOnly :=
  ⟨encode15113_2_data, encode1393_data⟩

theorem ops_keepsValid : ops.KeepsValid :=
  ⟨decode15113_2_encode, decode1393_encode⟩

end Hamming

end edac

namespace edac

namespace Hamming

theorem decode1393_single (d : Codeword 13) (i : Fin 13) :
    decode1393 (Function.update (encode1393 d) i (!(encode1393 d i))) =
      (true, encode1393 d) := by
  fin_cases i <;> simp [decode1393, encode1393, Function.update]

theorem ops_correctsSingle1393 : ops.CorrectsSingle1393 := decode1393_single

end Hamming

end edac

namespace edac

namespace BPTC19696

/-! ## Main results on BPTC (196,96) -/

/-- C1 (BPTC round trip).  For every 12-byte payload `p`, every initial content
`buf` of the output buffer and every state of the scratch planes of the
encoding and of the decoding instance, `decode` applied to the buffer written
by `encode` returns exactly `p`, provided the Hamming encoders write only
parity positions and the Hamming decoders leave a valid codeword unchanged and
report no correction. -/
theorem bptc_round_trip (H : HammingOps) (hW : H.WritesParityOnly) (hK : H.KeepsValid)
    (s s' : BPTC19696) (p : Nat → Nat) (hp : ∀ i, i < 12 → p i < 256) (buf out : Nat → Nat)
    (i : Nat) (hi : i < 12) :
    (decode H s' (encode H s p buf).2 out).2 i = p i := by
  rw [decode_snd]
  apply decodeExtractData_of_agree H hW s p hp _ _ out i hi
  show Agree (decodeLoop H 5 0
    ((s'.decodeExtractBinary (encode H s p buf).2).decodeDeInterleave).m_deInterData).2 _
  apply decodeLoop_of_agree H hK (validPlane_encodeErrorCheck H hW _)
  intro j _ h2
  exact deInter_of_encode H s s' p buf j h2

/-- Witness for C1: the modelled Hamming routines satisfy both assumptions, and
the sample payload comes back from the sample buffer. -/
theorem bptc_round_trip_witness :
    Hamming.ops.WritesParityOnly ∧ Hamming.ops.KeepsValid ∧
    (∀ i, i < 12 → examplePayload i < 256) ∧
    (decode Hamming.ops exampleState
      (encode Hamming.ops exampleState examplePayload exampleBuffer).2 exampleBuffer).2 3 =
      examplePayload 3 :=
  ⟨Hamming.ops_writesParityOnly, Hamming.ops_keepsValid,
    fun i _ => Nat.mod_lt _ (by decide),
    bptc_round_trip Hamming.ops Hamming.ops_writesParityOnly Hamming.ops_keepsValid
      exampleState exampleState examplePayload (fun i _ => Nat.mod_lt _ (by decide))
      exampleBuffer exampleBuffer 3 (by decide)⟩

/-- The decoder recovers the payload from any buffer whose unpacked raw plane
differs from the raw plane of the encoded buffer at exactly one position `k`. -/
theorem decode_of_single_raw_flip (H : HammingOps) (hW : H.WritesParityOnly)
    (hK : H.KeepsValid) (hC : H.CorrectsSingle1393) (s s' : BPTC19696) (p : Nat → Nat)
    (hp : ∀ i, i < 12 → p i < 256) (buf out : Nat → Nat) (k : Nat) (hk : k < 196)
    (buf' : Nat → Nat)
    (hflip : ∀ j, j < 196 → (s'.decodeExtractBinary buf').m_rawData j =
      if j = k then !(s'.decodeExtractBinary (encode H s p buf).2).m_rawData j
      else (s'.decodeExtractBinary (encode H s p buf).2).m_rawData j)
    (i : Nat) (hi : i < 12) :
    (decode H s' buf' out).2 i = p i := by
  rw [decode_snd]
  apply decodeExtractData_of_agree H hW s p hp _ _ out i hi
  show Agree (decodeLoop H (4 + 1) 0 ((s'.decodeExtractBinary buf').decodeDeInterleave).m_deInterData).2 _
  have hk' : (k * 13) % 196 < 196 := Nat.mod_lt _ (by decide)
  apply decodeLoop_single H hK hC (validPlane_encodeErrorCheck H hW _) _ ((k * 13) % 196) hk'
  · intro j _ h2 hne
    have hjk : interleaveSequence j ≠ k := by
      intro e
      apply hne
      rw [← e, interleaveSequence_left_inv j h2]
    rw [decodeDeInterleave_deInter, if_pos h2, hflip _ (interleaveSequence_lt j), if_neg hjk,
      ← deInter_of_encode H s s' p buf j h2, decodeDeInterleave_deInter, if_pos h2]
  · rw [decodeDeInterleave_deInter, if_pos hk', interleaveSequence_right_inv k hk,
      hflip k hk, if_pos rfl, ← deInter_of_encode H s s' p buf _ hk', decodeDeInterleave_deInter,
      if_pos hk', interleaveSequence_right_inv k hk]

/-- Raw plane position `j` is read from bit `rawBitShift j` of byte
`rawBitByte j` of the buffer. -/
theorem decodeExtractBinary_raw_bit (s : BPTC19696) (buf : Nat → Nat) (j : Nat) (hj : j < 196) :
    (s.decodeExtractBinary buf).m_rawData j = (buf (rawBitByte j)).testBit (rawBitShift j) := by
  rw [decodeExtractBinary_raw]
  unfold rawBitByte rawBitShift
  by_cases h1 : j < 96
  · rw [if_pos h1, if_pos h1, if_pos h1]
  · rw [if_neg h1, if_neg h1, if_neg h1]
    by_cases h2 : j < 98
    · rw [if_pos h2, if_pos h2, if_pos h2]
    · rw [if_neg h2, if_neg h2, if_neg h2]
      by_cases h3 : j < 100
      · rw [if_pos h3, if_pos h3, if_pos h3]
      · rw [if_neg h3, if_neg h3, if_neg h3, if_pos hj]

theorem rawBitShift_lt (k : Nat) : rawBitShift k < 8 := by
  unfold rawBitShift; split_ifs <;> omega

/-- Distinct raw plane positions are carried by distinct bits of the buffer. -/
theorem rawBit_inj (j k : Nat) (hj : j < 196) (hk : k < 196)
    (hb : rawBitByte j = rawBitByte k) (hs : rawBitShift j = rawBitShift k) : j = k := by
  unfold rawBitByte at hb
  unfold rawBitShift at hs
  split_ifs at hb hs <;> omega

/-- Inverting the bit that carries raw plane position `k` inverts position `k`
of the unpacked raw plane and no other position. -/
theorem decodeExtractBinary_invertRawBit (s : BPTC19696) (buf : Nat → Nat) (k : Nat)
    (hk : k < 196) (j : Nat) (hj : j < 196) :
    (s.decodeExtractBinary (invertRawBit k buf)).m_rawData j =
      if j = k then !(s.decodeExtractBinary buf).m_rawData j
      else (s.decodeExtractBinary buf).m_rawData j := by
  rw [decodeExtractBinary_raw_bit s _ j hj, decodeExtractBinary_raw_bit s buf j hj]
  unfold invertRawBit
  rw [Function.update_apply]
  by_cases hb : rawBitByte j = rawBitByte k
  · rw [if_pos hb, Nat.testBit_xor, Nat.shiftLeft_eq, Nat.one_mul, Nat.testBit_two_pow, hb]
    by_cases hs : rawBitShift k = rawBitShift j
    · rw [if_pos (rawBit_inj j k hj hk hb hs.symm), decide_eq_true hs, Bool.xor_true]
    · rw [if_neg (fun e => hs (by rw [e])), decide_eq_false hs, Bool.xor_false]
  · rw [if_neg hb, if_neg (fun e => hb (by rw [e]))]

/-- C2 (BPTC single-bit error correction).  For every 12-byte payload `p` and
every one of the 196 codeword bit positions `k`, if the buffer written by
`encode` for `p` has the bit carrying raw plane position `k` inverted, `decode`
still returns exactly `p` - provided the Hamming encoders write only parity
positions, the Hamming decoders leave valid codewords unchanged and report no
correction, and the (13,9,3) decoder corrects any single inverted bit of a
column. -/
theorem bptc_single_bit_correction (H : HammingOps) (hW : H.WritesParityOnly)
    (hK : H.KeepsValid) (hC : H.CorrectsSingle1393) (s s' : BPTC19696) (p : Nat → Nat)
    (hp : ∀ i, i < 12 → p i < 256) (buf out : Nat → Nat) (k : Nat) (hk : k < 196)
    (i : Nat) (hi : i < 12) :
    (decode H s' (invertRawBit k (encode H s p buf).2) out).2 i = p i :=
  decode_of_single_raw_flip H hW hK hC s s' p hp buf out k hk
    (invertRawBit k (encode H s p buf).2)
    (fun j hj => decodeExtractBinary_invertRawBit s' (encode H s p buf).2 k hk j hj) i hi

/-- Witness for C2: the modelled Hamming routines satisfy the three
assumptions, and the sample payload is recovered from its encoded buffer with
the bit carrying raw position 98 (bit 1 of byte 20) inverted. -/
theorem bptc_single_bit_correction_witness :
    Hamming.ops.WritesParityOnly ∧ Hamming.ops.KeepsValid ∧ Hamming.ops.CorrectsSingle1393 ∧
    (∀ i, i < 12 → examplePayload i < 256) ∧ 98 < 196 ∧
    (decode Hamming.ops exampleState
      (invertRawBit 98 (encode Hamming.ops exampleState examplePayload exampleBuffer).2)
      exampleBuffer).2 3 = examplePayload 3 :=
  ⟨Hamming.ops_writesParityOnly, Hamming.ops_keepsValid, Hamming.ops_correctsSingle1393,
    fun i _ => Nat.mod_lt _ (by decide), by decide,
    bptc_single_bit_correction Hamming.ops Hamming.ops_writesParityOnly Hamming.ops_keepsValid
      Hamming.ops_correctsSingle1393 exampleState exampleState examplePayload
      (fun i _ => Nat.mod_lt _ (by decide)) exampleBuffer exampleBuffer 98 (by decide)
      3 (by decide)⟩

/-- C3 (interleaver inverse).  The interleave sequence `a ↦ (a * 181) mod 196`
is a permutation of `[0, 196)`: it maps into the range, is injective and is
onto.  `decodeDeInterleave` reads `deinter[a] = raw[(a * 181) mod 196]` and
`encodeInterleave` writes `raw[(a * 181) mod 196] = deinter[a]`, so
interleaving a deinterleaved plane gives the plane back at all 196 positions,
and so does deinterleaving an interleaved plane. -/
theorem interleave_inverse :
    (∀ a, interleaveSequence a = (a * 181) % 196) ∧
    (∀ a, a < 196 → interleaveSequence a < 196) ∧
    (∀ a b, a < 196 → b < 196 → interleaveSequence a = interleaveSequence b → a = b) ∧
    (∀ j, j < 196 → ∃ a, a < 196 ∧ interleaveSequence a = j) ∧
    (∀ (s : BPTC19696) (a : Nat), a < 196 →
      s.decodeDeInterleave.m_deInterData a = s.m_rawData ((a * 181) % 196)) ∧
    (∀ (s : BPTC19696) (a : Nat), a < 196 →
      s.encodeInterleave.m_rawData ((a * 181) % 196) = s.m_deInterData a) ∧
    (∀ (s : BPTC19696) (j : Nat), j < 196 →
      s.decodeDeInterleave.encodeInterleave.m_rawData j = s.m_rawData j) ∧
    (∀ (s : BPTC19696) (a : Nat), a < 196 →
      s.encodeInterleave.decodeDeInterleave.m_deInterData a = s.m_deInterData a) := by
  refine ⟨fun _ => rfl, fun a _ => interleaveSequence_lt a, interleaveSequence_inj,
    fun j hj => ⟨(j * 13) % 196, Nat.mod_lt _ (by decide), interleaveSequence_right_inv j hj⟩,
    ?_, ?_, ?_, ?_⟩
  · intro s a ha
    rw [decodeDeInterleave_deInter, if_pos ha]; rfl
  · intro s a ha
    have h := encodeInterleave_raw s (interleaveSequence a)
    rw [if_pos (interleaveSequence_lt a), interleaveSequence_left_inv a ha] at h
    exact h
  · intro s j hj
    rw [encodeInterleave_raw, if_pos hj, decodeDeInterleave_deInter,
      if_pos (Nat.mod_lt _ (by decide)), interleaveSequence_right_inv j hj]
  · intro s a ha
    rw [decodeDeInterleave_deInter, if_pos ha, encodeInterleave_raw,
      if_pos (interleaveSequence_lt a), interleaveSequence_left_inv a ha]

end BPTC19696

end edac

/-! ## Shifts and masks as arithmetic -/

namespace p25

theorem and_0x07 (x : Nat) : x &&& 0x07 = x % 8 := Nat.and_pow_two_sub_one_eq_mod x 3
theorem and_0x0F (x : Nat) : x &&& 0x0F = x % 16 := Nat.and_pow_two_sub_one_eq_mod x 4
theorem and_0xFF (x : Nat) : x &&& 0xFF = x % 256 := Nat.and_pow_two_sub_one_eq_mod x 8
theorem and_0xFFF (x : Nat) : x &&& 0xFFF = x % 4096 := Nat.and_pow_two_sub_one_eq_mod x 12
theorem and_0xFFFF (x : Nat) : x &&& 0xFFFF = x % 65536 := Nat.and_pow_two_sub_one_eq_mod x 16
theorem and_0xFFFFFF (x : Nat) : x &&& 0xFFFFFF = x % 16777216 :=
  Nat.and_pow_two_sub_one_eq_mod x 24

theorem flag_0x80 (b : Nat) (hb : b < 256) : (b &&& 0x80 == 0x80) = decide (128 ≤ b) := by
  interval_cases b <;> rfl

theorem flag_0x40 (b : Nat) (hb : b < 256) : (b &&& 0x40 == 0x40) = decide (64 ≤ b % 128) := by
  interval_cases b <;> rfl

namespace IOSP_GRP_VCH

/-- The value of `encodeValue` as plain arithmetic, `ch` being the channel ID
that was selected. -/
theorem encodeValue_eq (self : IOSP_GRP_VCH) :
    self.encodeValue =
      ((((((((if self.m_emergency then 128 else 0) + (if self.m_encrypted then 64 else 0) +
        self.m_priority % 8) % 2 ^ 64 * 16 +
        (if self.m_grpVchId = 0 ∧ self.m_forceChannelId = false then self.m_siteData.channelId
          else self.m_grpVchId)) % 2 ^ 64) * 4096 + self.m_grpVchNo) % 2 ^ 64 * 65536 +
        self.m_dstId) % 2 ^ 64) * 16777216 + self.m_srcId) % 2 ^ 64 := by
  unfold encodeValue
  simp only [Nat.shiftLeft_eq, and_0x07]
  by_cases h : self.m_grpVchId = 0 <;> cases hf : self.m_forceChannelId <;> simp [h]

end IOSP_GRP_VCH

end p25

namespace p25

namespace IOSP_GRP_VCH

/-- The fields `decodeValue` extracts, as plain arithmetic on the value. -/
theorem decodeValue_fields (t : IOSP_GRP_VCH) (v : Nat) :
    (t.decodeValue v).m_emergency = decide (128 ≤ v / 2 ^ 56 % 256) ∧
    (t.decodeValue v).m_encrypted = decide (64 ≤ v / 2 ^ 56 % 256 % 128) ∧
    (t.decodeValue v).m_priority = v / 2 ^ 56 % 256 % 8 ∧
    (t.decodeValue v).m_grpVchId = v / 2 ^ 52 % 16 ∧
    (t.decodeValue v).m_grpVchNo = v / 2 ^ 40 % 4096 ∧
    (t.decodeValue v).m_dstId = v / 2 ^ 24 % 65536 ∧
    (t.decodeValue v).m_srcId = v % 16777216 := by
  have hb : v / 2 ^ 56 % 256 < 256 := Nat.mod_lt _ (by decide)
  refine ⟨?_, ?_, ?_, ?_, ?_, ?_, ?_⟩
  · show ((((v >>> 56) &&& 0xFF) &&& 0x80) == 0x80) = _
    rw [Nat.shiftRight_eq_div_pow, and_0xFF, flag_0x80 _ hb]
  · show ((((v >>> 56) &&& 0xFF) &&& 0x40) == 0x40) = _
    rw [Nat.shiftRight_eq_div_pow, and_0xFF, flag_0x40 _ hb]
  · show ((v >>> 56) &&& 0xFF) &&& 0x07 = _
    rw [Nat.shiftRight_eq_div_pow, and_0xFF, and_0x07]
  · show (v >>> 52) &&& 0x0F = _
    rw [Nat.shiftRight_eq_div_pow, and_0x0F]
  · show (v >>> 40) &&& 0xFFF = _
    rw [Nat.shiftRight_eq_div_pow, and_0xFFF]
  · show (v >>> 24) &&& 0xFFFF = _
    rw [Nat.shiftRight_eq_div_pow, and_0xFFFF]
  · show v &&& 0xFFFFFF = _
    rw [and_0xFFFFFF]

/-- Packing five in-width fields under a top byte and unpacking them again. -/
theorem pack_unpack (top ch no dst src v : Nat) (htop : top < 256) (hno : no < 4096)
    (hdst : dst < 65536) (hsrc : src < 16777216)
    (hv : v = ((((((top % 2 ^ 64 * 16 + ch) % 2 ^ 64) * 4096 + no) % 2 ^ 64 * 65536 + dst) %
      2 ^ 64) * 16777216 + src) % 2 ^ 64) :
    v / 2 ^ 52 % 16 = ch % 16 ∧ v / 2 ^ 40 % 4096 = no ∧ v / 2 ^ 24 % 65536 = dst ∧
    v % 16777216 = src ∧ (ch < 16 → v / 2 ^ 56 % 256 = top) := by
  simp only [Nat.reducePow] at hv ⊢
  refine ⟨?_, ?_, ?_, ?_, ?_⟩
  · omega
  · omega
  · omega
  · omega
  · intro hch; omega

end IOSP_GRP_VCH

end p25

namespace p25

namespace IOSP_GRP_VCH

/-! ## IOSP_GRP_VCH -/

/-- C4 (worked example).  With emergency set, encryption clear, priority 3,
channel ID 1, channel number 100, destination 0x1234 and source 0x5678 - for
every site context and either value of `forceChannelId` - `encode` builds the
value 0x8310641234005678: top byte 0x83, then the 4-bit 0x1, the 12-bit 0x064,
the 16-bit 0x1234 and the 24-bit 0x005678; and the field extraction of `decode`
applied to that value yields the same seven field values. -/
theorem grp_vch_worked_example (site : SiteData) (force : Bool) (t : IOSP_GRP_VCH) :
    (exampleGrant site force).encodeValue = 0x8310641234005678 ∧
    (0x8310641234005678 >>> 56 = 0x83 ∧ (0x8310641234005678 >>> 52) &&& 0x0F = 0x1 ∧
      (0x8310641234005678 >>> 40) &&& 0xFFF = 0x064 ∧
      (0x8310641234005678 >>> 24) &&& 0xFFFF = 0x1234 ∧
      0x8310641234005678 &&& 0xFFFFFF = 0x005678) ∧
    (t.decodeValue 0x8310641234005678).m_emergency = true ∧
    (t.decodeValue 0x8310641234005678).m_encrypted = false ∧
    (t.decodeValue 0x8310641234005678).m_priority = 3 ∧
    (t.decodeValue 0x8310641234005678).m_grpVchId = 1 ∧
    (t.decodeValue 0x8310641234005678).m_grpVchNo = 100 ∧
    (t.decodeValue 0x8310641234005678).m_dstId = 0x1234 ∧
    (t.decodeValue 0x8310641234005678).m_srcId = 0x5678 :=
by
  have hv : (exampleGrant site force).encodeValue = 0x8310641234005678 := by
    rw [encodeValue_eq]
    show ((((((((128 + 0 + 3 % 8) % 2 ^ 64 * 16 +
      (if (1 : Nat) = 0 ∧ force = false then site.channelId else 1)) % 2 ^ 64) * 4096 + 100) %
      2 ^ 64 * 65536 + 0x1234) % 2 ^ 64) * 16777216 + 0x5678) % 2 ^ 64) = _
    rw [if_neg (fun h => absurd h.1 (by decide))]
    decide
  obtain ⟨f1, f2, f3, f4, f5, f6, f7⟩ := decodeValue_fields t 0x8310641234005678
  rw [f1, f2, f3, f4, f5, f6, f7]
  exact ⟨hv, ⟨by decide, by decide, by decide, by decide, by decide⟩, by decide, by decide,
    by decide, by decide, by decide, by decide, by decide⟩

/-- Counterexample to C5 as stated: `exampleUnset` has every field within its
width, its channel ID is zero and `forceChannelId` is clear, and its site has
channel ID 1; the value built by `encode` decodes to channel ID 1, not 0. -/
theorem grp_vch_round_trip_counterexample :
    exampleUnset.InWidth ∧
    (exampleUnset.decodeValue exampleUnset.encodeValue).m_grpVchId ≠ exampleUnset.m_grpVchId := by
  refine ⟨by unfold InWidth; decide, ?_⟩
  decide

/-- C5 as amended (IOSP_GRP_VCH round trip).  For all field values within their
declared widths and every site context, extracting the fields with `decode`
from the value built by `encode` returns the same channel number, dstId and
srcId, and the channel ID it returns is (the low four bits of) the one that
`encode` wrote: the block's own when that is non-zero or `forceChannelId` is
set - then all seven fields come back - and the site context's channel ID
otherwise; in that case emergency, encrypted and priority come back as well
whenever the site's channel ID is within its four bits. -/
theorem grp_vch_round_trip (self t : IOSP_GRP_VCH) (hw : self.InWidth) :
    ((t.decodeValue self.encodeValue).m_grpVchNo = self.m_grpVchNo ∧
      (t.decodeValue self.encodeValue).m_dstId = self.m_dstId ∧
      (t.decodeValue self.encodeValue).m_srcId = self.m_srcId) ∧
    (self.m_grpVchId ≠ 0 ∨ self.m_forceChannelId = true →
      (t.decodeValue self.encodeValue).m_emergency = self.m_emergency ∧
      (t.decodeValue self.encodeValue).m_encrypted = self.m_encrypted ∧
      (t.decodeValue self.encodeValue).m_priority = self.m_priority ∧
      (t.decodeValue self.encodeValue).m_grpVchId = self.m_grpVchId) ∧
    (self.m_grpVchId = 0 ∧ self.m_forceChannelId = false →
      (t.decodeValue self.encodeValue).m_grpVchId = self.m_siteData.channelId % 16 ∧
      (self.m_siteData.channelId < 16 →
        (t.decodeValue self.encodeValue).m_emergency = self.m_emergency ∧
        (t.decodeValue self.encodeValue).m_encrypted = self.m_encrypted ∧
        (t.decodeValue self.encodeValue).m_priority = self.m_priority ∧
        (t.decodeValue self.encodeValue).m_grpVchId = self.m_siteData.channelId)) := by
  obtain ⟨hp, hch, hno, hdst, hsrc⟩ := hw
  obtain ⟨f1, f2, f3, f4, f5, f6, f7⟩ := decodeValue_fields t self.encodeValue
  rw [f1, f2, f3, f4, f5, f6, f7]
  have htop : (if self.m_emergency then 128 else 0) + (if self.m_encrypted then 64 else 0) +
      self.m_priority % 8 < 256 := by
    split_ifs <;> omega
  have hv := encodeValue_eq self
  have hflags : ∀ top : Nat, top = (if self.m_emergency then 128 else 0) +
      (if self.m_encrypted then 64 else 0) + self.m_priority % 8 →
      decide (128 ≤ top) = self.m_emergency ∧
      decide (64 ≤ top % 128) = self.m_encrypted ∧ top % 8 = self.m_priority := by
    intro top htopeq
    subst htopeq
    refine ⟨?_, ?_, ?_⟩
    · cases self.m_emergency <;> cases self.m_encrypted <;> simp <;> omega
    · cases self.m_emergency <;> cases self.m_encrypted <;> simp <;> omega
    · cases self.m_emergency <;> cases self.m_encrypted <;> simp <;> omega
  refine ⟨?_, ?_, ?_⟩
  · obtain ⟨_, g2, g3, g4, _⟩ := pack_unpack _ _ self.m_grpVchNo self.m_dstId
      self.m_srcId self.encodeValue htop hno hdst hsrc hv
    exact ⟨g2, g3, g4⟩
  · intro hsel
    have hsel' : ¬(self.m_grpVchId = 0 ∧ self.m_forceChannelId = false) := by
      rintro ⟨h1, h2⟩
      rcases hsel with h | h
      · exact h h1
      · rw [h2] at h; exact Bool.noConfusion h
    rw [if_neg hsel'] at hv
    obtain ⟨g1, _, _, _, g5⟩ := pack_unpack _ self.m_grpVchId self.m_grpVchNo self.m_dstId
      self.m_srcId self.encodeValue htop hno hdst hsrc hv
    obtain ⟨k1, k2, k3⟩ := hflags _ (g5 hch)
    exact ⟨k1, k2, k3, by rw [g1]; exact Nat.mod_eq_of_lt hch⟩
  · intro hsub
    rw [if_pos hsub] at hv
    obtain ⟨g1, _, _, _, g5⟩ := pack_unpack _ self.m_siteData.channelId self.m_grpVchNo
      self.m_dstId self.m_srcId self.encodeValue htop hno hdst hsrc hv
    refine ⟨g1, ?_⟩
    intro hsite
    obtain ⟨k1, k2, k3⟩ := hflags _ (g5 hsite)
    exact ⟨k1, k2, k3, by rw [g1]; exact Nat.mod_eq_of_lt hsite⟩

/-- Witness for C5 as amended: `exampleUnset`, the block of the counterexample,
is within widths; its channel number comes back and its channel ID comes back
as the channel ID of its site. -/
theorem grp_vch_round_trip_witness :
    exampleUnset.InWidth ∧
    (exampleUnset.decodeValue exampleUnset.encodeValue).m_grpVchNo = exampleUnset.m_grpVchNo ∧
    (exampleUnset.decodeValue exampleUnset.encodeValue).m_grpVchId =
      exampleUnset.m_siteData.channelId % 16 :=
  ⟨by unfold InWidth; decide,
    (grp_vch_round_trip exampleUnset exampleUnset (by unfold InWidth; decide)).1.1,
    ((grp_vch_round_trip exampleUnset exampleUnset (by unfold InWidth; decide)).2.2
      ⟨by decide, by decide⟩).1⟩

/-- C6 (channel ID default).  When the channel number, destination and source
are within their widths, bits 55..52 of the value built by `encode` hold (the
low four bits of) the site context's channel ID when the block's channel ID is
zero and `forceChannelId` is false, and (the low four bits of) the block's own
channel ID in every other case - channel ID non-zero, or `forceChannelId` true
even with channel ID zero.  For a 4-bit channel ID the field holds it exactly. -/
theorem grp_vch_channel_id_default (self : IOSP_GRP_VCH) (hno : self.m_grpVchNo < 4096)
    (hdst : self.m_dstId < 2 ^ 16) (hsrc : self.m_srcId < 2 ^ 24) :
    (self.m_grpVchId = 0 ∧ self.m_forceChannelId = false →
      (self.encodeValue >>> 52) &&& 0x0F = self.m_siteData.channelId % 16 ∧
      (self.m_siteData.channelId < 16 →
        (self.encodeValue >>> 52) &&& 0x0F = self.m_siteData.channelId)) ∧
    (self.m_grpVchId ≠ 0 ∨ self.m_forceChannelId = true →
      (self.encodeValue >>> 52) &&& 0x0F = self.m_grpVchId % 16 ∧
      (self.m_grpVchId < 16 → (self.encodeValue >>> 52) &&& 0x0F = self.m_grpVchId)) := by
  have htop : (if self.m_emergency then 128 else 0) + (if self.m_encrypted then 64 else 0) +
      self.m_priority % 8 < 256 := by
    split_ifs <;> omega
  rw [Nat.shiftRight_eq_div_pow, and_0x0F]
  have hv := encodeValue_eq self
  constructor
  · intro hsel
    rw [if_pos hsel] at hv
    have g := (pack_unpack _ self.m_siteData.channelId self.m_grpVchNo self.m_dstId
      self.m_srcId self.encodeValue htop hno hdst hsrc hv).1
    exact ⟨g, fun h => by rw [g]; exact Nat.mod_eq_of_lt h⟩
  · intro hsel
    have hsel' : ¬(self.m_grpVchId = 0 ∧ self.m_forceChannelId = false) := by
      rintro ⟨h1, h2⟩
      rcases hsel with h | h
      · exact h h1
      · rw [h2] at h; exact Bool.noConfusion h
    rw [if_neg hsel'] at hv
    have g := (pack_unpack _ self.m_grpVchId self.m_grpVchNo self.m_dstId
      self.m_srcId self.encodeValue htop hno hdst hsrc hv).1
    exact ⟨g, fun h => by rw [g]; exact Nat.mod_eq_of_lt h⟩

/-- Witness for C6: `exampleUnset` has its lower fields within their widths; its
channel ID is zero, `forceChannelId` is clear, and the field holds the site's
channel ID, 1. -/
theorem grp_vch_channel_id_default_witness :
    exampleUnset.m_grpVchNo < 4096 ∧ exampleUnset.m_dstId < 2 ^ 16 ∧
    exampleUnset.m_srcId < 2 ^ 24 ∧
    (exampleUnset.encodeValue >>> 52) &&& 0x0F = exampleUnset.m_siteData.channelId :=
  ⟨by decide, by decide, by decide,
    ((grp_vch_channel_id_default exampleUnset (by decide) (by decide) (by decide)).1
      ⟨rfl, rfl⟩).2 (by decide)⟩

end IOSP_GRP_VCH

end p25

namespace p25

/-! ## Refusals and failures -/

/-- C7 (encode refusal).  When at least one of channel bandwidth, channel
spacing, transmit offset and base frequency of the site identity entry is zero,
`OSP_IDEN_UP_VU::encode` returns without calling the frame encoder and leaves
the output buffer as it was, whatever the float expressions of the other
branch would yield; when all four are non-zero it hands the value it built to
the frame encoder, which writes the frame. -/
theorem iden_up_vu_encode_refusal (C : BlockCodec) (F : FloatOps) (bw125K bw625K : Nat)
    (self : TSBK) (data : Nat → Nat) (rawTSBK noTrellis : Bool) :
    (self.m_siteIdenEntry.chBandwidthKhz = 0 ∨ self.m_siteIdenEntry.chSpaceKhz = 0 ∨
      self.m_siteIdenEntry.txOffsetMhz = 0 ∨ self.m_siteIdenEntry.baseFrequency = 0 →
        OSP_IDEN_UP_VU.encode C F bw125K bw625K self data rawTSBK noTrellis = (data, none)) ∧
    (self.m_siteIdenEntry.chBandwidthKhz ≠ 0 ∧ self.m_siteIdenEntry.chSpaceKhz ≠ 0 ∧
      self.m_siteIdenEntry.txOffsetMhz ≠ 0 ∧ self.m_siteIdenEntry.baseFrequency ≠ 0 →
        OSP_IDEN_UP_VU.encode C F bw125K bw625K self data rawTSBK noTrellis =
          (C.encodeFrame (OSP_IDEN_UP_VU.encodeValue F bw125K bw625K self.m_siteIdenEntry)
              rawTSBK noTrellis data,
            some (OSP_IDEN_UP_VU.encodeValue F bw125K bw625K self.m_siteIdenEntry))) := by
  constructor
  · intro h
    have hv : OSP_IDEN_UP_VU.paramsValid self.m_siteIdenEntry = false := by
      unfold OSP_IDEN_UP_VU.paramsValid
      rcases h with h | h | h | h <;> simp [h]
    unfold OSP_IDEN_UP_VU.encode
    rw [hv]
    rfl
  · intro h
    have hv : OSP_IDEN_UP_VU.paramsValid self.m_siteIdenEntry = true := by
      unfold OSP_IDEN_UP_VU.paramsValid
      simp [h.1, h.2.1, h.2.2.1, h.2.2.2]
    unfold OSP_IDEN_UP_VU.encode
    rw [hv]
    rfl

/-- C9 (decode failure is atomic).  For IOSP_GRP_VCH, OSP_DVM_LC_CALL_TERM,
CSBK_CALL_ALRT and MBT_ISP_AUTH_SU_DMD: whenever the base framing decode (the
block assembly, for the multi-block variant) reports failure, the variant's
decode returns false and leaves the object - so every opcode-specific field -
as it was; whenever the base decode succeeds, it returns true. -/
theorem decode_failure_atomic (C : BlockCodec) (A : AMBTCodec) (data : Nat → Nat)
    (rawTSBK : Bool) (dataHeader : DataHeader) (blocks : List DataBlock)
    (g : IOSP_GRP_VCH) (t : TSBK) (c : dmr.CSBK) :
    ((C.decodeFrame data rawTSBK).1 = false → IOSP_GRP_VCH.decode C g data rawTSBK = (false, g)) ∧
    ((C.decodeFrame data rawTSBK).1 = true → (IOSP_GRP_VCH.decode C g data rawTSBK).1 = true) ∧
    ((C.decodeFrame data rawTSBK).1 = false →
      OSP_DVM_LC_CALL_TERM.decode C t data rawTSBK = (false, t)) ∧
    ((C.decodeFrame data rawTSBK).1 = true →
      (OSP_DVM_LC_CALL_TERM.decode C t data rawTSBK).1 = true) ∧
    ((C.decodeFrame data false).1 = false → dmr.CSBK_CALL_ALRT.decode C c data = (false, c)) ∧
    ((C.decodeFrame data false).1 = true → (dmr.CSBK_CALL_ALRT.decode C c data).1 = true) ∧
    ((A.assemble dataHeader blocks).1 = false →
      MBT_ISP_AUTH_SU_DMD.decodeMBT A t dataHeader blocks = (false, t)) ∧
    ((A.assemble dataHeader blocks).1 = true →
      (MBT_ISP_AUTH_SU_DMD.decodeMBT A t dataHeader blocks).1 = true) := by
  refine ⟨?_, ?_, ?_, ?_, ?_, ?_, ?_, ?_⟩
  · intro h; unfold IOSP_GRP_VCH.decode; simp [h]
  · intro h; unfold IOSP_GRP_VCH.decode; simp [h]
  · intro h; unfold OSP_DVM_LC_CALL_TERM.decode; simp [h]
  · intro h; unfold OSP_DVM_LC_CALL_TERM.decode; simp [h]
  · intro h; unfold dmr.CSBK_CALL_ALRT.decode; simp [h]
  · intro h; unfold dmr.CSBK_CALL_ALRT.decode; simp [h]
  · intro h; unfold MBT_ISP_AUTH_SU_DMD.decodeMBT; simp [h]
  · intro h; unfold MBT_ISP_AUTH_SU_DMD.decodeMBT; simp [h]

/-- Counterexample to C10 as stated: under a framing layer whose check fails on
every frame, `OSP_IDEN_UP_VU::decode` and `OSP_SNDCP_CH_GNT::decode` return true
on the all-zero frame. -/
theorem framing_failure_reported_counterexample :
    (BlockCodec.rejectAll.decodeFrame (fun _ => 0) true).1 = false ∧
    (OSP_IDEN_UP_VU.decode OSP_DVM_LC_CALL_TERM.exampleTerm (fun _ => 0) true).1 ≠ false ∧
    (OSP_SNDCP_CH_GNT.decode OSP_SNDCP_CH_GNT.exampleDataGrant (fun _ => 0) true).1 ≠ false := by
  refine ⟨rfl, ?_, ?_⟩
  · decide
  · decide

/-- C10 as amended (framing failure and the decoder stubs).
`OSP_IDEN_UP_VU::decode` and `OSP_SNDCP_CH_GNT::decode`, decoder stubs of
outbound-only messages, run no framing check: for every raw frame, whether its
outer framing check fails or not, they return true and leave the object as it
was.  A failing framing check is reported (false is returned) by the variants
whose decode runs it, IOSP_GRP_VCH and OSP_DVM_LC_CALL_TERM. -/
theorem framing_failure_reported (C : BlockCodec) (t : TSBK) (s : OSP_SNDCP_CH_GNT)
    (g : IOSP_GRP_VCH) (data : Nat → Nat) (rawTSBK : Bool) :
    OSP_IDEN_UP_VU.decode t data rawTSBK = (true, t) ∧
    OSP_SNDCP_CH_GNT.decode s data rawTSBK = (true, s) ∧
    ((C.decodeFrame data rawTSBK).1 = false →
      (IOSP_GRP_VCH.decode C g data rawTSBK).1 = false ∧
      (OSP_DVM_LC_CALL_TERM.decode C t data rawTSBK).1 = false) := by
  refine ⟨rfl, rfl, ?_⟩
  intro h
  constructor
  · unfold IOSP_GRP_VCH.decode; simp [h]
  · unfold OSP_DVM_LC_CALL_TERM.decode; simp [h]

end p25

namespace p25

/-! ## OSP_DVM_LC_CALL_TERM -/

namespace OSP_DVM_LC_CALL_TERM

/-- The value of `encodeValue` as plain arithmetic. -/
theorem encodeValue_arith (self : TSBK) :
    encodeValue self =
      ((((0 * 16 + self.m_siteData.channelId) % 2 ^ 64 * 4096 + self.m_grpVchNo) % 2 ^ 64 *
        65536 + self.m_dstId) % 2 ^ 64 * 16777216 + self.m_srcId) % 2 ^ 64 := by
  unfold encodeValue
  simp only [Nat.shiftLeft_eq, Nat.reducePow]

/-- The fields `decodeValue` extracts, as plain arithmetic on the value. -/
theorem decodeValue_arith (t : TSBK) (v : Nat) :
    (decodeValue t v).m_grpVchId = v / 2 ^ 52 % 16 ∧
    (decodeValue t v).m_grpVchNo = v / 2 ^ 40 % 4096 ∧
    (decodeValue t v).m_dstId = v / 2 ^ 24 % 65536 ∧
    (decodeValue t v).m_srcId = v % 16777216 := by
  refine ⟨?_, ?_, ?_, ?_⟩
  · show (v >>> 52) &&& 0x0F = _
    rw [Nat.shiftRight_eq_div_pow, and_0x0F]
  · show (v >>> 40) &&& 0xFFF = _
    rw [Nat.shiftRight_eq_div_pow, and_0xFFF]
  · show (v >>> 24) &&& 0xFFFF = _
    rw [Nat.shiftRight_eq_div_pow, and_0xFFFF]
  · show v &&& 0xFFFFFF = _
    rw [and_0xFFFFFF]

/-- Counterexample to C11 as stated: `exampleTerm` has every field within its
width and channel ID 1, its site has channel ID 2; the value built by `encode`
decodes to channel ID 2, not 1. -/
theorem call_term_round_trip_counterexample :
    (exampleTerm.m_grpVchId < 16 ∧ exampleTerm.m_grpVchNo < 4096 ∧
      exampleTerm.m_dstId < 2 ^ 16 ∧ exampleTerm.m_srcId < 2 ^ 24) ∧
    (decodeValue exampleTerm (encodeValue exampleTerm)).m_grpVchId ≠ exampleTerm.m_grpVchId := by
  refine ⟨by decide, ?_⟩
  decide

/-- C11 as amended (OSP_DVM_LC_CALL_TERM round trip).  For channel number, dstId
and srcId within their declared widths and every site context, extracting the
fields with `decode` from the value built by `encode` returns the same channel
number, dstId and srcId; the channel ID it returns is (the low four bits of)
the site context's channel ID, which `encode` writes whatever the block's own
channel ID is. -/
theorem call_term_round_trip (self t : TSBK) (hno : self.m_grpVchNo < 4096)
    (hdst : self.m_dstId < 2 ^ 16) (hsrc : self.m_srcId < 2 ^ 24) :
    (decodeValue t (encodeValue self)).m_grpVchNo = self.m_grpVchNo ∧
    (decodeValue t (encodeValue self)).m_dstId = self.m_dstId ∧
    (decodeValue t (encodeValue self)).m_srcId = self.m_srcId ∧
    (decodeValue t (encodeValue self)).m_grpVchId = self.m_siteData.channelId % 16 ∧
    (self.m_siteData.channelId < 16 →
      (decodeValue t (encodeValue self)).m_grpVchId = self.m_siteData.channelId) := by
  obtain ⟨f1, f2, f3, f4⟩ := decodeValue_arith t (encodeValue self)
  have hv := encodeValue_arith self
  rw [f1, f2, f3, f4]
  generalize encodeValue self = v at hv
  simp only [Nat.reducePow] at hv hdst hsrc ⊢
  refine ⟨?_, ?_, ?_, ?_, ?_⟩
  · omega
  · omega
  · omega
  · omega
  · intro h; omega

/-- Witness for C11 as amended: `exampleTerm` has its channel number, dstId and
srcId within their widths, and its channel number comes back. -/
theorem call_term_round_trip_witness :
    exampleTerm.m_grpVchNo < 4096 ∧ exampleTerm.m_dstId < 2 ^ 16 ∧
    exampleTerm.m_srcId < 2 ^ 24 ∧
    (decodeValue exampleTerm (encodeValue exampleTerm)).m_grpVchNo = exampleTerm.m_grpVchNo :=
  ⟨by decide, by decide, by decide,
    (call_term_round_trip exampleTerm exampleTerm (by decide) (by decide) (by decide)).1⟩

end OSP_DVM_LC_CALL_TERM

/-! ## MBT_ISP_AUTH_SU_DMD -/

namespace MBT_ISP_AUTH_SU_DMD

/-- C19, the code at the failing input: the constructor stores the opcode
`TSBKO::IOSP_GRP_AFF` in `m_lco`, while `toString` labels the block
`ISP_AUTH_SU_DMD`. -/
theorem auth_su_dmd_opcode_tag (tsbkoGrpAff : Nat) (base : TSBK) (isp : Bool) :
    (new tsbkoGrpAff base).m_lco = tsbkoGrpAff ∧
    toString isp = "TSBKO, ISP_AUTH_SU_DMD (Authentication SU Demand)" :=
  ⟨rfl, rfl⟩

theorem testBit_0xFFFFF (i : Nat) : (0xFFFFF : Nat).testBit i = decide (i < 20) :=
  Nat.testBit_two_pow_sub_one 20 i

theorem testBit_0xFFF (i : Nat) : (0xFFF : Nat).testBit i = decide (i < 12) :=
  Nat.testBit_two_pow_sub_one 12 i

/-- C20 (MBT_ISP_AUTH_SU_DMD field extraction).  When the block assembly
succeeds with value `v` for a header with logical address `L`, `decodeMBT`
returns true, sets netId to bits 63..44 of `v` (20 bits), sysId to bits 43..32
of `v` (12 bits) and srcId to `L`; the two bit ranges do not overlap, and a
second assembly that succeeds with a value differing from `v` only in bits
31..0 gives the same result. -/
theorem auth_su_dmd_field_extraction (A A' : AMBTCodec) (self : TSBK) (dataHeader : DataHeader)
    (blocks : List DataBlock) (hok : (A.assemble dataHeader blocks).1 = true)
    (hok' : (A'.assemble dataHeader blocks).1 = true)
    (hhi : (A'.assemble dataHeader blocks).2 / 2 ^ 32 = (A.assemble dataHeader blocks).2 / 2 ^ 32) :
    (decodeMBT A self dataHeader blocks).1 = true ∧
    (decodeMBT A self dataHeader blocks).2.m_netId =
      (A.assemble dataHeader blocks).2 / 2 ^ 44 % 2 ^ 20 ∧
    (decodeMBT A self dataHeader blocks).2.m_sysId =
      (A.assemble dataHeader blocks).2 / 2 ^ 32 % 2 ^ 12 ∧
    (decodeMBT A self dataHeader blocks).2.m_srcId = dataHeader.llId ∧
    ((A.assemble dataHeader blocks).2 < 2 ^ 64 →
      (decodeMBT A self dataHeader blocks).2.m_netId = (A.assemble dataHeader blocks).2 / 2 ^ 44) ∧
    (∀ i, i < 20 → (decodeMBT A self dataHeader blocks).2.m_netId.testBit i =
      (A.assemble dataHeader blocks).2.testBit (44 + i)) ∧
    (∀ i, i < 12 → (decodeMBT A self dataHeader blocks).2.m_sysId.testBit i =
      (A.assemble dataHeader blocks).2.testBit (32 + i)) ∧
    (∀ i j, i < 20 → j < 12 → 44 + i ≠ 32 + j) ∧
    decodeMBT A' self dataHeader blocks = decodeMBT A self dataHeader blocks := by
  have hd : ∀ B : AMBTCodec, (B.assemble dataHeader blocks).1 = true →
      decodeMBT B self dataHeader blocks =
        (true, { self with
          m_netId := ((B.assemble dataHeader blocks).2 >>> 44) &&& 0xFFFFF
          m_sysId := ((B.assemble dataHeader blocks).2 >>> 32) &&& 0xFFF
          m_srcId := dataHeader.llId }) := by
    intro B hB
    unfold decodeMBT
    simp [hB]
  rw [hd A hok, hd A' hok']
  have hnet : ∀ v : Nat, (v >>> 44) &&& 0xFFFFF = v / 2 ^ 44 % 2 ^ 20 := fun v => by
    rw [Nat.shiftRight_eq_div_pow]; exact Nat.and_pow_two_sub_one_eq_mod _ 20
  have hsys : ∀ v : Nat, (v >>> 32) &&& 0xFFF = v / 2 ^ 32 % 2 ^ 12 := fun v => by
    rw [Nat.shiftRight_eq_div_pow]; exact Nat.and_pow_two_sub_one_eq_mod _ 12
  refine ⟨rfl, hnet _, hsys _, rfl, ?_, ?_, ?_, ?_, ?_⟩
  · intro hlt
    show ((A.assemble dataHeader blocks).2 >>> 44) &&& 0xFFFFF = _
    rw [hnet]
    generalize (A.assemble dataHeader blocks).2 = v at hlt
    simp only [Nat.reducePow] at hlt ⊢
    omega
  · intro i hi
    show (((A.assemble dataHeader blocks).2 >>> 44) &&& 0xFFFFF).testBit i = _
    rw [Nat.testBit_and, Nat.testBit_shiftRight, testBit_0xFFFFF, decide_eq_true hi,
      Bool.and_true]
  · intro i hi
    show (((A.assemble dataHeader blocks).2 >>> 32) &&& 0xFFF).testBit i = _
    rw [Nat.testBit_and, Nat.testBit_shiftRight, testBit_0xFFF, decide_eq_true hi,
      Bool.and_true]
  · intro i j hi hj; omega
  · have e1 : ((A'.assemble dataHeader blocks).2 >>> 44) &&& 0xFFFFF =
        ((A.assemble dataHeader blocks).2 >>> 44) &&& 0xFFFFF := by
      rw [hnet, hnet]
      generalize (A.assemble dataHeader blocks).2 = v at hhi
      generalize (A'.assemble dataHeader blocks).2 = v' at hhi
      simp only [Nat.reducePow] at hhi ⊢
      omega
    have e2 : ((A'.assemble dataHeader blocks).2 >>> 32) &&& 0xFFF =
        ((A.assemble dataHeader blocks).2 >>> 32) &&& 0xFFF := by
      rw [hsys, hsys, hhi]
    rw [e1, e2]

/-- Witness for C20: two assemblies that succeed with values differing only in
bits 31..0; the network ID extracted from 0x12345ABC00000000 is 0x12345. -/
theorem auth_su_dmd_field_extraction_witness :
    ((exampleAssembly 0x12345ABC00000000).assemble MBT_OSP_RFSS_STS_BCAST.exampleHeader
      MBT_OSP_RFSS_STS_BCAST.exampleBlocks).1 = true ∧
    ((exampleAssembly 0x12345ABCFFFFFFFF).assemble MBT_OSP_RFSS_STS_BCAST.exampleHeader
      MBT_OSP_RFSS_STS_BCAST.exampleBlocks).1 = true ∧
    (0x12345ABCFFFFFFFF : Nat) / 2 ^ 32 = 0x12345ABC00000000 / 2 ^ 32 ∧
    (decodeMBT (exampleAssembly 0x12345ABC00000000) OSP_DVM_LC_CALL_TERM.exampleTerm
      MBT_OSP_RFSS_STS_BCAST.exampleHeader MBT_OSP_RFSS_STS_BCAST.exampleBlocks).2.m_netId =
      0x12345ABC00000000 / 2 ^ 44 % 2 ^ 20 :=
  ⟨rfl, rfl, by decide,
    (auth_su_dmd_field_extraction (exampleAssembly 0x12345ABC00000000)
      (exampleAssembly 0x12345ABCFFFFFFFF) OSP_DVM_LC_CALL_TERM.exampleTerm
      MBT_OSP_RFSS_STS_BCAST.exampleHeader MBT_OSP_RFSS_STS_BCAST.exampleBlocks rfl rfl
      (by decide)).2.1⟩

end MBT_ISP_AUTH_SU_DMD

end p25

/-! ## CSBK_CALL_ALRT -/

namespace dmr

namespace CSBK_CALL_ALRT

/-- C12 (CSBK_CALL_ALRT round trip).  For every group/individual flag and all
dstId and srcId below 2^24, the value built by `encode` has the flag at bit 62,
dstId in bits 47..24 and srcId in bits 23..0 - it is the flag times 2^62 plus
dstId times 2^24 plus srcId - and the field extraction of `decode` applied to
that value returns the same flag, dstId and srcId. -/
theorem call_alrt_round_trip (self t : CSBK) (hdst : self.m_dstId < 2 ^ 24)
    (hsrc : self.m_srcId < 2 ^ 24) :
    encodeValue self =
      (if self.m_GI then 2 ^ 62 else 0) + self.m_dstId * 2 ^ 24 + self.m_srcId ∧
    (encodeValue self).testBit 62 = self.m_GI ∧
    encodeValue self / 2 ^ 24 % 2 ^ 24 = self.m_dstId ∧
    encodeValue self % 2 ^ 24 = self.m_srcId ∧
    (decodeValue t (encodeValue self)).m_GI = self.m_GI ∧
    (decodeValue t (encodeValue self)).m_dstId = self.m_dstId ∧
    (decodeValue t (encodeValue self)).m_srcId = self.m_srcId := by
  have hv : encodeValue self =
      (if self.m_GI then 2 ^ 62 else 0) + self.m_dstId * 2 ^ 24 + self.m_srcId := by
    unfold encodeValue
    simp only [Nat.shiftLeft_eq, Nat.reducePow] at hdst hsrc ⊢
    cases self.m_GI <;> simp <;> omega
  have hb : encodeValue self / 2 ^ 56 % 256 < 256 := Nat.mod_lt _ (by decide)
  have hGI : (decodeValue t (encodeValue self)).m_GI =
      decide (64 ≤ encodeValue self / 2 ^ 56 % 256 % 128) := by
    show ((((encodeValue self >>> 56) &&& 0xFF) &&& 0x40) == 0x40) = _
    rw [Nat.shiftRight_eq_div_pow, p25.and_0xFF, p25.flag_0x40 _ hb]
  have hD : (decodeValue t (encodeValue self)).m_dstId = encodeValue self / 2 ^ 24 % 2 ^ 24 := by
    show (encodeValue self >>> 24) &&& 0xFFFFFF = _
    rw [Nat.shiftRight_eq_div_pow]; exact Nat.and_pow_two_sub_one_eq_mod _ 24
  have hS : (decodeValue t (encodeValue self)).m_srcId = encodeValue self % 2 ^ 24 :=
    Nat.and_pow_two_sub_one_eq_mod _ 24
  rw [hGI, hD, hS, Nat.testBit_to_div_mod]
  refine ⟨hv, ?_⟩
  generalize encodeValue self = v at hv
  simp only [Nat.reducePow] at hv hdst hsrc ⊢
  cases hg : self.m_GI <;> simp only [hg, if_true, if_false, Bool.false_eq_true] at hv <;>
    refine ⟨?_, ?_, ?_, ?_, ?_, ?_⟩ <;> first | omega | (simp; omega)

/-- Witness for C12: `exampleAlert` has dstId and srcId below 2^24 and its flag
is found at bit 62 of the value. -/
theorem call_alrt_round_trip_witness :
    exampleAlert.m_dstId < 2 ^ 24 ∧ exampleAlert.m_srcId < 2 ^ 24 ∧
    (encodeValue exampleAlert).testBit 62 = exampleAlert.m_GI :=
  ⟨by decide, by decide, (call_alrt_round_trip exampleAlert exampleAlert (by decide)
    (by decide)).2.1⟩

end CSBK_CALL_ALRT

end dmr

namespace edac

namespace BPTC19696

/-! ## The two shared bytes -/

theorem encode_fst (H : HammingOps) (s : BPTC19696) (p buf : Nat → Nat) :
    (encode H s p buf).1 = ((s.encodeExtractData p).encodeErrorCheck H).encodeInterleave :=
  rfl

theorem decode_fst_raw (H : HammingOps) (s : BPTC19696) (in_ out : Nat → Nat) :
    (decode H s in_ out).1.m_rawData = (s.decodeExtractBinary in_).m_rawData :=
  rfl

theorem testBit_0x3F (i : Nat) : (0x3F : Nat).testBit i = decide (i < 6) :=
  Nat.testBit_two_pow_sub_one 6 i

theorem testBit_0x03 (i : Nat) : (0x03 : Nat).testBit i = decide (i < 2) :=
  Nat.testBit_two_pow_sub_one 2 i

theorem testBit_0xC0 (i : Nat) : (0xC0 : Nat).testBit i = (decide (i = 6) || decide (i = 7)) := by
  by_cases h : i < 8
  · interval_cases i <;> rfl
  · rw [Nat.testBit_lt_two_pow (show 0xC0 < 2 ^ i from
      Nat.lt_of_lt_of_le (by decide) (Nat.pow_le_pow_right (by decide) (show 8 ≤ i by omega)))]
    simp; omega

theorem testBit_0xFC (i : Nat) : (0xFC : Nat).testBit i = (decide (2 ≤ i) && decide (i < 8)) := by
  by_cases h : i < 8
  · interval_cases i <;> rfl
  · rw [Nat.testBit_lt_two_pow (show 0xFC < 2 ^ i from
      Nat.lt_of_lt_of_le (by decide) (Nat.pow_le_pow_right (by decide) (show 8 ≤ i by omega)))]
    simp; omega

/-- Bit `i` of byte 12 after `encodeExtractBinary`. -/
theorem encodeExtractBinary_byte12 (self : BPTC19696) (data : Nat → Nat) (i : Nat) :
    (self.encodeExtractBinary data 12).testBit i =
      if i < 6 then (data 12).testBit i
      else if i = 6 then self.m_rawData 97
      else if i = 7 then self.m_rawData 96
      else false := by
  rw [encodeExtractBinary_apply, if_neg (by decide), if_pos rfl, Nat.testBit_or, Nat.testBit_and,
    Nat.testBit_and, Nat.shiftRight_zero, testBit_0x3F, testBit_0xC0]
  have h7 := Utils.testBit_bitsToByteBE self.m_rawData 96 0 (by decide)
  have h6 := Utils.testBit_bitsToByteBE self.m_rawData 96 1 (by decide)
  by_cases h : i < 6
  · rw [if_pos h]; simp [h]; omega
  · rw [if_neg h]
    by_cases h6' : i = 6
    · subst h6'; simpa using h6
    · rw [if_neg h6']
      by_cases h7' : i = 7
      · subst h7'; simpa using h7
      · rw [if_neg h7']; simp [h, h6', h7']

/-- Bit `i` of byte 20 after `encodeExtractBinary`. -/
theorem encodeExtractBinary_byte20 (self : BPTC19696) (data : Nat → Nat) (i : Nat) :
    (self.encodeExtractBinary data 20).testBit i =
      if i = 0 then self.m_rawData 99
      else if i = 1 then self.m_rawData 98
      else if i < 8 then (data 20).testBit i
      else false := by
  rw [encodeExtractBinary_apply, if_neg (by decide), if_neg (by decide), if_pos rfl,
    Nat.testBit_or, Nat.testBit_and, Nat.testBit_and, Nat.testBit_shiftRight, testBit_0xFC,
    testBit_0x03]
  have h5 := Utils.testBit_bitsToByteBE self.m_rawData 96 2 (by decide)
  have h4 := Utils.testBit_bitsToByteBE self.m_rawData 96 3 (by decide)
  by_cases h0 : i = 0
  · subst h0; simpa using h4
  · rw [if_neg h0]
    by_cases h1 : i = 1
    · subst h1; simpa using h5
    · rw [if_neg h1]
      by_cases h8 : i < 8
      · rw [if_pos h8]
        have h2 : 2 ≤ i := by omega
        simp [h2, h8]
      · rw [if_neg h8]; simp [h8]; omega

/-- C13 (BPTC encode is a masked write on the shared bytes).  For every payload
and every initial output buffer, after `encode`: the low 6 bits of byte 12 and
the high 6 bits of byte 20 are those of the buffer before the call; bytes
13..19 are unchanged; the top 2 bits of byte 12 are raw plane bits 96 and 97
and the low 2 bits of byte 20 are raw plane bits 98 and 99; bytes 0..11 and
21..32 do not depend on the buffer before the call (they are fully
overwritten) and are packed from the raw plane. -/
theorem encode_masked_write (H : HammingOps) (s : BPTC19696) (p buf : Nat → Nat) :
    (∀ i, i < 6 → ((encode H s p buf).2 12).testBit i = (buf 12).testBit i) ∧
    (∀ i, 2 ≤ i → i < 8 → ((encode H s p buf).2 20).testBit i = (buf 20).testBit i) ∧
    (∀ i, 13 ≤ i → i ≤ 19 → (encode H s p buf).2 i = buf i) ∧
    (((encode H s p buf).2 12).testBit 7 = (encode H s p buf).1.m_rawData 96 ∧
      ((encode H s p buf).2 12).testBit 6 = (encode H s p buf).1.m_rawData 97) ∧
    (((encode H s p buf).2 20).testBit 1 = (encode H s p buf).1.m_rawData 98 ∧
      ((encode H s p buf).2 20).testBit 0 = (encode H s p buf).1.m_rawData 99) ∧
    (∀ i, i < 12 → (encode H s p buf).2 i =
      Utils.bitsToByteBE (encode H s p buf).1.m_rawData (8 * i)) ∧
    (∀ i, 21 ≤ i → i ≤ 32 → (encode H s p buf).2 i =
      Utils.bitsToByteBE (encode H s p buf).1.m_rawData (100 + 8 * (i - 21))) ∧
    (∀ (buf' : Nat → Nat) (i : Nat), i < 12 ∨ (21 ≤ i ∧ i ≤ 32) →
      (encode H s p buf').2 i = (encode H s p buf).2 i) := by
  obtain ⟨t, ht1, ht2⟩ : ∃ t, (encode H s p buf).1 = t ∧
      ∀ b, (encode H s p b).2 = t.encodeExtractBinary b :=
    ⟨_, encode_fst H s p buf, fun b => encode_snd H s p b⟩
  rw [ht1, ht2 buf]
  refine ⟨?_, ?_, ?_, ⟨?_, ?_⟩, ⟨?_, ?_⟩, ?_, ?_, ?_⟩
  · intro i hi
    rw [encodeExtractBinary_byte12, if_pos hi]
  · intro i h2 h8
    rw [encodeExtractBinary_byte20, if_neg (by omega), if_neg (by omega), if_pos h8]
  · intro i h1 h2
    rw [encodeExtractBinary_apply, if_neg (by omega), if_neg (by omega), if_neg (by omega),
      if_neg (by omega)]
  · rw [encodeExtractBinary_byte12]; rfl
  · rw [encodeExtractBinary_byte12]; rfl
  · rw [encodeExtractBinary_byte20]; rfl
  · rw [encodeExtractBinary_byte20]; rfl
  · intro i hi
    rw [encodeExtractBinary_apply, if_pos hi]
  · intro i h1 h2
    rw [encodeExtractBinary_apply, if_neg (by omega), if_neg (by omega), if_neg (by omega),
      if_pos ⟨h1, by omega⟩]
  · intro buf' i hi
    rw [ht2 buf']
    rcases hi with hi | ⟨h1, h2⟩
    · rw [encodeExtractBinary_apply, encodeExtractBinary_apply, if_pos hi, if_pos hi]
    · rw [encodeExtractBinary_apply, encodeExtractBinary_apply, if_neg (by omega),
        if_neg (by omega), if_neg (by omega), if_pos ⟨h1, by omega⟩, if_neg (by omega),
        if_neg (by omega), if_neg (by omega), if_pos ⟨h1, by omega⟩]

/-! ## The split bits on the decode side -/

/-- C14 (as stated, refuted).  On an input whose byte 20 is 0x03 and whose
other bytes are zero, plane bits 96 and 97 built by `decode` are both clear
although bits 6 and 7 (MSB-first) of byte 20 are both set: plane bits 96 and
97 are not taken from byte 20. -/
theorem decode_split_bits_counterexample :
    ¬ ((decode Hamming.ops exampleState exampleSplitInput exampleBuffer).1.m_rawData 96 =
          Utils.byteToBitsBE (exampleSplitInput 20) (fun _ => false) 0 6 ∧
        (decode Hamming.ops exampleState exampleSplitInput exampleBuffer).1.m_rawData 97 =
          Utils.byteToBitsBE (exampleSplitInput 20) (fun _ => false) 0 7) := by
  rw [decode_fst_raw, decodeExtractBinary_raw, decodeExtractBinary_raw,
    Utils.byteToBitsBE_apply, Utils.byteToBitsBE_apply]
  decide

/-- C14 (amended).  In the raw plane built by `decode` from the input bytes,
plane bits 98 and 99 are bits 6 and 7 (MSB-first numbering, the two least
significant bits) of input byte 20, while plane bits 96 and 97 are bits 0 and
1 (MSB-first, the two most significant bits) of input byte 12; the remaining
six bits unpacked from byte 12 are overwritten by the split bits and the
second block. -/
theorem decode_split_bits (H : HammingOps) (s : BPTC19696) (in_ out : Nat → Nat) :
    (decode H s in_ out).1.m_rawData 98 = Utils.byteToBitsBE (in_ 20) (fun _ => false) 0 6 ∧
    (decode H s in_ out).1.m_rawData 99 = Utils.byteToBitsBE (in_ 20) (fun _ => false) 0 7 ∧
    (decode H s in_ out).1.m_rawData 96 = Utils.byteToBitsBE (in_ 12) (fun _ => false) 0 0 ∧
    (decode H s in_ out).1.m_rawData 97 = Utils.byteToBitsBE (in_ 12) (fun _ => false) 0 1 ∧
    (decode H s in_ out).1.m_rawData 98 = (in_ 20).testBit 1 ∧
    (decode H s in_ out).1.m_rawData 99 = (in_ 20).testBit 0 ∧
    (decode H s in_ out).1.m_rawData 96 = (in_ 12).testBit 7 ∧
    (decode H s in_ out).1.m_rawData 97 = (in_ 12).testBit 6 ∧
    (∀ j, 100 ≤ j → j < 104 →
      (decode H s in_ out).1.m_rawData j = (in_ 21).testBit (7 - (j - 100))) := by
  rw [decode_fst_raw]
  refine ⟨?_, ?_, ?_, ?_, ?_, ?_, ?_, ?_, ?_⟩
  · rw [decodeExtractBinary_raw, Utils.byteToBitsBE_apply]; rfl
  · rw [decodeExtractBinary_raw, Utils.byteToBitsBE_apply]; rfl
  · rw [decodeExtractBinary_raw, Utils.byteToBitsBE_apply]; rfl
  · rw [decodeExtractBinary_raw, Utils.byteToBitsBE_apply]; rfl
  · rw [decodeExtractBinary_raw]; rfl
  · rw [decodeExtractBinary_raw]; rfl
  · rw [decodeExtractBinary_raw]; rfl
  · rw [decodeExtractBinary_raw]; rfl
  · intro j h1 h2
    rw [decodeExtractBinary_raw, if_neg (by omega), if_neg (by omega), if_neg (by omega),
      if_pos (by omega)]
    have e1 : 21 + (j - 100) / 8 = 21 := by omega
    have e2 : (j - 100) % 8 = j - 100 := by omega
    rw [e1, e2]

end BPTC19696

end edac

namespace edac

namespace BPTC19696

/-! ## Payload placement and extraction -/

/-- The nine copy loops of `decodeExtractData`, run over `dataRanges`. -/
theorem takeRange_dataRanges (D : Nat → Bool) (k : Nat) :
    (dataRanges.foldl (fun st r => takeRange D r.1 r.2 st) (fun _ => false, 0)).1 k =
      if k < 96 then D (dataPosition k) else false :=
  takeRange_chain D k

theorem dataPosition_bounds (k : Nat) (hk : k < 96) :
    4 ≤ dataPosition k ∧ dataPosition k ≤ 131 := by
  unfold dataPosition; omega

theorem dataPosition_strictMono (k k' : Nat) (h : k < k') :
    dataPosition k < dataPosition k' := by
  unfold dataPosition; omega

/-- The plane written by `encodeExtractData` holds payload bit `k` at data
position `k`. -/
theorem encodeExtractData_dataPosition (s : BPTC19696) (p : Nat → Nat) (k : Nat) (hk : k < 96) :
    (s.encodeExtractData p).m_deInterData (dataPosition k) = payloadBit p k := by
  have hrow : (dataPosition k - 1) / 15 = (k + 3) / 11 := by unfold dataPosition; omega
  have hoff : (dataPosition k - 1) % 15 = (k + 3) % 11 := by unfold dataPosition; omega
  rw [encodeExtractData_deInter, if_pos ⟨by unfold dataPosition; omega, by rw [hrow]; omega,
    by rw [hoff]; omega⟩, hrow, hoff]
  exact congrArg (payloadBit p) (by omega)

/-- C18 (payload placement and extraction agree).  The nine position ranges of
the copy loops are 4..11, 16..26, 31..41, 46..56, 61..71, 76..86, 91..101,
106..116, 121..131; each ends before the next begins (so they are pairwise
disjoint and no position occurs twice), their lengths are 8 and eight times
11, 96 in total; the k-th position in ascending order is `dataPosition k`.
For every 12-byte payload `p`, the plane written by `encodeExtractData p`
holds payload bit `k` (MSB-first over the 12 bytes) at the k-th position, and
`decodeExtractData` on that plane returns `p`. -/
theorem payload_placement_extraction (s : BPTC19696) (p out : Nat → Nat)
    (hp : ∀ i, i < 12 → p i < 256) :
    dataRanges = [(4, 11), (16, 26), (31, 41), (46, 56), (61, 71), (76, 86), (91, 101),
      (106, 116), (121, 131)] ∧
    dataRanges.Pairwise (fun r r' => r.2 < r'.1) ∧
    (∀ r ∈ dataRanges, r.1 ≤ r.2) ∧
    dataPositions.Nodup ∧
    dataRanges.map (fun r => r.2 + 1 - r.1) = [8, 11, 11, 11, 11, 11, 11, 11, 11] ∧
    (dataRanges.map (fun r => r.2 + 1 - r.1)).sum = 96 ∧
    dataPositions.length = 96 ∧
    dataPositions = (List.range 96).map dataPosition ∧
    (∀ k, k < 96 → (s.encodeExtractData p).m_deInterData (dataPosition k) = payloadBit p k) ∧
    (∀ j, j < 196 → j ∉ dataPositions → (s.encodeExtractData p).m_deInterData j = false) ∧
    (∀ i, i < 12 → (s.encodeExtractData p).decodeExtractData out i = p i) ∧
    (∀ i, 12 ≤ i → (s.encodeExtractData p).decodeExtractData out i = out i) := by
  have hpos : dataPositions = (List.range 96).map dataPosition := by decide
  refine ⟨rfl, by decide, by decide, by decide, by decide, by decide, by decide, hpos,
    fun k hk => encodeExtractData_dataPosition s p k hk, ?_, ?_, ?_⟩
  · intro j hj hn
    rw [encodeExtractData_deInter]
    by_cases hc : 4 ≤ j ∧ (j - 1) / 15 < 9 ∧ (j - 1) % 15 < 11
    · exfalso
      apply hn
      rw [hpos, List.mem_map]
      refine ⟨11 * ((j - 1) / 15) + (j - 1) % 15 - 3, List.mem_range.mpr (by omega), ?_⟩
      unfold dataPosition
      omega
    · rw [if_neg hc, if_pos hj]
  · intro i hi
    rw [decodeExtractData_apply, if_pos hi]
    apply Utils.bitsToByteBE_of_testBit _ _ _ (hp i hi)
    intro t ht
    have hk : 8 * i + t < 96 := by omega
    simp only [if_pos hk]
    rw [encodeExtractData_dataPosition s p _ hk]
    unfold payloadBit
    have e1 : (8 * i + t) / 8 = i := by omega
    have e2 : (8 * i + t) % 8 = t := by omega
    rw [e1, e2]
  · intro i hi
    rw [decodeExtractData_apply, if_neg (by omega)]

theorem payload_placement_extraction_witness :
    (∀ i, i < 12 → examplePayload i < 256) ∧
    (exampleState.encodeExtractData examplePayload).decodeExtractData exampleBuffer 5 =
      examplePayload 5 :=
  ⟨fun i _ => Nat.mod_lt _ (by decide),
    (payload_placement_extraction exampleState examplePayload exampleBuffer
      (fun i _ => Nat.mod_lt _ (by decide))).2.2.2.2.2.2.2.2.2.2.1 5 (by decide)⟩

end BPTC19696

end edac

namespace edac

namespace BPTC19696

/-! ## The correction loop -/

theorem planeAfter_pass (H : HammingOps) (D : Nat → Bool) (i : Nat) :
    planeAfter H (decodePass H D).2 i = planeAfter H D (i + 1) := by
  induction i with
  | zero => rfl
  | succ i ih =>
    show (decodePass H (planeAfter H (decodePass H D).2 i)).2 = _
    rw [ih]
    rfl

theorem decodeLoop_succ (H : HammingOps) (fuel count : Nat) (D : Nat → Bool) :
    decodeLoop H (fuel + 1) count D =
      if (decodePass H D).1 && decide (count + 1 < 5)
      then decodeLoop H fuel (count + 1) (decodePass H D).2
      else (count + 1, (decodePass H D).2) := rfl

/-- The loop of `decodeErrorCheck` entered with `count` passes made and enough
fuel: it makes at least one more pass, stops at 5 at the latest, and goes on
after the pass numbered `k` exactly when that pass set `fixing` and `k < 5`. -/
theorem decodeLoop_spec (H : HammingOps) : ∀ (fuel count : Nat) (D : Nat → Bool),
    count < 5 → 5 ≤ count + fuel →
    count < (decodeLoop H fuel count D).1 ∧ (decodeLoop H fuel count D).1 ≤ 5 ∧
    (decodeLoop H fuel count D).2 = planeAfter H D ((decodeLoop H fuel count D).1 - count) ∧
    ∀ k, count < k → k ≤ (decodeLoop H fuel count D).1 →
      (k < (decodeLoop H fuel count D).1 ↔
        ((decodePass H (planeAfter H D (k - count - 1))).1 = true ∧ k < 5)) := by
  intro fuel
  induction fuel with
  | zero => intro count D h1 h2; omega
  | succ fuel ih =>
    intro count D hc hf
    rw [decodeLoop_succ]
    by_cases hcond : ((decodePass H D).1 && decide (count + 1 < 5)) = true
    · rw [if_pos hcond]
      rw [Bool.and_eq_true, decide_eq_true_eq] at hcond
      obtain ⟨hfix, hlt⟩ := hcond
      obtain ⟨h1, h2, h3, h4⟩ := ih (count + 1) (decodePass H D).2 hlt (by omega)
      refine ⟨by omega, h2, ?_, ?_⟩
      · rw [h3, planeAfter_pass]
        exact congrArg (planeAfter H D) (by omega)
      · intro k hk1 hk2
        by_cases hk : k = count + 1
        · subst hk
          have e : count + 1 - count - 1 = 0 := by omega
          rw [e]
          exact ⟨fun _ => ⟨hfix, hlt⟩, fun _ => h1⟩
        · have h := h4 k (by omega) hk2
          rw [planeAfter_pass] at h
          have e : k - (count + 1) - 1 + 1 = k - count - 1 := by omega
          rw [e] at h
          exact h
    · rw [if_neg hcond]
      refine ⟨by show count < count + 1; omega, by show count + 1 ≤ 5; omega, ?_, ?_⟩
      · show (decodePass H D).2 = planeAfter H D (count + 1 - count)
        have e : count + 1 - count = 1 := by omega
        rw [e]
        rfl
      · intro k hk1 hk2
        have hk : k = count + 1 := by
          have : k ≤ count + 1 := hk2
          omega
        subst hk
        have e : count + 1 - count - 1 = 0 := by omega
        rw [e]
        constructor
        · intro h
          exact absurd h (Nat.lt_irrefl _)
        · intro h
          exfalso
          apply hcond
          rw [Bool.and_eq_true, decide_eq_true_eq]
          exact h

/-- With at least `5 - count` units of fuel the loop never runs out: more fuel
does not change its result. -/
theorem decodeLoop_fuel (H : HammingOps) : ∀ (fuel fuel' count : Nat) (D : Nat → Bool),
    5 ≤ count + fuel → 5 ≤ count + fuel' → count < 5 →
    decodeLoop H fuel count D = decodeLoop H fuel' count D := by
  intro fuel
  induction fuel with
  | zero => intro fuel' count D h1 h2 h3; omega
  | succ fuel ih =>
    intro fuel' count D h1 h2 h3
    cases fuel' with
    | zero => omega
    | succ fuel' =>
      rw [decodeLoop_succ, decodeLoop_succ]
      by_cases hcond : ((decodePass H D).1 && decide (count + 1 < 5)) = true
      · rw [if_pos hcond, if_pos hcond]
        rw [Bool.and_eq_true, decide_eq_true_eq] at hcond
        exact ih fuel' (count + 1) (decodePass H D).2 (by omega) (by omega) hcond.2
      · rw [if_neg hcond, if_neg hcond]

theorem decodeColumn_flag (H : HammingOps) (P : Bool × (Nat → Bool)) (c : Nat) :
    (decodeColumn H P c).1 = true ↔
      (P.1 = true ∨ (H.decode1393 (loadCol P.2 c)).1 = true) := by
  unfold decodeColumn
  by_cases hr : (H.decode1393 (loadCol P.2 c)).1 = true
  · simp only [hr, if_true, or_true]
  · simp only [hr, if_false, or_false, Bool.false_eq_true]

theorem decodeRow_flag (H : HammingOps) (P : Bool × (Nat → Bool)) (r : Nat) :
    (decodeRow H P r).1 = true ↔
      (P.1 = true ∨ (H.decode15113_2 (loadRow P.2 (r * 15 + 1))).1 = true) := by
  unfold decodeRow
  by_cases hr : (H.decode15113_2 (loadRow P.2 (r * 15 + 1))).1 = true
  · simp only [hr, if_true, or_true]
  · simp only [hr, if_false, or_false, Bool.false_eq_true]

/-- The flag `fixing` after the column loop: set exactly when it was set
before or the check of some column reported a correction. -/
theorem decodeColumns_flag (H : HammingOps) (st : Bool × (Nat → Bool)) : ∀ n : Nat,
    (((List.range n).foldl (decodeColumn H) st).1 = true ↔
      (st.1 = true ∨ ∃ c, c < n ∧
        (H.decode1393 (loadCol ((List.range c).foldl (decodeColumn H) st).2 c)).1 = true)) := by
  intro n
  induction n with
  | zero =>
    constructor
    · intro h; exact Or.inl h
    · rintro (h | ⟨c, hc, _⟩)
      · exact h
      · omega
  | succ n ih =>
    rw [foldl_range_succ, decodeColumn_flag, ih]
    constructor
    · rintro ((h | ⟨c, hc, h⟩) | h)
      · exact Or.inl h
      · exact Or.inr ⟨c, by omega, h⟩
      · exact Or.inr ⟨n, by omega, h⟩
    · rintro (h | ⟨c, hc, h⟩)
      · exact Or.inl (Or.inl h)
      · by_cases hcn : c = n
        · subst hcn
          exact Or.inr h
        · exact Or.inl (Or.inr ⟨c, by omega, h⟩)

/-- The flag `fixing` after the row loop: set exactly when it was set before
or the check of some row reported a correction. -/
theorem decodeRows_flag (H : HammingOps) (st : Bool × (Nat → Bool)) : ∀ n : Nat,
    (((List.range n).foldl (decodeRow H) st).1 = true ↔
      (st.1 = true ∨ ∃ r, r < n ∧
        (H.decode15113_2
          (loadRow ((List.range r).foldl (decodeRow H) st).2 (r * 15 + 1))).1 = true)) := by
  intro n
  induction n with
  | zero =>
    constructor
    · intro h; exact Or.inl h
    · rintro (h | ⟨c, hc, _⟩)
      · exact h
      · omega
  | succ n ih =>
    rw [foldl_range_succ, decodeRow_flag, ih]
    constructor
    · rintro ((h | ⟨c, hc, h⟩) | h)
      · exact Or.inl h
      · exact Or.inr ⟨c, by omega, h⟩
      · exact Or.inr ⟨n, by omega, h⟩
    · rintro (h | ⟨c, hc, h⟩)
      · exact Or.inl (Or.inl h)
      · by_cases hcn : c = n
        · subst hcn
          exact Or.inr h
        · exact Or.inl (Or.inr ⟨c, by omega, h⟩)

/-- C15 (bounded iterative correction).  For every plane and every pair of
Hamming routines, `decodeErrorCheck` makes `n` passes with `1 ≤ n ≤ 5` and
leaves the plane reached after `n` passes; each pass is the 15 column checks
followed by the 9 row checks, and its flag `fixing` is set exactly when one
of those checks reported a correction; after the pass numbered `k` (from 1) a
further pass is run if and only if pass `k` set `fixing` and `k < 5`; the
loop never needs more than 5 units of fuel. -/
theorem decodeErrorCheck_pass_count (H : HammingOps) (s : BPTC19696) :
    1 ≤ (decodeLoop H 5 0 s.m_deInterData).1 ∧
    (decodeLoop H 5 0 s.m_deInterData).1 ≤ 5 ∧
    (s.decodeErrorCheck H).m_deInterData =
      planeAfter H s.m_deInterData (decodeLoop H 5 0 s.m_deInterData).1 ∧
    (s.decodeErrorCheck H).m_rawData = s.m_rawData ∧
    (∀ k, 1 ≤ k → k ≤ (decodeLoop H 5 0 s.m_deInterData).1 →
      (k < (decodeLoop H 5 0 s.m_deInterData).1 ↔
        ((decodePass H (planeAfter H s.m_deInterData (k - 1))).1 = true ∧ k < 5))) ∧
    (∀ fuel, 5 ≤ fuel →
      decodeLoop H fuel 0 s.m_deInterData = decodeLoop H 5 0 s.m_deInterData) ∧
    (∀ D : Nat → Bool, decodePass H D =
      (List.range 9).foldl (decodeRow H) ((List.range 15).foldl (decodeColumn H) (false, D))) ∧
    (∀ D : Nat → Bool, (decodePass H D).1 = true ↔
      ((∃ c, c < 15 ∧ (H.decode1393
          (loadCol ((List.range c).foldl (decodeColumn H) (false, D)).2 c)).1 = true) ∨
        ∃ r, r < 9 ∧ (H.decode15113_2
          (loadRow ((List.range r).foldl (decodeRow H)
            ((List.range 15).foldl (decodeColumn H) (false, D))).2 (r * 15 + 1))).1 = true)) := by
  obtain ⟨h1, h2, h3, h4⟩ := decodeLoop_spec H 5 0 s.m_deInterData (by decide) (by decide)
  refine ⟨h1, h2, h3, rfl, ?_, ?_, fun _ => rfl, ?_⟩
  · intro k hk1 hk2
    have h := h4 k hk1 hk2
    rw [Nat.sub_zero] at h
    exact h
  · intro fuel hf
    exact decodeLoop_fuel H fuel 5 0 s.m_deInterData (by omega) (by decide) (by decide)
  · intro D
    show ((List.range 9).foldl (decodeRow H)
      ((List.range 15).foldl (decodeColumn H) (false, D))).1 = true ↔ _
    rw [decodeRows_flag, decodeColumns_flag]
    constructor
    · rintro ((h | h) | h)
      · exact absurd h Bool.false_ne_true
      · exact Or.inl h
      · exact Or.inr h
    · rintro (h | h)
      · exact Or.inl (Or.inr h)
      · exact Or.inr h

end BPTC19696

end edac

namespace edac

/-- Two runs of the same counted loop from related states end in related
states, when the loop body preserves the relation. -/
theorem foldl_range_rel {σ : Type} (R : σ → σ → Prop) (f : σ → Nat → σ) (n : Nat) (s s' : σ)
    (h0 : R s s') (hstep : ∀ i t t', i < n → R t t' → R (f t i) (f t' i)) :
    R ((List.range n).foldl f s) ((List.range n).foldl f s') := by
  induction n with
  | zero => simpa using h0
  | succ n ih =>
    rw [foldl_range_succ, foldl_range_succ]
    exact hstep n _ _ (Nat.lt_succ_self n)
      (ih (fun i t t' hi hR => hstep i t t' (Nat.lt_succ_of_lt hi) hR))

theorem Utils.bitsToByteBE_congr (b b' : Nat → Bool) (off : Nat)
    (h : ∀ i, i < 8 → b (off + i) = b' (off + i)) :
    Utils.bitsToByteBE b off = Utils.bitsToByteBE b' off := by
  unfold Utils.bitsToByteBE
  have h0 := h 0 (by omega)
  rw [Nat.add_zero] at h0
  rw [h0, h 1 (by omega), h 2 (by omega), h 3 (by omega), h 4 (by omega), h 5 (by omega),
    h 6 (by omega), h 7 (by omega)]

namespace BPTC19696

/-! ## Independence from the scratch planes -/

theorem SamePlane.agree {D E : Nat → Bool} (h : SamePlane D E) : Agree D E :=
  fun j _ h2 => h j h2

theorem samePlane_storeCol {D E : Nat → Bool} (h : SamePlane D E) (c : Nat) (col : Codeword 13) :
    SamePlane (storeCol D c col) (storeCol E c col) := by
  intro j hj
  rw [storeCol_apply, storeCol_apply]
  by_cases hw : c + 1 ≤ j ∧ (j - (c + 1)) % 15 = 0 ∧ (j - (c + 1)) / 15 < 13
  · rw [if_pos hw, if_pos hw]
  · rw [if_neg hw, if_neg hw]
    exact h j hj

theorem samePlane_storeRow {D E : Nat → Bool} (h : SamePlane D E) (pos : Nat) (d : Codeword 15) :
    SamePlane (storeRow D pos d) (storeRow E pos d) := by
  intro j hj
  unfold storeRow
  by_cases hw : pos ≤ j ∧ j < pos + 15
  · rw [if_pos hw, if_pos hw]
  · rw [if_neg hw, if_neg hw]
    exact h j hj

theorem decodeColumn_congr (H : HammingOps) (st st' : Bool × (Nat → Bool)) (h1 : st.1 = st'.1)
    (h2 : SamePlane st.2 st'.2) (c : Nat) (hc : c < 15) :
    (decodeColumn H st c).1 = (decodeColumn H st' c).1 ∧
      SamePlane (decodeColumn H st c).2 (decodeColumn H st' c).2 := by
  unfold decodeColumn
  simp only [loadCol_congr h2.agree c hc]
  by_cases hr : (H.decode1393 (loadCol st'.2 c)).1 = true
  · rw [if_pos hr, if_pos hr]
    exact ⟨rfl, samePlane_storeCol h2 c _⟩
  · rw [if_neg hr, if_neg hr]
    exact ⟨h1, h2⟩

theorem decodeRow_congr (H : HammingOps) (st st' : Bool × (Nat → Bool)) (h1 : st.1 = st'.1)
    (h2 : SamePlane st.2 st'.2) (r : Nat) (hr : r < 9) :
    (decodeRow H st r).1 = (decodeRow H st' r).1 ∧
      SamePlane (decodeRow H st r).2 (decodeRow H st' r).2 := by
  unfold decodeRow
  simp only [loadRow_congr h2.agree r hr, h1]
  exact ⟨trivial, samePlane_storeRow h2 _ _⟩

theorem decodePass_congr (H : HammingOps) (D E : Nat → Bool) (h : SamePlane D E) :
    (decodePass H D).1 = (decodePass H E).1 ∧ SamePlane (decodePass H D).2 (decodePass H E).2 := by
  unfold decodePass
  have hcols := foldl_range_rel (fun st st' => st.1 = st'.1 ∧ SamePlane st.2 st'.2)
    (decodeColumn H) 15 (false, D) (false, E) ⟨rfl, h⟩
    (fun i t t' hi hR => decodeColumn_congr H t t' hR.1 hR.2 i hi)
  exact foldl_range_rel (fun st st' => st.1 = st'.1 ∧ SamePlane st.2 st'.2)
    (decodeRow H) 9 ((List.range 15).foldl (decodeColumn H) (false, D))
    ((List.range 15).foldl (decodeColumn H) (false, E)) hcols
    (fun i t t' hi hR => decodeRow_congr H t t' hR.1 hR.2 i hi)

theorem decodeLoop_congr (H : HammingOps) : ∀ (fuel count : Nat) (D E : Nat → Bool),
    SamePlane D E →
    (decodeLoop H fuel count D).1 = (decodeLoop H fuel count E).1 ∧
      SamePlane (decodeLoop H fuel count D).2 (decodeLoop H fuel count E).2 := by
  intro fuel
  induction fuel with
  | zero => intro count D E h; exact ⟨rfl, h⟩
  | succ fuel ih =>
    intro count D E h
    have hp := decodePass_congr H D E h
    rw [decodeLoop_succ, decodeLoop_succ, hp.1]
    by_cases hcond : ((decodePass H E).1 && decide (count + 1 < 5)) = true
    · rw [if_pos hcond, if_pos hcond]
      exact ih (count + 1) (decodePass H D).2 (decodePass H E).2 hp.2
    · rw [if_neg hcond, if_neg hcond]
      exact ⟨rfl, hp.2⟩

theorem encodeRow_congr (H : HammingOps) (D E : Nat → Bool) (h : SamePlane D E) (r : Nat)
    (hr : r < 9) : SamePlane (encodeRow H D r) (encodeRow H E r) := by
  unfold encodeRow
  simp only [loadRow_congr h.agree r hr]
  exact samePlane_storeRow h _ _

theorem encodeColumn_congr (H : HammingOps) (D E : Nat → Bool) (h : SamePlane D E) (c : Nat)
    (hc : c < 15) : SamePlane (encodeColumn H D c) (encodeColumn H E c) := by
  unfold encodeColumn
  simp only [loadCol_congr h.agree c hc]
  exact samePlane_storeCol h _ _

theorem encodeErrorCheck_congr (H : HammingOps) (s s' : BPTC19696)
    (h : SamePlane s.m_deInterData s'.m_deInterData) :
    SamePlane (s.encodeErrorCheck H).m_deInterData (s'.encodeErrorCheck H).m_deInterData := by
  unfold encodeErrorCheck
  have hrows := foldl_range_rel SamePlane (encodeRow H) 9 s.m_deInterData s'.m_deInterData h
    (fun i t t' hi hR => encodeRow_congr H t t' hR i hi)
  exact foldl_range_rel SamePlane (encodeColumn H) 15 _ _ hrows
    (fun i t t' hi hR => encodeColumn_congr H t t' hR i hi)

theorem decodeExtractBinary_samePlane (s s' : BPTC19696) (in_ : Nat → Nat) :
    SamePlane (s.decodeExtractBinary in_).m_rawData (s'.decodeExtractBinary in_).m_rawData := by
  intro j hj
  rw [decodeExtractBinary_raw, decodeExtractBinary_raw]
  by_cases h1 : j < 96
  · rw [if_pos h1, if_pos h1]
  · rw [if_neg h1, if_neg h1]
    by_cases h2 : j < 98
    · rw [if_pos h2, if_pos h2]
    · rw [if_neg h2, if_neg h2]
      by_cases h3 : j < 100
      · rw [if_pos h3, if_pos h3]
      · rw [if_neg h3, if_neg h3, if_pos hj, if_pos hj]

theorem decodeDeInterleave_samePlane (s s' : BPTC19696) (h : SamePlane s.m_rawData s'.m_rawData) :
    SamePlane s.decodeDeInterleave.m_deInterData s'.decodeDeInterleave.m_deInterData := by
  intro j hj
  rw [decodeDeInterleave_deInter, decodeDeInterleave_deInter, if_pos hj, if_pos hj]
  exact h _ (interleaveSequence_lt j)

theorem decodeExtractData_congr (s s' : BPTC19696)
    (h : SamePlane s.m_deInterData s'.m_deInterData) (out : Nat → Nat) :
    s.decodeExtractData out = s'.decodeExtractData out := by
  funext i
  rw [decodeExtractData_apply, decodeExtractData_apply]
  by_cases hi : i < 12
  · rw [if_pos hi, if_pos hi]
    apply Utils.bitsToByteBE_congr
    intro t ht
    have hk : 8 * i + t < 96 := by omega
    simp only [if_pos hk]
    exact h _ (by unfold dataPosition; omega)
  · rw [if_neg hi, if_neg hi]

theorem encodeExtractData_samePlane (s s' : BPTC19696) (p : Nat → Nat) :
    SamePlane (s.encodeExtractData p).m_deInterData (s'.encodeExtractData p).m_deInterData := by
  intro j hj
  rw [encodeExtractData_deInter, encodeExtractData_deInter]
  by_cases hc : 4 ≤ j ∧ (j - 1) / 15 < 9 ∧ (j - 1) % 15 < 11
  · rw [if_pos hc, if_pos hc]
  · rw [if_neg hc, if_neg hc, if_pos hj, if_pos hj]

theorem encodeInterleave_samePlane (s s' : BPTC19696)
    (h : SamePlane s.m_deInterData s'.m_deInterData) :
    SamePlane s.encodeInterleave.m_rawData s'.encodeInterleave.m_rawData := by
  intro j hj
  rw [encodeInterleave_raw, encodeInterleave_raw, if_pos hj, if_pos hj]
  exact h _ (Nat.mod_lt _ (by decide))

theorem encodeExtractBinary_congr (s s' : BPTC19696) (h : SamePlane s.m_rawData s'.m_rawData)
    (buf : Nat → Nat) : s.encodeExtractBinary buf = s'.encodeExtractBinary buf := by
  have hb : ∀ off, off + 8 ≤ 196 →
      Utils.bitsToByteBE s.m_rawData off = Utils.bitsToByteBE s'.m_rawData off :=
    fun off ho => Utils.bitsToByteBE_congr _ _ off (fun t ht => h _ (by omega))
  funext i
  rw [encodeExtractBinary_apply, encodeExtractBinary_apply]
  by_cases h1 : i < 12
  · rw [if_pos h1, if_pos h1]
    exact hb _ (by omega)
  · rw [if_neg h1, if_neg h1]
    by_cases h2 : i = 12
    · rw [if_pos h2, if_pos h2, hb 96 (by decide)]
    · rw [if_neg h2, if_neg h2]
      by_cases h3 : i = 20
      · rw [if_pos h3, if_pos h3, hb 96 (by decide)]
      · rw [if_neg h3, if_neg h3]
        by_cases h4 : 21 ≤ i ∧ i < 33
        · rw [if_pos h4, if_pos h4]
          exact hb _ (by omega)
        · rw [if_neg h4, if_neg h4]

/-- C17 (codec calls are pure with respect to the scratch state).  For every
pair of Hamming routines and any two initial contents `s`, `s'` of the raw and
deinterleaved planes: `decode` on the same input produces the same output
buffer, `encode` on the same payload and the same initial buffer produces the
same output buffer, and after either call all 196 positions of both planes
hold the same bits in the two runs - none keeps a bit from before the call. -/
theorem codec_scratch_independence (H : HammingOps) (s s' : BPTC19696)
    (in_ out p buf : Nat → Nat) :
    (decode H s in_ out).2 = (decode H s' in_ out).2 ∧
    (encode H s p buf).2 = (encode H s' p buf).2 ∧
    SamePlane (decode H s in_ out).1.m_rawData (decode H s' in_ out).1.m_rawData ∧
    SamePlane (decode H s in_ out).1.m_deInterData (decode H s' in_ out).1.m_deInterData ∧
    SamePlane (encode H s p buf).1.m_rawData (encode H s' p buf).1.m_rawData ∧
    SamePlane (encode H s p buf).1.m_deInterData (encode H s' p buf).1.m_deInterData := by
  have hraw := decodeExtractBinary_samePlane s s' in_
  have hde := decodeDeInterleave_samePlane _ _ hraw
  have hloop : SamePlane
      (((s.decodeExtractBinary in_).decodeDeInterleave).decodeErrorCheck H).m_deInterData
      (((s'.decodeExtractBinary in_).decodeDeInterleave).decodeErrorCheck H).m_deInterData :=
    (decodeLoop_congr H 5 0 (s.decodeExtractBinary in_).decodeDeInterleave.m_deInterData
      (s'.decodeExtractBinary in_).decodeDeInterleave.m_deInterData hde).2
  have hed := encodeExtractData_samePlane s s' p
  have hec := encodeErrorCheck_congr H _ _ hed
  have hei := encodeInterleave_samePlane _ _ hec
  refine ⟨?_, ?_, hraw, hloop, hei, hec⟩
  · rw [decode_snd, decode_snd]
    exact decodeExtractData_congr _ _ hloop out
  · rw [encode_snd, encode_snd]
    exact encodeExtractBinary_congr _ _ hei buf

end BPTC19696

end edac

namespace edac

namespace BPTC19696

/-! ## Bounds of the array accesses -/

theorem state_ext (a b : BPTC19696) (h1 : a.m_rawData = b.m_rawData)
    (h2 : a.m_deInterData = b.m_deInterData) : a = b := by
  cases a
  cases b
  simp only at h1 h2
  rw [h1, h2]

theorem takeRange_snd (D : Nat → Bool) (lo hi : Nat) (st : (Nat → Bool) × Nat) :
    (takeRange D lo hi st).2 = st.2 + (hi + 1 - lo) := by
  have h := takeRange_eq D lo hi st.1 st.2
  rw [show (st.1, st.2) = st from rfl] at h
  rw [h]

theorem decodeColumn_frame (H : HammingOps) (st : Bool × (Nat → Bool)) (c : Nat) (hc : c < 15)
    (j : Nat) (hj : 196 ≤ j) : (decodeColumn H st c).2 j = st.2 j := by
  unfold decodeColumn
  by_cases hr : (H.decode1393 (loadCol st.2 c)).1 = true
  · simp only [hr, if_true]
    rw [storeCol_apply, if_neg (by omega)]
  · simp only [hr, if_false, Bool.false_eq_true]

theorem decodeRow_frame (H : HammingOps) (st : Bool × (Nat → Bool)) (r : Nat) (hr : r < 9)
    (j : Nat) (hj : 196 ≤ j) : (decodeRow H st r).2 j = st.2 j := by
  unfold decodeRow storeRow
  simp only
  rw [if_neg (by omega)]

theorem decodePass_frame (H : HammingOps) (D : Nat → Bool) (j : Nat) (hj : 196 ≤ j) :
    (decodePass H D).2 j = D j := by
  unfold decodePass
  have hcols := foldl_range_invariant (fun _ st => st.2 j = D j) (decodeColumn H) 15 (false, D)
    rfl (fun i t hi ht => (decodeColumn_frame H t i hi j hj).trans ht)
  exact foldl_range_invariant (fun _ st => st.2 j = D j) (decodeRow H) 9 _ hcols
    (fun i t hi ht => (decodeRow_frame H t i hi j hj).trans ht)

theorem decodeLoop_frame (H : HammingOps) (j : Nat) (hj : 196 ≤ j) :
    ∀ (fuel count : Nat) (D : Nat → Bool), (decodeLoop H fuel count D).2 j = D j := by
  intro fuel
  induction fuel with
  | zero => intro count D; rfl
  | succ fuel ih =>
    intro count D
    rw [decodeLoop_succ]
    by_cases hcond : ((decodePass H D).1 && decide (count + 1 < 5)) = true
    · rw [if_pos hcond, ih, decodePass_frame H D j hj]
    · rw [if_neg hcond]
      exact decodePass_frame H D j hj

theorem encodeErrorCheck_frame (H : HammingOps) (s : BPTC19696) (j : Nat) (hj : 196 ≤ j) :
    (s.encodeErrorCheck H).m_deInterData j = s.m_deInterData j := by
  rw [encodeErrorCheck_deInter, if_neg (by omega), encodeRows_apply, if_neg (by omega)]

/-- The raw plane built by `decodeExtractBinary` depends on bytes 0..32 of the
input only. -/
theorem decodeExtractBinary_input (s : BPTC19696) (in_ in2 : Nat → Nat)
    (h : ∀ i, i < 33 → in2 i = in_ i) : s.decodeExtractBinary in2 = s.decodeExtractBinary in_ := by
  apply state_ext
  · funext j
    rw [decodeExtractBinary_raw, decodeExtractBinary_raw]
    by_cases h1 : j < 96
    · rw [if_pos h1, if_pos h1, h _ (by omega)]
    · rw [if_neg h1, if_neg h1]
      by_cases h2 : j < 98
      · rw [if_pos h2, if_pos h2, h 12 (by decide)]
      · rw [if_neg h2, if_neg h2]
        by_cases h3 : j < 100
        · rw [if_pos h3, if_pos h3, h 20 (by decide)]
        · rw [if_neg h3, if_neg h3]
          by_cases h4 : j < 196
          · rw [if_pos h4, if_pos h4, h _ (by omega)]
          · rw [if_neg h4, if_neg h4]
  · rfl

/-- The plane built by `encodeExtractData` depends on bytes 0..11 of the payload
only. -/
theorem encodeExtractData_input (s : BPTC19696) (p p2 : Nat → Nat)
    (h : ∀ i, i < 12 → p2 i = p i) : s.encodeExtractData p2 = s.encodeExtractData p := by
  apply state_ext
  · rfl
  · funext j
    rw [encodeExtractData_deInter, encodeExtractData_deInter]
    by_cases hc : 4 ≤ j ∧ (j - 1) / 15 < 9 ∧ (j - 1) % 15 < 11
    · rw [if_pos hc, if_pos hc]
      unfold payloadBit
      rw [h _ (by omega)]
    · rw [if_neg hc, if_neg hc]

/-- The nine copy loops of `decodeExtractData` in closed form: scratch cell `k`
below 96 receives plane cell `dataPosition k`, the cells from 96 on are not
written, and `pos` ends at 96. -/
theorem decodeCopyLoops_eq (D bd0 : Nat → Bool) :
    decodeCopyLoops D bd0 = (fun k => if k < 96 then D (dataPosition k) else bd0 k, 96) := by
  unfold decodeCopyLoops
  simp only [takeRange_eq, Nat.reduceAdd, Nat.reduceSub, Nat.zero_add]
  refine Prod.ext ?_ rfl
  funext k
  dsimp only
  unfold dataPosition
  have hcase : k < 8 ∨ (8 ≤ k ∧ k < 19) ∨ (19 ≤ k ∧ k < 30) ∨ (30 ≤ k ∧ k < 41) ∨
      (41 ≤ k ∧ k < 52) ∨ (52 ≤ k ∧ k < 63) ∨ (63 ≤ k ∧ k < 74) ∨ (74 ≤ k ∧ k < 85) ∨
      (85 ≤ k ∧ k < 96) ∨ 96 ≤ k := by omega
  rcases hcase with h | h | h | h | h | h | h | h | h | h <;>
    (repeat (first | rw [if_pos (by omega)] | rw [if_neg (by omega)])) <;>
    (try (exact congrArg D (by omega)))

/-- The nine copy loops of `encodeExtractData` in closed form: the plane cell at
row `r = (j - 1) / 15`, offset `o = (j - 1) % 15` receives scratch cell
`11 * r + o - 3` when `j` is one of the 96 data positions, the other cells are
not written, and `pos` ends at 96. -/
theorem encodeCopyLoops_eq (b P : Nat → Bool) :
    encodeCopyLoops b P =
      (fun j => if 4 ≤ j ∧ (j - 1) / 15 < 9 ∧ (j - 1) % 15 < 11
        then b (11 * ((j - 1) / 15) + (j - 1) % 15 - 3) else P j, 96) := by
  unfold encodeCopyLoops
  simp only [placeRange_eq, Nat.reduceAdd, Nat.reduceSub, Nat.zero_add]
  refine Prod.ext ?_ rfl
  funext j
  dsimp only
  have hcase : (4 ≤ j ∧ j < 12) ∨ (16 ≤ j ∧ j < 27) ∨ (31 ≤ j ∧ j < 42) ∨ (46 ≤ j ∧ j < 57) ∨
      (61 ≤ j ∧ j < 72) ∨ (76 ≤ j ∧ j < 87) ∨ (91 ≤ j ∧ j < 102) ∨ (106 ≤ j ∧ j < 117) ∨
      (121 ≤ j ∧ j < 132) ∨
      j < 4 ∨ (12 ≤ j ∧ j < 16) ∨ (27 ≤ j ∧ j < 31) ∨ (42 ≤ j ∧ j < 46) ∨ (57 ≤ j ∧ j < 61) ∨
        (72 ≤ j ∧ j < 76) ∨ (87 ≤ j ∧ j < 91) ∨ (102 ≤ j ∧ j < 106) ∨ (117 ≤ j ∧ j < 121) ∨
        132 ≤ j := by omega
  rcases hcase with h | h | h | h | h | h | h | h | h | h | h | h | h | h | h | h | h | h | h <;>
    (repeat (first | rw [if_pos (by omega)] | rw [if_neg (by omega)])) <;>
    (try (exact congrArg b (by omega)))

/-- The scratch array filled by the twelve `byteToBitsBE` calls of
`encodeExtractData`: cell `k` below 96 holds payload bit `k`, the cells from 96
on are not written. -/
theorem encodeScratch_apply (p : Nat → Nat) (k : Nat) :
    encodeScratch p k = if k < 96 then payloadBit p k else false := by
  have h := foldl_byteToBitsBE p 0 0 12 (fun _ => false) k
  simp only [Nat.zero_add, Nat.sub_zero, Nat.zero_le, true_and] at h
  exact h

/-- A data position is the position of exactly the scratch cell it is copied
from. -/
theorem dataPosition_of_cell (j : Nat) (h : 4 ≤ j ∧ (j - 1) / 15 < 9 ∧ (j - 1) % 15 < 11) :
    11 * ((j - 1) / 15) + (j - 1) % 15 - 3 < 96 ∧
    dataPosition (11 * ((j - 1) / 15) + (j - 1) % 15 - 3) = j := by
  unfold dataPosition
  omega

/-- C16 (decode and encode are total with all indexing in bounds).  For every
input, `decode` returns a buffer whose first 12 entries are bytes and whose
other entries are untouched; it reads bytes 0..32 of the input only; `encode`
writes bytes 0..32 of its buffer only and reads bytes 0..11 of the payload
only; neither call writes a plane position at or above 196.  The index
expressions stay in range: column positions `c + 1 + 15 * a` are at most 195,
row windows end at 135 at most, interleave indices are below 196, payload
positions lie in 4..131, the scratch index `pos` ends at 96, and the buffer
byte carrying a raw position is below 33.  These bounds are bounds on the
indices the code uses: `decodeExtractBinary` takes raw position `k` from
buffer byte `rawBitByte k`, `decodeDeInterleave` takes position `a` from raw
position `interleaveSequence a`; the nine copy loops of `decodeExtractData`
write scratch cells 0..95 only, cell `k` from plane position `dataPosition k`,
so that they - and `decodeExtractData` - read the plane at positions 4..131
only, and the twelve bytes are packed from scratch cells `8 * i .. 8 * i + 7`,
`i < 12`; the twelve unpacking calls of `encodeExtractData` write scratch cells
0..95 only, from payload bytes 0..11, and its nine copy loops read scratch
cells 0..95 only and write the plane at the data positions only; the
interleaving steps, the error check and the packing of the encoded bytes read
the planes at positions 0..195 only. -/
theorem bptc_indexing_in_bounds (H : HammingOps) (s : BPTC19696) (in_ out p buf : Nat → Nat) :
    (∀ i, i < 12 → (decode H s in_ out).2 i < 256) ∧
    (∀ i, 12 ≤ i → (decode H s in_ out).2 i = out i) ∧
    (∀ in2 : Nat → Nat, (∀ i, i < 33 → in2 i = in_ i) →
      decode H s in2 out = decode H s in_ out) ∧
    (∀ j, 196 ≤ j → (decode H s in_ out).1.m_rawData j = s.m_rawData j ∧
      (decode H s in_ out).1.m_deInterData j = s.m_deInterData j) ∧
    (∀ i, 33 ≤ i → (encode H s p buf).2 i = buf i) ∧
    (∀ p2 : Nat → Nat, (∀ i, i < 12 → p2 i = p i) →
      encode H s p2 buf = encode H s p buf) ∧
    (∀ j, 196 ≤ j → (encode H s p buf).1.m_rawData j = s.m_rawData j ∧
      (encode H s p buf).1.m_deInterData j = s.m_deInterData j) ∧
    (∀ (plane : Nat → Bool) (c : Nat) (a : Fin 13), c < 15 →
      loadCol plane c a = plane (c + 1 + 15 * a.val) ∧ c + 1 + 15 * a.val ≤ 195) ∧
    (∀ (plane : Nat → Bool) (r : Nat) (i : Fin 15), r < 9 →
      loadRow plane (r * 15 + 1) i = plane (r * 15 + 1 + i.val) ∧ r * 15 + 1 + i.val ≤ 135) ∧
    (∀ a, interleaveSequence a < 196) ∧
    (∀ k, k < 96 → 4 ≤ dataPosition k ∧ dataPosition k ≤ 131) ∧
    (∀ a ∈ dataPositions, 4 ≤ a ∧ a ≤ 131) ∧
    (∀ D : Nat → Bool,
      (dataRanges.foldl (fun st r => takeRange D r.1 r.2 st) (fun _ => false, 0)).2 = 96) ∧
    (∀ k, k < 96 → payloadBit p k = (p (k / 8)).testBit (7 - k % 8) ∧ k / 8 < 12) ∧
    (∀ k, k < 196 → rawBitByte k < 33) ∧
    (∀ k, k < 196 →
      (s.decodeExtractBinary in_).m_rawData k = (in_ (rawBitByte k)).testBit (rawBitShift k)) ∧
    (∀ (t : BPTC19696) (a : Nat), a < 196 →
      t.decodeDeInterleave.m_deInterData a = t.m_rawData (interleaveSequence a)) ∧
    (∀ (t : BPTC19696) (i : Nat), t.decodeExtractData out i =
      if i < 12 then
        Utils.bitsToByteBE (decodeCopyLoops t.m_deInterData (fun _ => false)).1 (8 * i)
      else out i) ∧
    (∀ (b b2 : Nat → Bool) (off : Nat), (∀ i, i < 8 → b (off + i) = b2 (off + i)) →
      Utils.bitsToByteBE b off = Utils.bitsToByteBE b2 off) ∧
    (∀ D bd0 : Nat → Bool, (decodeCopyLoops D bd0).2 = 96 ∧
      (∀ k, 96 ≤ k → (decodeCopyLoops D bd0).1 k = bd0 k) ∧
      (∀ k, k < 96 → (decodeCopyLoops D bd0).1 k = D (dataPosition k))) ∧
    (∀ D D2 bd0 : Nat → Bool, (∀ j, 4 ≤ j → j ≤ 131 → D2 j = D j) →
      decodeCopyLoops D2 bd0 = decodeCopyLoops D bd0) ∧
    (∀ t t2 : BPTC19696, (∀ j, 4 ≤ j → j ≤ 131 → t2.m_deInterData j = t.m_deInterData j) →
      t2.decodeExtractData out = t.decodeExtractData out) ∧
    (∀ t : BPTC19696, t.encodeExtractData p =
      { t with m_deInterData :=
          (encodeCopyLoops (encodeScratch p) (clear196 t.m_deInterData)).1 }) ∧
    (∀ k, encodeScratch p k = if k < 96 then (p (k / 8)).testBit (7 - k % 8) else false) ∧
    (∀ b P : Nat → Bool, (encodeCopyLoops b P).2 = 96 ∧
      (∀ k, k < 96 → (encodeCopyLoops b P).1 (dataPosition k) = b k) ∧
      (∀ j, (∀ k, k < 96 → j ≠ dataPosition k) → (encodeCopyLoops b P).1 j = P j)) ∧
    (∀ b b2 P : Nat → Bool, (∀ k, k < 96 → b2 k = b k) →
      encodeCopyLoops b2 P = encodeCopyLoops b P) ∧
    (∀ t t2 : BPTC19696, SamePlane t.m_rawData t2.m_rawData →
      SamePlane t.decodeDeInterleave.m_deInterData t2.decodeDeInterleave.m_deInterData ∧
      t.encodeExtractBinary buf = t2.encodeExtractBinary buf) ∧
    (∀ t t2 : BPTC19696, SamePlane t.m_deInterData t2.m_deInterData →
      SamePlane (t.decodeErrorCheck H).m_deInterData (t2.decodeErrorCheck H).m_deInterData ∧
      SamePlane (t.encodeErrorCheck H).m_deInterData (t2.encodeErrorCheck H).m_deInterData ∧
      SamePlane t.encodeInterleave.m_rawData t2.encodeInterleave.m_rawData) := by
  refine ⟨?_, ?_, ?_, ?_, ?_, ?_, ?_, ?_, ?_, interleaveSequence_lt, ?_, by decide, ?_, ?_, ?_,
    ?_, ?_, ?_, ?_, ?_, ?_, ?_, ?_, ?_, ?_, ?_, ?_, ?_⟩
  · intro i hi
    rw [decode_snd, decodeExtractData_apply, if_pos hi]
    exact Utils.bitsToByteBE_lt _ _
  · intro i hi
    rw [decode_snd, decodeExtractData_apply, if_neg (by omega)]
  · intro in2 h
    have e : ∀ x : Nat → Nat, decode H s x out =
        (fun t : BPTC19696 => ((t.decodeDeInterleave).decodeErrorCheck H,
          ((t.decodeDeInterleave).decodeErrorCheck H).decodeExtractData out))
          (s.decodeExtractBinary x) := fun _ => rfl
    rw [e in2, e in_, decodeExtractBinary_input s in_ in2 h]
  · intro j hj
    constructor
    · rw [decode_fst_raw, decodeExtractBinary_raw, if_neg (by omega), if_neg (by omega),
        if_neg (by omega), if_neg (by omega)]
    · show (decodeLoop H 5 0 (s.decodeExtractBinary in_).decodeDeInterleave.m_deInterData).2 j = _
      rw [decodeLoop_frame H j hj, decodeDeInterleave_deInter, if_neg (by omega)]
      rfl
  · intro i hi
    rw [encode_snd, encodeExtractBinary_apply, if_neg (by omega), if_neg (by omega),
      if_neg (by omega), if_neg (by omega)]
  · intro p2 h
    have e : ∀ x : Nat → Nat, encode H s x buf =
        (fun t : BPTC19696 => (((t.encodeErrorCheck H).encodeInterleave),
          ((t.encodeErrorCheck H).encodeInterleave).encodeExtractBinary buf))
          (s.encodeExtractData x) := fun _ => rfl
    rw [e p2, e p, encodeExtractData_input s p p2 h]
  · intro j hj
    rw [encode_fst]
    constructor
    · rw [encodeInterleave_raw, if_neg (by omega)]
      rfl
    · rw [encodeInterleave_deInter, encodeErrorCheck_frame H _ j hj, encodeExtractData_deInter,
        if_neg (by omega), if_neg (by omega)]
  · intro plane c a hc
    have ha := a.isLt
    exact ⟨rfl, by omega⟩
  · intro plane r i hr
    have hi := i.isLt
    exact ⟨rfl, by omega⟩
  · intro k hk
    exact dataPosition_bounds k hk
  · intro D
    simp only [dataRanges, List.foldl, takeRange_snd]
  · intro k hk
    exact ⟨rfl, by omega⟩
  · intro k hk
    unfold rawBitByte
    split_ifs <;> omega
  · intro k hk
    exact decodeExtractBinary_raw_bit s in_ k hk
  · intro t a ha
    rw [decodeDeInterleave_deInter, if_pos ha]
  · intro t i
    rw [decodeExtractData_apply, decodeCopyLoops_eq]
  · exact Utils.bitsToByteBE_congr
  · intro D bd0
    rw [decodeCopyLoops_eq]
    refine ⟨rfl, ?_, ?_⟩
    · intro k hk
      show (if k < 96 then D (dataPosition k) else bd0 k) = bd0 k
      rw [if_neg (by omega)]
    · intro k hk
      show (if k < 96 then D (dataPosition k) else bd0 k) = D (dataPosition k)
      rw [if_pos hk]
  · intro D D2 bd0 h
    rw [decodeCopyLoops_eq, decodeCopyLoops_eq]
    refine Prod.ext ?_ rfl
    funext k
    show (if k < 96 then D2 (dataPosition k) else bd0 k) =
      if k < 96 then D (dataPosition k) else bd0 k
    by_cases hk : k < 96
    · rw [if_pos hk, if_pos hk]
      exact h _ (dataPosition_bounds k hk).1 (dataPosition_bounds k hk).2
    · rw [if_neg hk, if_neg hk]
  · intro t t2 h
    funext i
    rw [decodeExtractData_apply, decodeExtractData_apply]
    by_cases hi : i < 12
    · rw [if_pos hi, if_pos hi]
      apply Utils.bitsToByteBE_congr
      intro u hu
      have hk : 8 * i + u < 96 := by omega
      simp only [if_pos hk]
      exact h _ (dataPosition_bounds _ hk).1 (dataPosition_bounds _ hk).2
    · rw [if_neg hi, if_neg hi]
  · intro t
    rfl
  · intro k
    rw [encodeScratch_apply]
    rfl
  · intro b P
    rw [encodeCopyLoops_eq]
    refine ⟨rfl, ?_, ?_⟩
    · intro k hk
      have hb := dataPosition_bounds k hk
      have hc : 4 ≤ dataPosition k ∧ (dataPosition k - 1) / 15 < 9 ∧
          (dataPosition k - 1) % 15 < 11 := by unfold dataPosition; omega
      show (if 4 ≤ dataPosition k ∧ (dataPosition k - 1) / 15 < 9 ∧
          (dataPosition k - 1) % 15 < 11
        then b (11 * ((dataPosition k - 1) / 15) + (dataPosition k - 1) % 15 - 3)
        else P (dataPosition k)) = b k
      rw [if_pos hc]
      exact congrArg b (by unfold dataPosition; omega)
    · intro j hj
      show (if 4 ≤ j ∧ (j - 1) / 15 < 9 ∧ (j - 1) % 15 < 11
        then b (11 * ((j - 1) / 15) + (j - 1) % 15 - 3) else P j) = P j
      by_cases hc : 4 ≤ j ∧ (j - 1) / 15 < 9 ∧ (j - 1) % 15 < 11
      · exact absurd (dataPosition_of_cell j hc).2.symm (hj _ (dataPosition_of_cell j hc).1)
      · rw [if_neg hc]
  · intro b b2 P h
    rw [encodeCopyLoops_eq, encodeCopyLoops_eq]
    refine Prod.ext ?_ rfl
    funext j
    show (if 4 ≤ j ∧ (j - 1) / 15 < 9 ∧ (j - 1) % 15 < 11
        then b2 (11 * ((j - 1) / 15) + (j - 1) % 15 - 3) else P j) =
      if 4 ≤ j ∧ (j - 1) / 15 < 9 ∧ (j - 1) % 15 < 11
        then b (11 * ((j - 1) / 15) + (j - 1) % 15 - 3) else P j
    by_cases hc : 4 ≤ j ∧ (j - 1) / 15 < 9 ∧ (j - 1) % 15 < 11
    · rw [if_pos hc, if_pos hc]
      exact h _ (dataPosition_of_cell j hc).1
    · rw [if_neg hc, if_neg hc]
  · intro t t2 h
    exact ⟨decodeDeInterleave_samePlane t t2 h, encodeExtractBinary_congr t t2 h buf⟩
  · intro t t2 h
    exact ⟨(decodeLoop_congr H 5 0 t.m_deInterData t2.m_deInterData h).2,
      encodeErrorCheck_congr H t t2 h, encodeInterleave_samePlane t t2 h⟩

end BPTC19696

end edac

namespace edac

namespace Hamming

/-! ## Single-error correction of the modelled Hamming routines -/

set_option maxHeartbeats 4000000 in
theorem decode15113_2_single (d : Codeword 15) (i : Fin 15) :
    decode15113_2 (Function.update (encode15113_2 d) i (!(encode15113_2 d i))) =
      (true, encode15113_2 d) := by
  fin_cases i <;> simp [decode15113_2, encode15113_2, Function.update]

theorem update_not_ne {n : Nat} (d : Codeword n) (k : Fin n) :
    Function.update d k (!d k) ≠ d := by
  intro h
  have h2 := congrFun h k
  rw [Function.update_same] at h2
  cases hd : d k <;> rw [hd] at h2 <;> exact absurd h2 (by decide)

/-- The (13,9,3) decoder returns true exactly when it changed the codeword. -/
theorem decode1393_flag (d : Codeword 13) :
    ((decode1393 d).1 = true ↔ (decode1393 d).2 ≠ d) := by
  unfold decode1393
  simp only
  split <;> simp [update_not_ne]

/-- The (15,11,3) decoder returns true exactly when it changed the codeword. -/
theorem decode15113_2_flag (d : Codeword 15) :
    ((decode15113_2 d).1 = true ↔ (decode15113_2 d).2 ≠ d) := by
  unfold decode15113_2
  simp only
  split <;> simp [update_not_ne]

/-- C24 (Hamming single-error correction).  For every data word and every
position `i < 13`, inverting bit `i` of the codeword produced by `encode1393`
and then calling `decode1393` returns true and restores the encoded codeword;
likewise for every position `i < 15` with `encode15113_2` and
`decode15113_2`. -/
theorem hamming_single_error_correction :
    (∀ (d : Codeword 13) (i : Fin 13),
      (decode1393 (Function.update (encode1393 d) i (!(encode1393 d i)))).1 = true ∧
      (decode1393 (Function.update (encode1393 d) i (!(encode1393 d i)))).2 = encode1393 d) ∧
    (∀ (d : Codeword 15) (i : Fin 15),
      (decode15113_2 (Function.update (encode15113_2 d) i (!(encode15113_2 d i)))).1 = true ∧
      (decode15113_2 (Function.update (encode15113_2 d) i (!(encode15113_2 d i)))).2 =
        encode15113_2 d) := by
  constructor
  · intro d i
    rw [decode1393_single]
    exact ⟨rfl, rfl⟩
  · intro d i
    rw [decode15113_2_single]
    exact ⟨rfl, rfl⟩

/-- C25 (Hamming decode reports a correction only when it applies one).  For
every data word, the decoder called on the codeword produced by the matching
encoder returns false and leaves all bits unchanged; the encoders write only
the parity positions (indices 9..12 of 13, indices 11..14 of 15) and leave
the data positions unchanged; and on any 13- or 15-bit word a decoder returns
true exactly when it changed a bit. -/
theorem hamming_no_false_correction :
    (∀ d : Codeword 13, (decode1393 (encode1393 d)).1 = false ∧
      (decode1393 (encode1393 d)).2 = encode1393 d) ∧
    (∀ d : Codeword 15, (decode15113_2 (encode15113_2 d)).1 = false ∧
      (decode15113_2 (encode15113_2 d)).2 = encode15113_2 d) ∧
    (∀ (d : Codeword 13) (i : Fin 13), i.val < 9 → encode1393 d i = d i) ∧
    (∀ (d : Codeword 15) (i : Fin 15), i.val < 11 → encode15113_2 d i = d i) ∧
    (∀ d : Codeword 13, (decode1393 d).1 = true ↔ (decode1393 d).2 ≠ d) ∧
    (∀ d : Codeword 15, (decode15113_2 d).1 = true ↔ (decode15113_2 d).2 ≠ d) := by
  refine ⟨?_, ?_, encode1393_data, encode15113_2_data, decode1393_flag, decode15113_2_flag⟩
  · intro d
    rw [decode1393_encode]
    exact ⟨rfl, rfl⟩
  · intro d
    rw [decode15113_2_encode]
    exact ⟨rfl, rfl⟩

end Hamming

end edac

namespace edac

namespace BPTC19696

/-! ## The encoded plane under the decoder's error check -/

theorem decodeColumn_outside (H : HammingOps) (st : Bool × (Nat → Bool)) (c : Nat) (hc : c < 15)
    (j : Nat) (hj : j = 0 ∨ 196 ≤ j) : (decodeColumn H st c).2 j = st.2 j := by
  unfold decodeColumn
  by_cases hr : (H.decode1393 (loadCol st.2 c)).1 = true
  · simp only [hr, if_true]
    rw [storeCol_apply, if_neg (by omega)]
  · simp only [hr, if_false, Bool.false_eq_true]

theorem decodeRow_outside (H : HammingOps) (st : Bool × (Nat → Bool)) (r : Nat) (hr : r < 9)
    (j : Nat) (hj : j = 0 ∨ 196 ≤ j) : (decodeRow H st r).2 j = st.2 j := by
  unfold decodeRow storeRow
  simp only
  rw [if_neg (by omega)]

/-- A pass of the error check writes no position outside `1..195`. -/
theorem decodePass_outside (H : HammingOps) (D : Nat → Bool) (j : Nat) (hj : j = 0 ∨ 196 ≤ j) :
    (decodePass H D).2 j = D j := by
  unfold decodePass
  have hcols := foldl_range_invariant (fun _ st => st.2 j = D j) (decodeColumn H) 15 (false, D)
    rfl (fun i t hi ht => (decodeColumn_outside H t i hi j hj).trans ht)
  exact foldl_range_invariant (fun _ st => st.2 j = D j) (decodeRow H) 9 _ hcols
    (fun i t hi ht => (decodeRow_outside H t i hi j hj).trans ht)

/-- A pass of the error check over a valid plane leaves every bit as it is. -/
theorem decodePass_valid (H : HammingOps) (hK : H.KeepsValid) (E : Nat → Bool)
    (hV : ValidPlane H E) : decodePass H E = (false, E) := by
  have h := decodePass_of_agree H hK hV E (fun _ _ _ => rfl)
  have h2 : (decodePass H E).2 = E := by
    funext j
    by_cases hj : j = 0 ∨ 196 ≤ j
    · exact decodePass_outside H E j hj
    · exact h.2 j (by omega) (by omega)
  exact Prod.ext h.1 h2

/-- C30 (an encoded plane is a fixed point of the decoder's error check).  For
Hamming routines whose encoders write parity positions only and whose
decoders leave a valid codeword unchanged, and for every payload: in the
plane produced by `encodeExtractData` followed by `encodeErrorCheck` every
one of the 9 data rows is the (15,11) codeword of its data bits and every one
of the 15 columns is a (13,9) codeword, each accepted unchanged by its
decoder; the column pass leaves the positions below 136 as the row pass left
them; and `decodeErrorCheck` on that plane runs exactly one pass, which sets
no `fixing` flag and changes no bit. -/
theorem encoded_plane_fixed_point (H : HammingOps) (hW : H.WritesParityOnly)
    (hK : H.KeepsValid) (s : BPTC19696) (p : Nat → Nat) :
    (∀ r, r < 9 →
      loadRow ((s.encodeExtractData p).encodeErrorCheck H).m_deInterData (r * 15 + 1) =
        H.encode15113_2 (loadRow (s.encodeExtractData p).m_deInterData (r * 15 + 1)) ∧
      H.decode15113_2
          (loadRow ((s.encodeExtractData p).encodeErrorCheck H).m_deInterData (r * 15 + 1)) =
        (false, loadRow ((s.encodeExtractData p).encodeErrorCheck H).m_deInterData (r * 15 + 1))) ∧
    (∀ c, c < 15 →
      loadCol ((s.encodeExtractData p).encodeErrorCheck H).m_deInterData c =
        H.encode1393 (loadCol ((List.range 9).foldl (encodeRow H)
          (s.encodeExtractData p).m_deInterData) c) ∧
      H.decode1393 (loadCol ((s.encodeExtractData p).encodeErrorCheck H).m_deInterData c) =
        (false, loadCol ((s.encodeExtractData p).encodeErrorCheck H).m_deInterData c)) ∧
    (∀ j, j < 136 → ((s.encodeExtractData p).encodeErrorCheck H).m_deInterData j =
      (List.range 9).foldl (encodeRow H) (s.encodeExtractData p).m_deInterData j) ∧
    (decodePass H ((s.encodeExtractData p).encodeErrorCheck H).m_deInterData).1 = false ∧
    (decodeLoop H 5 0 ((s.encodeExtractData p).encodeErrorCheck H).m_deInterData).1 = 1 ∧
    ((s.encodeExtractData p).encodeErrorCheck H).decodeErrorCheck H =
      (s.encodeExtractData p).encodeErrorCheck H := by
  have hV := validPlane_encodeErrorCheck H hW (s.encodeExtractData p)
  have hpass := decodePass_valid H hK _ hV
  have hloop : decodeLoop H 5 0 ((s.encodeExtractData p).encodeErrorCheck H).m_deInterData =
      (1, ((s.encodeExtractData p).encodeErrorCheck H).m_deInterData) := by
    rw [decodeLoop_succ, hpass]
    rfl
  refine ⟨?_, ?_, ?_, ?_, ?_, ?_⟩
  · intro r hr
    have e := encodeErrorCheck_loadRow H hW (s.encodeExtractData p) r hr
    exact ⟨e, by rw [e, hK.1]⟩
  · intro c hc
    have e := encodeErrorCheck_loadCol H (s.encodeExtractData p) c hc
    exact ⟨e, by rw [e, hK.2]⟩
  · intro j hj
    by_cases h0 : j = 0
    · subst h0
      rw [encodeErrorCheck_deInter, if_neg (by omega)]
    · exact encodeErrorCheck_of_row_lt H hW _ j (by omega) (by omega)
  · rw [hpass]
  · rw [hloop]
  · apply state_ext
    · rfl
    · show (decodeLoop H 5 0 ((s.encodeExtractData p).encodeErrorCheck H).m_deInterData).2 = _
      rw [hloop]

theorem encoded_plane_fixed_point_witness :
    Hamming.ops.WritesParityOnly ∧ Hamming.ops.KeepsValid ∧
    (decodeLoop Hamming.ops 5 0
      ((exampleState.encodeExtractData examplePayload).encodeErrorCheck
        Hamming.ops).m_deInterData).1 = 1 :=
  ⟨Hamming.ops_writesParityOnly, Hamming.ops_keepsValid,
    (encoded_plane_fixed_point Hamming.ops Hamming.ops_writesParityOnly Hamming.ops_keepsValid
      exampleState examplePayload).2.2.2.2.1⟩

end BPTC19696

end edac

namespace p25

namespace MBT_OSP_RFSS_STS_BCAST

/-! ## The logical link ID of MBT_OSP_RFSS_STS_BCAST -/

theorem or_two_pow_12 (a b : Nat) (hb : b < 2 ^ 12) :
    ((a * 2 ^ 12 + b) ||| 2 ^ 12) % 2 ^ 12 = b ∧
      ((a * 2 ^ 12 + b) ||| 2 ^ 12) / 2 ^ 12 = a ||| 1 := by
  have hdiv : (a * 2 ^ 12 + b) / 2 ^ 12 = a := by
    simp only [Nat.reducePow] at hb ⊢; omega
  have hmod : (a * 2 ^ 12 + b) % 2 ^ 12 = b := by
    simp only [Nat.reducePow] at hb ⊢; omega
  constructor
  · apply Nat.eq_of_testBit_eq
    intro i
    rw [Nat.testBit_mod_two_pow, Nat.testBit_or, Nat.testBit_two_pow]
    by_cases hi : i < 12
    · have h12 : ¬ (12 = i) := by omega
      have hb2 : b.testBit i = (a * 2 ^ 12 + b).testBit i := by
        conv_lhs => rw [← hmod]
        rw [Nat.testBit_mod_two_pow]
        simp [hi]
      simp [hi, h12, hb2]
    · have hlt : b < 2 ^ i :=
        Nat.lt_of_lt_of_le hb (Nat.pow_le_pow_right (by decide) (by omega))
      rw [Nat.testBit_lt_two_pow hlt]
      simp [hi]
  · apply Nat.eq_of_testBit_eq
    intro i
    have h1 : (1 : Nat).testBit i = decide (0 = i) :=
      @Nat.testBit_two_pow 0 i
    have hx : (a * 2 ^ 12 + b).testBit (12 + i) = a.testBit i := by
      rw [← Nat.testBit_shiftRight, Nat.shiftRight_eq_div_pow, hdiv]
    rw [← Nat.shiftRight_eq_div_pow, Nat.testBit_shiftRight, Nat.testBit_or,
      Nat.testBit_two_pow, Nat.testBit_or, hx, h1]
    by_cases hi : i = 0
    · subst hi; simp
    · have h12 : ¬ (12 = 12 + i) := by omega
      have h0 : ¬ (0 = i) := by omega
      simp [h12, h0]

/-- Setting bit 12 of `a * 4096 + b` (`b < 4096`) keeps the low 12 bits and
sets bit 0 of the part above them. -/
theorem or_0x1000 (a b : Nat) (hb : b < 4096) :
    ((a * 4096 + b) ||| 0x1000) % 4096 = b ∧ ((a * 4096 + b) ||| 0x1000) / 4096 = a ||| 1 :=
  or_two_pow_12 a b hb

/-- The packed logical link ID as plain arithmetic. -/
theorem packLLId_eq (site : SiteData) :
    packLLId site =
      if site.netActive then ((site.lra % 2 ^ 32 * 4096 + site.siteId) % 2 ^ 32) ||| 0x1000
      else (site.lra % 2 ^ 32 * 4096 + site.siteId) % 2 ^ 32 := by
  unfold packLLId
  simp only [Nat.shiftLeft_eq, Nat.reducePow]

/-- C21 (logical address packing in MBT_OSP_RFSS_STS_BCAST::encodeMBT).  The
header handed on by `encodeMBT` has its logical address set to
`(lra << 12) + siteId`, with bit 12 (0x1000) OR-ed in when the site's
network-active flag is set.  For `siteId < 4096` (and a registration area
that fits the 32-bit address, `lra < 2^20`) the low 12 bits of the logical
address equal `siteId` and the bits from 12 upward equal `lra` when
`netActive` is false and `lra | 1` when it is true. -/
theorem rfss_sts_bcast_llid (ambtEncode : DataHeader → (Nat → Nat) → DataHeader × (Nat → Nat))
    (self : TSBK) (dataHeader : DataHeader) (pduUserData : Nat → Nat)
    (hsite : self.m_siteData.siteId < 4096) (hlra : self.m_siteData.lra < 2 ^ 20) :
    (∃ pdu : Nat → Nat, encodeMBT ambtEncode self dataHeader pduUserData =
      ambtEncode { dataHeader with llId := packLLId self.m_siteData } pdu) ∧
    packLLId self.m_siteData =
      (if self.m_siteData.netActive
        then ((self.m_siteData.lra <<< 12) + self.m_siteData.siteId) ||| 0x1000
        else (self.m_siteData.lra <<< 12) + self.m_siteData.siteId) ∧
    packLLId self.m_siteData < 2 ^ 32 ∧
    packLLId self.m_siteData % 4096 = self.m_siteData.siteId ∧
    packLLId self.m_siteData / 4096 =
      (if self.m_siteData.netActive then self.m_siteData.lra ||| 1 else self.m_siteData.lra) := by
  have hnowrap : (self.m_siteData.lra % 2 ^ 32 * 4096 + self.m_siteData.siteId) % 2 ^ 32 =
      self.m_siteData.lra * 4096 + self.m_siteData.siteId := by
    simp only [Nat.reducePow] at hlra ⊢
    omega
  have hor := or_0x1000 self.m_siteData.lra self.m_siteData.siteId hsite
  have hlt : (self.m_siteData.lra ||| 1) < 2 ^ 20 :=
    Nat.or_lt_two_pow hlra (by decide)
  refine ⟨⟨_, rfl⟩, ?_, ?_, ?_, ?_⟩
  · rw [packLLId_eq, hnowrap, Nat.shiftLeft_eq]
  · rw [packLLId_eq, hnowrap]
    cases self.m_siteData.netActive
    · simp only [Nat.reducePow, Bool.false_eq_true, if_false] at hlra ⊢
      omega
    · simp only [if_true]
      have h1 := hor.1
      have h2 := hor.2
      simp only [Nat.reducePow] at hlt ⊢
      omega
  · rw [packLLId_eq, hnowrap]
    cases self.m_siteData.netActive
    · simp only [Bool.false_eq_true, if_false]
      omega
    · simp only [if_true]
      exact hor.1
  · rw [packLLId_eq, hnowrap]
    cases self.m_siteData.netActive
    · simp only [Bool.false_eq_true, if_false]
      omega
    · simp only [if_true]
      exact hor.2

theorem rfss_sts_bcast_llid_witness :
    exampleActiveSite.siteId < 4096 ∧ exampleActiveSite.lra < 2 ^ 20 ∧
    packLLId exampleActiveSite % 4096 = 0x123 ∧ packLLId exampleActiveSite / 4096 = 5 :=
  have h := rfss_sts_bcast_llid exampleAmbtEncode
    { OSP_DVM_LC_CALL_TERM.exampleTerm with m_siteData := exampleActiveSite } exampleHeader
    (fun _ => 0) (by decide) (by decide)
  ⟨by decide, by decide, h.2.2.2.1, h.2.2.2.2⟩

end MBT_OSP_RFSS_STS_BCAST

end p25

namespace p25

namespace OSP_DVM_LC_CALL_TERM

/-! ## What OSP_DVM_LC_CALL_TERM::encode does to the block -/

/-- C23 (as stated, refuted).  Whatever the value of the constant
`MFG_DVM_OCS`, encoding changes the manufacturer ID of one of the two blocks
`exampleTerm` (manufacturer ID 0) and `exampleTermMf1` (manufacturer ID 1). -/
theorem call_term_encode_frame_counterexample :
    ¬ ∃ mfgDvmOcs : Nat,
      (encode BlockCodec.rejectAll mfgDvmOcs exampleTerm (fun _ => 0) false false).2.m_mfId =
        exampleTerm.m_mfId ∧
      (encode BlockCodec.rejectAll mfgDvmOcs exampleTermMf1 (fun _ => 0) false false).2.m_mfId =
        exampleTermMf1.m_mfId := by
  rintro ⟨m, h0, h1⟩
  have e0 : m = 0 := h0
  have e1 : m = 1 := h1
  omega

/-- C23 (amended).  `OSP_DVM_LC_CALL_TERM::encode` modifies no field of the
block other than the manufacturer/feature ID, which it sets to the constant
`MFG_DVM_OCS`; the block after the call and the encoded buffer do not depend
on the manufacturer ID before the call, and a second call leaves the block
as the first one left it. -/
theorem call_term_encode_frame (C : BlockCodec) (mfgDvmOcs : Nat) (self : TSBK)
    (data data2 : Nat → Nat) (rawTSBK noTrellis : Bool) :
    (encode C mfgDvmOcs self data rawTSBK noTrellis).2 = { self with m_mfId := mfgDvmOcs } ∧
    (encode C mfgDvmOcs self data rawTSBK noTrellis).2.m_mfId = mfgDvmOcs ∧
    ((encode C mfgDvmOcs self data rawTSBK noTrellis).2.m_lco = self.m_lco ∧
      (encode C mfgDvmOcs self data rawTSBK noTrellis).2.m_grpVchId = self.m_grpVchId ∧
      (encode C mfgDvmOcs self data rawTSBK noTrellis).2.m_grpVchNo = self.m_grpVchNo ∧
      (encode C mfgDvmOcs self data rawTSBK noTrellis).2.m_dstId = self.m_dstId ∧
      (encode C mfgDvmOcs self data rawTSBK noTrellis).2.m_srcId = self.m_srcId ∧
      (encode C mfgDvmOcs self data rawTSBK noTrellis).2.m_siteData = self.m_siteData) ∧
    (∀ mf : Nat, encode C mfgDvmOcs { self with m_mfId := mf } data rawTSBK noTrellis =
      encode C mfgDvmOcs self data rawTSBK noTrellis) ∧
    (encode C mfgDvmOcs (encode C mfgDvmOcs self data rawTSBK noTrellis).2 data2 rawTSBK
        noTrellis).2 = (encode C mfgDvmOcs self data rawTSBK noTrellis).2 ∧
    (self.m_mfId = mfgDvmOcs → (encode C mfgDvmOcs self data rawTSBK noTrellis).2 = self) := by
  refine ⟨rfl, rfl, ⟨rfl, rfl, rfl, rfl, rfl, rfl⟩, fun _ => rfl, rfl, ?_⟩
  intro h
  show { self with m_mfId := mfgDvmOcs } = self
  rw [← h]

end OSP_DVM_LC_CALL_TERM

end p25

/-! ## Concatenation of fields -/

theorem totalWidth_cons (f : Nat × Nat) (fs : List (Nat × Nat)) :
    totalWidth (f :: fs) = f.1 + totalWidth fs := by
  simp [totalWidth]

theorem totalWidth_append (fs gs : List (Nat × Nat)) :
    totalWidth (fs ++ gs) = totalWidth fs + totalWidth gs := by
  simp [totalWidth]

/-- Shifting and adding the fields onto an accumulator. -/
theorem foldl_fields (fs : List (Nat × Nat)) : ∀ acc : Nat,
    fs.foldl (fun acc f => acc * 2 ^ f.1 + f.2) acc = acc * 2 ^ totalWidth fs + concatFields fs := by
  induction fs with
  | nil => intro acc; simp [totalWidth, concatFields]
  | cons f fs ih =>
    intro acc
    have h1 := ih (acc * 2 ^ f.1 + f.2)
    have h2 := ih (0 * 2 ^ f.1 + f.2)
    rw [totalWidth_cons]
    show fs.foldl (fun acc f => acc * 2 ^ f.1 + f.2) (acc * 2 ^ f.1 + f.2) =
      acc * 2 ^ (f.1 + totalWidth fs) + fs.foldl (fun acc f => acc * 2 ^ f.1 + f.2) (0 * 2 ^ f.1 + f.2)
    rw [h1, h2, pow_add]
    ring

theorem concatFields_cons (f : Nat × Nat) (fs : List (Nat × Nat)) :
    concatFields (f :: fs) = f.2 * 2 ^ totalWidth fs + concatFields fs := by
  show fs.foldl (fun acc f => acc * 2 ^ f.1 + f.2) (0 * 2 ^ f.1 + f.2) = _
  rw [foldl_fields]
  simp

theorem concatFields_append (fs gs : List (Nat × Nat)) :
    concatFields (fs ++ gs) = concatFields fs * 2 ^ totalWidth gs + concatFields gs := by
  unfold concatFields
  rw [List.foldl_append, foldl_fields gs]
  rfl

/-- Fields within their widths concatenate to a value below `2 ^ totalWidth`. -/
theorem concatFields_lt (fs : List (Nat × Nat)) (h : ∀ f ∈ fs, f.2 < 2 ^ f.1) :
    concatFields fs < 2 ^ totalWidth fs := by
  induction fs with
  | nil => simp [concatFields, totalWidth]
  | cons f fs ih =>
    have hf := h f (List.mem_cons_self f fs)
    have hfs := ih (fun g hg => h g (List.mem_cons_of_mem f hg))
    rw [concatFields_cons, totalWidth_cons, pow_add]
    calc f.2 * 2 ^ totalWidth fs + concatFields fs
        < f.2 * 2 ^ totalWidth fs + 2 ^ totalWidth fs := Nat.add_lt_add_left hfs _
      _ = (f.2 + 1) * 2 ^ totalWidth fs := by ring
      _ ≤ 2 ^ f.1 * 2 ^ totalWidth fs := Nat.mul_le_mul_right _ hf

/-- Each field can be read back from the concatenation by a shift and a mask:
no field carries into its neighbour. -/
theorem concatFields_extract (pre post : List (Nat × Nat)) (f : Nat × Nat)
    (h : ∀ g ∈ pre ++ f :: post, g.2 < 2 ^ g.1) :
    concatFields (pre ++ f :: post) / 2 ^ totalWidth post % 2 ^ f.1 = f.2 := by
  have hf : f.2 < 2 ^ f.1 := h f (by simp)
  have hpost : concatFields post < 2 ^ totalWidth post :=
    concatFields_lt post (fun g hg => h g (by simp [hg]))
  have hpos : 0 < 2 ^ totalWidth post := Nat.two_pow_pos _
  rw [concatFields_append, concatFields_cons, totalWidth_cons, pow_add]
  have e : concatFields pre * (2 ^ f.1 * 2 ^ totalWidth post) +
      (f.2 * 2 ^ totalWidth post + concatFields post) =
      concatFields post + 2 ^ totalWidth post * (f.2 + 2 ^ f.1 * concatFields pre) := by ring
  rw [e, Nat.add_mul_div_left _ _ hpos, Nat.div_eq_of_lt hpost, Nat.zero_add,
    Nat.add_mul_mod_self_left, Nat.mod_eq_of_lt hf]

namespace p25

theorem IOSP_GRP_VCH.grp_vch_value_concat (self : IOSP_GRP_VCH) (h2 : self.channelIdField < 16)
    (h3 : self.m_grpVchNo < 4096) (h4 : self.m_dstId < 2 ^ 16) (h5 : self.m_srcId < 2 ^ 24) :
    self.encodeValue = concatFields self.fields := by
  unfold IOSP_GRP_VCH.encodeValue IOSP_GRP_VCH.fields IOSP_GRP_VCH.optionsField
  unfold IOSP_GRP_VCH.channelIdField at h2 ⊢
  simp only [concatFields, List.foldl, Nat.shiftLeft_eq, and_0x07, Nat.reducePow] at h4 h5 ⊢
  by_cases hc : (self.m_grpVchId != 0 || self.m_forceChannelId) = true
  · simp only [hc, if_true] at h2 ⊢
    cases self.m_emergency <;> cases self.m_encrypted <;>
      simp only [if_true, if_false, Bool.false_eq_true] <;> omega
  · simp only [hc, if_false, Bool.false_eq_true] at h2 ⊢
    cases self.m_emergency <;> cases self.m_encrypted <;>
      simp only [if_true, if_false, Bool.false_eq_true] <;> omega

theorem OSP_DVM_LC_CALL_TERM.call_term_value_concat (self : TSBK)
    (h0 : self.m_siteData.channelId < 16) (h1 : self.m_grpVchNo < 4096)
    (h2 : self.m_dstId < 2 ^ 16) (h3 : self.m_srcId < 2 ^ 24) :
    OSP_DVM_LC_CALL_TERM.encodeValue self = concatFields (OSP_DVM_LC_CALL_TERM.fields self) := by
  unfold OSP_DVM_LC_CALL_TERM.encodeValue OSP_DVM_LC_CALL_TERM.fields
  simp only [concatFields, List.foldl, Nat.shiftLeft_eq, Nat.reducePow] at h2 h3 ⊢
  omega

theorem OSP_IDEN_UP_VU.iden_up_vu_value_concat (F : FloatOps) (bw125K bw625K : Nat)
    (e : IdenTable) (h0 : e.channelId < 16) (h1 : OSP_IDEN_UP_VU.chanBw bw125K bw625K e < 16)
    (h2 : OSP_IDEN_UP_VU.uCalcTxOffset F e < 2 ^ 14)
    (h3 : OSP_IDEN_UP_VU.calcSpace F e < 2 ^ 10)
    (h4 : OSP_IDEN_UP_VU.calcBaseFreq e < 2 ^ 32) :
    OSP_IDEN_UP_VU.encodeValue F bw125K bw625K e =
      concatFields (OSP_IDEN_UP_VU.fields F bw125K bw625K e) := by
  have hv : OSP_IDEN_UP_VU.encodeValue F bw125K bw625K e =
      (((((((((((((e.channelId % 2 ^ 64) <<< 4) + OSP_IDEN_UP_VU.chanBw bw125K bw625K e) % 2 ^
      64) <<< 14) + OSP_IDEN_UP_VU.uCalcTxOffset F e) % 2 ^ 64) <<< 10) +
      OSP_IDEN_UP_VU.calcSpace F e) % 2 ^ 64) <<< 32) + OSP_IDEN_UP_VU.calcBaseFreq e) % 2 ^ 64) :=
    rfl
  rw [hv]
  unfold OSP_IDEN_UP_VU.fields
  generalize OSP_IDEN_UP_VU.chanBw bw125K bw625K e = b at h1 ⊢
  generalize OSP_IDEN_UP_VU.uCalcTxOffset F e = o at h2 ⊢
  generalize OSP_IDEN_UP_VU.calcSpace F e = c at h3 ⊢
  generalize OSP_IDEN_UP_VU.calcBaseFreq e = f at h4 ⊢
  simp only [concatFields, List.foldl, Nat.shiftLeft_eq, Nat.reducePow] at h2 h3 h4 ⊢
  omega

theorem OSP_SNDCP_CH_GNT.sndcp_ch_gnt_value_concat (F : FloatOps) (self : OSP_SNDCP_CH_GNT)
    (h0 : self.m_dataServiceOptions < 256) (h1 : self.channelIdField < 16)
    (h2 : self.m_dataChannelNo < 4096) (h3 : self.m_dstId < 2 ^ 24) :
    OSP_SNDCP_CH_GNT.encodeValue F self = concatFields (OSP_SNDCP_CH_GNT.fields F self) := by
  unfold OSP_SNDCP_CH_GNT.encodeValue OSP_SNDCP_CH_GNT.fields
  unfold OSP_SNDCP_CH_GNT.channelIdField at h1 ⊢
  rw [and_0xFFF]
  generalize OSP_SNDCP_CH_GNT.rxChNo F self = x
  simp only [concatFields, List.foldl, Nat.shiftLeft_eq, Nat.reducePow] at h3 ⊢
  by_cases hc : (self.m_grpVchId != 0) = true
  · simp only [hc, if_true] at h1 ⊢
    omega
  · simp only [hc, if_false, Bool.false_eq_true] at h1 ⊢
    omega

end p25

theorem dmr.CSBK_CALL_ALRT.call_alrt_value_concat (self : dmr.CSBK) (h1 : self.m_dstId < 2 ^ 32)
    (h2 : self.m_srcId < 2 ^ 24) :
    dmr.CSBK_CALL_ALRT.encodeValue self = concatFields (dmr.CSBK_CALL_ALRT.fields self) := by
  unfold dmr.CSBK_CALL_ALRT.encodeValue dmr.CSBK_CALL_ALRT.fields
  simp only [concatFields, List.foldl, Nat.shiftLeft_eq, Nat.reducePow] at h1 h2 ⊢
  cases self.m_GI <;> simp only [if_true, if_false, Bool.false_eq_true] <;> omega

/-- C22 (field widths fit the 64-bit value).  For IOSP_GRP_VCH
(8+4+12+16+24), OSP_DVM_LC_CALL_TERM (4+12+16+24), CSBK_CALL_ALRT (8+32+24),
OSP_IDEN_UP_VU (4+4+14+10+32) and OSP_SNDCP_CH_GNT (8+4+12+4+12+24) the widths
of the fields shifted in by `encode` sum to at most 64, and whenever every
field (a substituted site channel ID included) is within its width, the
value built by `encode` - computed modulo 2^64 - equals the plain
concatenation of the fields, most significant field first; for
OSP_IDEN_UP_VU and OSP_SNDCP_CH_GNT this holds whatever values the float
expressions behind the transmit offset, the channel spacing and the receive
channel number yield.  In such a concatenation every field is read back by a
shift and a mask, so none carries into its neighbour, and the whole is below
2 to the total width. -/
theorem field_widths_fit :
    ((∀ g : p25.IOSP_GRP_VCH, totalWidth g.fields = 64) ∧
      (∀ t : p25.TSBK, totalWidth (p25.OSP_DVM_LC_CALL_TERM.fields t) = 56) ∧
      (∀ a : dmr.CSBK, totalWidth (dmr.CSBK_CALL_ALRT.fields a) = 64) ∧
      (∀ (F : p25.FloatOps) (bw125K bw625K : Nat) (e : p25.IdenTable),
        totalWidth (p25.OSP_IDEN_UP_VU.fields F bw125K bw625K e) = 64) ∧
      (∀ (F : p25.FloatOps) (s : p25.OSP_SNDCP_CH_GNT),
        totalWidth (p25.OSP_SNDCP_CH_GNT.fields F s) = 64)) ∧
    (∀ g : p25.IOSP_GRP_VCH, (∀ f ∈ g.fields, f.2 < 2 ^ f.1) →
      g.encodeValue = concatFields g.fields) ∧
    (∀ t : p25.TSBK, (∀ f ∈ p25.OSP_DVM_LC_CALL_TERM.fields t, f.2 < 2 ^ f.1) →
      p25.OSP_DVM_LC_CALL_TERM.encodeValue t =
        concatFields (p25.OSP_DVM_LC_CALL_TERM.fields t)) ∧
    (∀ a : dmr.CSBK, (∀ f ∈ dmr.CSBK_CALL_ALRT.fields a, f.2 < 2 ^ f.1) →
      dmr.CSBK_CALL_ALRT.encodeValue a = concatFields (dmr.CSBK_CALL_ALRT.fields a)) ∧
    (∀ (F : p25.FloatOps) (bw125K bw625K : Nat) (e : p25.IdenTable),
      (∀ f ∈ p25.OSP_IDEN_UP_VU.fields F bw125K bw625K e, f.2 < 2 ^ f.1) →
      p25.OSP_IDEN_UP_VU.encodeValue F bw125K bw625K e =
        concatFields (p25.OSP_IDEN_UP_VU.fields F bw125K bw625K e)) ∧
    (∀ (F : p25.FloatOps) (s : p25.OSP_SNDCP_CH_GNT),
      (∀ f ∈ p25.OSP_SNDCP_CH_GNT.fields F s, f.2 < 2 ^ f.1) →
      p25.OSP_SNDCP_CH_GNT.encodeValue F s = concatFields (p25.OSP_SNDCP_CH_GNT.fields F s)) ∧
    (∀ fs : List (Nat × Nat), (∀ f ∈ fs, f.2 < 2 ^ f.1) →
      concatFields fs < 2 ^ totalWidth fs) ∧
    (∀ (pre post : List (Nat × Nat)) (f : Nat × Nat),
      (∀ g ∈ pre ++ f :: post, g.2 < 2 ^ g.1) →
      concatFields (pre ++ f :: post) / 2 ^ totalWidth post % 2 ^ f.1 = f.2) := by
  refine ⟨⟨fun _ => rfl, fun _ => rfl, fun _ => rfl, fun _ _ _ _ => rfl, fun _ _ => rfl⟩,
    ?_, ?_, ?_, ?_, ?_, concatFields_lt, concatFields_extract⟩
  · intro g h
    simp only [p25.IOSP_GRP_VCH.fields, List.mem_cons, List.mem_singleton, List.not_mem_nil,
      or_false, forall_eq_or_imp, forall_eq] at h
    exact p25.IOSP_GRP_VCH.grp_vch_value_concat g h.2.1 h.2.2.1 h.2.2.2.1 h.2.2.2.2
  · intro t h
    simp only [p25.OSP_DVM_LC_CALL_TERM.fields, List.mem_cons, List.mem_singleton,
      List.not_mem_nil, or_false, forall_eq_or_imp, forall_eq] at h
    exact p25.OSP_DVM_LC_CALL_TERM.call_term_value_concat t h.1 h.2.1 h.2.2.1 h.2.2.2
  · intro a h
    simp only [dmr.CSBK_CALL_ALRT.fields, List.mem_cons, List.mem_singleton,
      List.not_mem_nil, or_false, forall_eq_or_imp, forall_eq] at h
    exact dmr.CSBK_CALL_ALRT.call_alrt_value_concat a h.2.1 h.2.2
  · intro F bw125K bw625K e h
    simp only [p25.OSP_IDEN_UP_VU.fields, List.mem_cons, List.mem_singleton,
      List.not_mem_nil, or_false, forall_eq_or_imp, forall_eq] at h
    exact p25.OSP_IDEN_UP_VU.iden_up_vu_value_concat F bw125K bw625K e h.1 h.2.1 h.2.2.1
      h.2.2.2.1 h.2.2.2.2
  · intro F s h
    simp only [p25.OSP_SNDCP_CH_GNT.fields, List.mem_cons, List.mem_singleton,
      List.not_mem_nil, or_false, forall_eq_or_imp, forall_eq] at h
    exact p25.OSP_SNDCP_CH_GNT.sndcp_ch_gnt_value_concat F s h.1 h.2.1 h.2.2.1 h.2.2.2.2.2

namespace edac

namespace BPTC19696

/-! ## Bits of the neighbouring field, reserved bits -/

theorem testBit_and_0xC0 (a : Nat) :
    (a &&& 0xC0).testBit 7 = a.testBit 7 ∧ (a &&& 0xC0).testBit 6 = a.testBit 6 := by
  rw [Nat.testBit_and, Nat.testBit_and, testBit_0xC0, testBit_0xC0]
  simp

theorem testBit_and_0x03 (a : Nat) :
    (a &&& 0x03).testBit 1 = a.testBit 1 ∧ (a &&& 0x03).testBit 0 = a.testBit 0 := by
  rw [Nat.testBit_and, Nat.testBit_and, testBit_0x03, testBit_0x03]
  simp

/-- The raw plane depends on the input only through bytes 0..11, the top two
bits of byte 12, the low two bits of byte 20 and bytes 21..32. -/
theorem decodeExtractBinary_neighbour (s : BPTC19696) (in_ in2 : Nat → Nat)
    (h0 : ∀ i, i < 12 → in2 i = in_ i) (h12 : in2 12 &&& 0xC0 = in_ 12 &&& 0xC0)
    (h20 : in2 20 &&& 0x03 = in_ 20 &&& 0x03) (h21 : ∀ i, 21 ≤ i → i ≤ 32 → in2 i = in_ i) :
    s.decodeExtractBinary in2 = s.decodeExtractBinary in_ := by
  have a7 : (in2 12).testBit 7 = (in_ 12).testBit 7 := by
    rw [← (testBit_and_0xC0 (in2 12)).1, h12, (testBit_and_0xC0 (in_ 12)).1]
  have a6 : (in2 12).testBit 6 = (in_ 12).testBit 6 := by
    rw [← (testBit_and_0xC0 (in2 12)).2, h12, (testBit_and_0xC0 (in_ 12)).2]
  have b1 : (in2 20).testBit 1 = (in_ 20).testBit 1 := by
    rw [← (testBit_and_0x03 (in2 20)).1, h20, (testBit_and_0x03 (in_ 20)).1]
  have b0 : (in2 20).testBit 0 = (in_ 20).testBit 0 := by
    rw [← (testBit_and_0x03 (in2 20)).2, h20, (testBit_and_0x03 (in_ 20)).2]
  apply state_ext
  · funext j
    rw [decodeExtractBinary_raw, decodeExtractBinary_raw]
    by_cases h1 : j < 96
    · rw [if_pos h1, if_pos h1, h0 _ (by omega)]
    · rw [if_neg h1, if_neg h1]
      by_cases h2 : j < 98
      · rw [if_pos h2, if_pos h2]
        have hj : j = 96 ∨ j = 97 := by omega
        rcases hj with hj | hj <;> subst hj
        · exact a7
        · exact a6
      · rw [if_neg h2, if_neg h2]
        by_cases h3 : j < 100
        · rw [if_pos h3, if_pos h3]
          have hj : j = 98 ∨ j = 99 := by omega
          rcases hj with hj | hj <;> subst hj
          · exact b1
          · exact b0
        · rw [if_neg h3, if_neg h3]
          by_cases h4 : j < 196
          · rw [if_pos h4, if_pos h4, h21 _ (by omega) (by omega)]
          · rw [if_neg h4, if_neg h4]
  · rfl

/-- C31 (BPTC decode ignores the neighbouring field).  For any Hamming
routines, any scratch state and any two inputs that agree on bytes 0..11, on
the top 2 bits of byte 12, on the low 2 bits of byte 20 and on bytes 21..32,
`decode` returns the same output buffer and leaves the same planes: the
result does not depend on bytes 13..19, on the low 6 bits of byte 12 or on
the high 6 bits of byte 20 (nor on any byte from 33 on). -/
theorem decode_ignores_neighbour (H : HammingOps) (s : BPTC19696) (in_ in2 out : Nat → Nat)
    (h0 : ∀ i, i < 12 → in2 i = in_ i) (h12 : in2 12 &&& 0xC0 = in_ 12 &&& 0xC0)
    (h20 : in2 20 &&& 0x03 = in_ 20 &&& 0x03) (h21 : ∀ i, 21 ≤ i → i ≤ 32 → in2 i = in_ i) :
    (decode H s in2 out).2 = (decode H s in_ out).2 ∧
    decode H s in2 out = decode H s in_ out := by
  have e : ∀ x : Nat → Nat, decode H s x out =
      (fun t : BPTC19696 => ((t.decodeDeInterleave).decodeErrorCheck H,
        ((t.decodeDeInterleave).decodeErrorCheck H).decodeExtractData out))
        (s.decodeExtractBinary x) := fun _ => rfl
  have h : decode H s in2 out = decode H s in_ out := by
    rw [e in2, e in_, decodeExtractBinary_neighbour s in_ in2 h0 h12 h20 h21]
  exact ⟨by rw [h], h⟩

theorem decode_ignores_neighbour_witness :
    (∀ i, i < 12 → exampleNeighbourInput i = exampleSplitInput i) ∧
    exampleNeighbourInput 12 &&& 0xC0 = exampleSplitInput 12 &&& 0xC0 ∧
    exampleNeighbourInput 20 &&& 0x03 = exampleSplitInput 20 &&& 0x03 ∧
    (∀ i, 21 ≤ i → i ≤ 32 → exampleNeighbourInput i = exampleSplitInput i) ∧
    exampleNeighbourInput 15 ≠ exampleSplitInput 15 ∧
    (decode Hamming.ops exampleState exampleNeighbourInput exampleBuffer).2 =
      (decode Hamming.ops exampleState exampleSplitInput exampleBuffer).2 :=
  have h0 : ∀ i, i < 12 → exampleNeighbourInput i = exampleSplitInput i := by
    intro i hi
    unfold exampleNeighbourInput exampleSplitInput
    rw [if_neg (by omega), if_neg (by omega), if_neg (by omega), if_neg (by omega)]
  have h21 : ∀ i, 21 ≤ i → i ≤ 32 → exampleNeighbourInput i = exampleSplitInput i := by
    intro i h1 h2
    unfold exampleNeighbourInput exampleSplitInput
    rw [if_neg (by omega), if_neg (by omega), if_neg (by omega), if_neg (by omega)]
  ⟨h0, by decide, by decide, h21, by decide,
    (decode_ignores_neighbour Hamming.ops exampleState exampleSplitInput exampleNeighbourInput
      exampleBuffer h0 (by decide) (by decide) h21).1⟩

/-- C32 (reserved bits are zero on encode).  For Hamming encoders that write
parity positions only, every payload and every scratch state: the
deinterleaved plane after `encodeErrorCheck` has positions 0, 1, 2 and 3
false, the raw plane after `encodeInterleave` has positions 0, 181, 166 and
151 false (the interleave images of 0, 1, 2, 3), and the most significant bit
of output byte 0 of `encode` is 0. -/
theorem encode_reserved_bits_zero (H : HammingOps) (hW : H.WritesParityOnly) (s : BPTC19696)
    (p buf : Nat → Nat) :
    (∀ j, j < 4 → ((s.encodeExtractData p).encodeErrorCheck H).m_deInterData j = false) ∧
    (interleaveSequence 0 = 0 ∧ interleaveSequence 1 = 181 ∧ interleaveSequence 2 = 166 ∧
      interleaveSequence 3 = 151) ∧
    ((encode H s p buf).1.m_rawData 0 = false ∧ (encode H s p buf).1.m_rawData 181 = false ∧
      (encode H s p buf).1.m_rawData 166 = false ∧ (encode H s p buf).1.m_rawData 151 = false) ∧
    ((encode H s p buf).2 0).testBit 7 = false ∧
    (encode H s p buf).2 0 < 128 := by
  have hde : ∀ j, j < 4 → ((s.encodeExtractData p).encodeErrorCheck H).m_deInterData j = false := by
    intro j hj
    by_cases h0 : j = 0
    · subst h0
      rw [encodeErrorCheck_deInter, if_neg (by omega), encodeRows_apply, if_neg (by omega),
        encodeExtractData_deInter, if_neg (by omega), if_pos (by omega)]
    · rw [encodeErrorCheck_of_data H hW _ j (by omega) (by omega) (by omega),
        encodeExtractData_deInter, if_neg (by omega), if_pos (by omega)]
  have hraw : ∀ a, a < 4 → (encode H s p buf).1.m_rawData (interleaveSequence a) = false := by
    intro a ha
    rw [encode_fst, encodeInterleave_raw, if_pos (interleaveSequence_lt a),
      interleaveSequence_left_inv a (by omega)]
    exact hde a ha
  have hbit : ((encode H s p buf).2 0).testBit 7 = false := by
    rw [encode_snd, encodeExtractBinary_apply, if_pos (by decide)]
    have h := Utils.testBit_bitsToByteBE
      (((s.encodeExtractData p).encodeErrorCheck H).encodeInterleave).m_rawData (8 * 0) 0
      (by decide)
    rw [show 7 - 0 = 7 from rfl] at h
    rw [h]
    exact hraw 0 (by decide)
  refine ⟨hde, ⟨rfl, rfl, rfl, rfl⟩, ⟨hraw 0 (by decide), hraw 1 (by decide), hraw 2 (by decide),
    hraw 3 (by decide)⟩, hbit, ?_⟩
  have hlt : (encode H s p buf).2 0 < 256 := by
    rw [encode_snd, encodeExtractBinary_apply, if_pos (by decide)]
    exact Utils.bitsToByteBE_lt _ _
  by_contra hc
  have h7 : ((encode H s p buf).2 0).testBit 7 = true := by
    rw [Nat.testBit_to_div_mod]
    have e : (encode H s p buf).2 0 / 2 ^ 7 % 2 = 1 := by
      simp only [Nat.reducePow]
      omega
    rw [e]
    rfl
  rw [hbit] at h7
  exact absurd h7 (by decide)

theorem encode_reserved_bits_zero_witness :
    Hamming.ops.WritesParityOnly ∧
    ((encode Hamming.ops exampleState examplePayload exampleBuffer).2 0).testBit 7 = false :=
  ⟨Hamming.ops_writesParityOnly,
    (encode_reserved_bits_zero Hamming.ops Hamming.ops_writesParityOnly exampleState
      examplePayload exampleBuffer).2.2.2.1⟩

end BPTC19696

end edac

namespace p25

namespace MBT_OSP_RFSS_STS_BCAST

/-! ## The network-active flag and the payload of MBT_OSP_RFSS_STS_BCAST -/

theorem or_one_of_odd (a : Nat) (h : a % 2 = 1) : a ||| 1 = a := by
  apply Nat.eq_of_testBit_eq
  intro i
  have h1 : (1 : Nat).testBit i = decide (0 = i) := @Nat.testBit_two_pow 0 i
  rw [Nat.testBit_or, h1]
  by_cases hi : i = 0
  · subst hi
    rw [Nat.testBit_zero]
    simp [h]
  · have h0 : ¬ (0 = i) := by omega
    simp [h0]

/-- Setting bit 12 of a packed address whose registration area is odd changes
nothing. -/
theorem or_0x1000_of_odd (a b : Nat) (ha : a % 2 = 1) (hb : b < 4096) :
    (a * 4096 + b) ||| 0x1000 = a * 4096 + b := by
  obtain ⟨h1, h2⟩ := or_0x1000 a b hb
  rw [or_one_of_odd a ha] at h2
  have h3 := Nat.div_add_mod ((a * 4096 + b) ||| 0x1000) 4096
  rw [h1, h2] at h3
  omega

/-- C33 (the network-active flag shares a bit with the registration area).
For every odd `lra` and every `siteId < 4096` the logical address packed by
`encodeMBT`, and written to the header it hands on, is the same whether
`netActive` is true or false; bit 12 of the address is set in both cases, and
in general bit 12 is set when `netActive` is set or `lra` is odd. -/
theorem rfss_sts_bcast_flag_shares_bit (self : TSBK) (dataHeader : DataHeader)
    (pduUserData : Nat → Nat) (hodd : self.m_siteData.lra % 2 = 1)
    (hsite : self.m_siteData.siteId < 4096) :
    packLLId { self.m_siteData with netActive := true } =
      packLLId { self.m_siteData with netActive := false } ∧
    (encodeMBT exampleAmbtEncode
        { self with m_siteData := { self.m_siteData with netActive := true } }
        dataHeader pduUserData).1.llId =
      (encodeMBT exampleAmbtEncode
        { self with m_siteData := { self.m_siteData with netActive := false } }
        dataHeader pduUserData).1.llId ∧
    (packLLId self.m_siteData).testBit 12 = true ∧
    (∀ site : SiteData, site.siteId < 4096 →
      (packLLId site).testBit 12 = (site.netActive || site.lra.testBit 0)) := by
  have hgen : ∀ site : SiteData, site.siteId < 4096 →
      (site.lra % 2 ^ 32 * 4096 + site.siteId) % 2 ^ 32 =
        (site.lra % 2 ^ 20) * 4096 + site.siteId := by
    intro site hs
    simp only [Nat.reducePow]
    omega
  have hbit : ∀ site : SiteData, site.siteId < 4096 →
      ((site.lra % 2 ^ 20) * 4096 + site.siteId).testBit 12 = site.lra.testBit 0 := by
    intro site hs
    rw [Nat.testBit_to_div_mod, Nat.testBit_to_div_mod]
    simp only [Nat.reducePow, Nat.pow_zero, Nat.div_one]
    have e : (site.lra % 1048576 * 4096 + site.siteId) / 4096 % 2 = site.lra % 2 := by omega
    simp only [e]
  have hall : ∀ site : SiteData, site.siteId < 4096 →
      (packLLId site).testBit 12 = (site.netActive || site.lra.testBit 0) := by
    intro site hs
    rw [packLLId_eq, hgen site hs]
    cases hn : site.netActive
    · simp only [Bool.false_eq_true, if_false, Bool.false_or]
      exact hbit site hs
    · simp only [if_true, Bool.true_or]
      rw [Nat.testBit_or]
      have : (0x1000 : Nat).testBit 12 = true := by decide
      rw [this, Bool.or_true]
  have hsame : packLLId { self.m_siteData with netActive := true } =
      packLLId { self.m_siteData with netActive := false } := by
    rw [packLLId_eq, packLLId_eq]
    simp only [if_true, Bool.false_eq_true, if_false]
    rw [hgen self.m_siteData hsite]
    exact or_0x1000_of_odd _ _ (by simp only [Nat.reducePow]; omega) hsite
  refine ⟨hsame, hsame, ?_, hall⟩
  rw [hall self.m_siteData hsite, Nat.testBit_zero]
  simp [hodd]

theorem rfss_sts_bcast_flag_shares_bit_witness :
    exampleOddSite.lra % 2 = 1 ∧ exampleOddSite.siteId < 4096 ∧
    packLLId { exampleOddSite with netActive := true } =
      packLLId { exampleOddSite with netActive := false } :=
  ⟨by decide, by decide,
    (rfss_sts_bcast_flag_shares_bit
      { OSP_DVM_LC_CALL_TERM.exampleTerm with m_siteData := exampleOddSite }
      exampleHeader (fun _ => 0) (by decide) (by decide)).1⟩

/-- C34 (payload layout of MBT_OSP_RFSS_STS_BCAST::encodeMBT).  The buffer that
`encodeMBT` hands on holds: byte 0 = `rfssId` (as a byte), byte 1 = `siteId`
mod 256, byte 2 = (`channelId` mod 16) * 16 + (`channelNo` >> 8) for
`channelNo < 4096`, byte 3 = `channelNo` mod 256, bytes 4 and 5 equal to
bytes 2 and 3, byte 6 = `serviceClass` (as a byte); the bytes from index 7 on
are as they were before the call. -/
theorem rfss_sts_bcast_payload
    (ambtEncode : DataHeader → (Nat → Nat) → DataHeader × (Nat → Nat))
    (self : TSBK) (dataHeader : DataHeader) (pduUserData : Nat → Nat)
    (hno : self.m_siteData.channelNo < 4096) :
    encodeMBT ambtEncode self dataHeader pduUserData =
      ambtEncode (encodeMBT exampleAmbtEncode self dataHeader pduUserData).1
        (encodeMBT exampleAmbtEncode self dataHeader pduUserData).2 ∧
    (encodeMBT exampleAmbtEncode self dataHeader pduUserData).2 0 =
      self.m_siteData.rfssId % 256 ∧
    (self.m_siteData.rfssId < 256 →
      (encodeMBT exampleAmbtEncode self dataHeader pduUserData).2 0 = self.m_siteData.rfssId) ∧
    (encodeMBT exampleAmbtEncode self dataHeader pduUserData).2 1 =
      self.m_siteData.siteId % 256 ∧
    (encodeMBT exampleAmbtEncode self dataHeader pduUserData).2 2 =
      (self.m_siteData.channelId % 16) * 16 + (self.m_siteData.channelNo >>> 8) ∧
    (encodeMBT exampleAmbtEncode self dataHeader pduUserData).2 3 =
      self.m_siteData.channelNo % 256 ∧
    (encodeMBT exampleAmbtEncode self dataHeader pduUserData).2 4 =
      (encodeMBT exampleAmbtEncode self dataHeader pduUserData).2 2 ∧
    (encodeMBT exampleAmbtEncode self dataHeader pduUserData).2 5 =
      (encodeMBT exampleAmbtEncode self dataHeader pduUserData).2 3 ∧
    (encodeMBT exampleAmbtEncode self dataHeader pduUserData).2 6 =
      self.m_siteData.serviceClass % 256 ∧
    (self.m_siteData.serviceClass < 256 →
      (encodeMBT exampleAmbtEncode self dataHeader pduUserData).2 6 =
        self.m_siteData.serviceClass) ∧
    (∀ i, 7 ≤ i → (encodeMBT exampleAmbtEncode self dataHeader pduUserData).2 i =
      pduUserData i) := by
  have h2 : (((self.m_siteData.channelId &&& 0x0F) <<< 4) +
      ((self.m_siteData.channelNo >>> 8) &&& 0xFF)) % 256 =
      (self.m_siteData.channelId % 16) * 16 + (self.m_siteData.channelNo >>> 8) := by
    rw [and_0x0F, and_0xFF, Nat.shiftLeft_eq, Nat.shiftRight_eq_div_pow]
    simp only [Nat.reducePow]
    omega
  have h3 : (self.m_siteData.channelNo >>> 0) &&& 0xFF = self.m_siteData.channelNo % 256 := by
    rw [Nat.shiftRight_zero, and_0xFF]
  refine ⟨rfl, ?_, ?_, ?_, ?_, ?_, ?_, ?_, ?_, ?_, ?_⟩
  · show self.m_siteData.rfssId &&& 0xFF = _
    rw [and_0xFF]
  · intro h
    show self.m_siteData.rfssId &&& 0xFF = _
    rw [and_0xFF, Nat.mod_eq_of_lt h]
  · show self.m_siteData.siteId &&& 0xFF = _
    rw [and_0xFF]
  · exact h2
  · exact h3
  · rfl
  · rfl
  · rfl
  · intro h
    show self.m_siteData.serviceClass % 256 = _
    rw [Nat.mod_eq_of_lt h]
  · intro i hi
    unfold encodeMBT exampleAmbtEncode
    simp only [Function.update_apply]
    rw [if_neg (by omega), if_neg (by omega), if_neg (by omega), if_neg (by omega),
      if_neg (by omega), if_neg (by omega), if_neg (by omega)]

theorem rfss_sts_bcast_payload_witness :
    exampleActiveSite.channelNo < 4096 ∧
    (encodeMBT exampleAmbtEncode
      { OSP_DVM_LC_CALL_TERM.exampleTerm with m_siteData := exampleActiveSite } exampleHeader
      (fun _ => 0)).2 1 = 0x23 :=
  ⟨by decide,
    (rfss_sts_bcast_payload exampleAmbtEncode
      { OSP_DVM_LC_CALL_TERM.exampleTerm with m_siteData := exampleActiveSite } exampleHeader
      (fun _ => 0) (by decide)).2.2.2.1⟩

end MBT_OSP_RFSS_STS_BCAST

namespace OSP_SNDCP_CH_GNT

/-! ## Layout of OSP_SNDCP_CH_GNT -/

/-- C35 (layout of OSP_SNDCP_CH_GNT::encode).  For in-range fields (service
options below 2^8, the channel ID written below 2^4, data channel number
below 2^12, dstId below 2^24) and whatever values the float expressions
yield, the 64-bit value has the data service options in bits 63..56, the data
channel number in bits 51..40 and dstId in bits 23..0; the transmit channel ID
field (bits 55..52) and the receive channel ID field (bits 39..36) hold the
same value, the block's channel ID when it is non-zero and the site context's
channel ID when it is zero; bits 35..24 hold the low 12 bits of the local
`rxChNo`, and none of the other fields depends on the float expressions. -/
theorem sndcp_ch_gnt_layout (F : FloatOps) (self : OSP_SNDCP_CH_GNT)
    (h0 : self.m_dataServiceOptions < 256)
    (h1 : self.channelIdField < 16) (h2 : self.m_dataChannelNo < 4096)
    (h3 : self.m_dstId < 2 ^ 24) :
    encodeValue F self / 2 ^ 56 % 2 ^ 8 = self.m_dataServiceOptions ∧
    encodeValue F self / 2 ^ 40 % 2 ^ 12 = self.m_dataChannelNo ∧
    encodeValue F self % 2 ^ 24 = self.m_dstId ∧
    encodeValue F self / 2 ^ 52 % 2 ^ 4 = encodeValue F self / 2 ^ 36 % 2 ^ 4 ∧
    encodeValue F self / 2 ^ 52 % 2 ^ 4 =
      (if self.m_grpVchId ≠ 0 then self.m_grpVchId else self.m_siteData.channelId) ∧
    encodeValue F self / 2 ^ 36 % 2 ^ 4 =
      (if self.m_grpVchId ≠ 0 then self.m_grpVchId else self.m_siteData.channelId) ∧
    encodeValue F self / 2 ^ 24 % 2 ^ 12 = rxChNo F self % 2 ^ 12 ∧
    encodeValue F self < 2 ^ 64 := by
  have hv := sndcp_ch_gnt_value_concat F self h0 h1 h2 h3
  have hc : self.channelIdField =
      (if self.m_grpVchId ≠ 0 then self.m_grpVchId else self.m_siteData.channelId) := by
    unfold channelIdField
    by_cases h : self.m_grpVchId = 0
    · simp [h]
    · simp [h]
  have hrx : rxChNo F self &&& 0xFFF < 2 ^ 12 := by
    rw [and_0xFFF]
    exact Nat.mod_lt _ (by decide)
  have hall : ∀ g ∈ fields F self, g.2 < 2 ^ g.1 := by
    intro g hg
    simp only [fields, List.mem_cons, List.mem_singleton, List.not_mem_nil, or_false] at hg
    rcases hg with rfl | rfl | rfl | rfl | rfl | rfl
    · exact h0
    · exact h1
    · exact h2
    · exact h1
    · exact hrx
    · exact h3
  have e0 := concatFields_extract []
    [(4, self.channelIdField), (12, self.m_dataChannelNo), (4, self.channelIdField),
      (12, rxChNo F self &&& 0xFFF), (24, self.m_dstId)] (8, self.m_dataServiceOptions) hall
  have e1 := concatFields_extract [(8, self.m_dataServiceOptions)]
    [(12, self.m_dataChannelNo), (4, self.channelIdField),
      (12, rxChNo F self &&& 0xFFF), (24, self.m_dstId)] (4, self.channelIdField) hall
  have e2 := concatFields_extract [(8, self.m_dataServiceOptions), (4, self.channelIdField)]
    [(4, self.channelIdField), (12, rxChNo F self &&& 0xFFF), (24, self.m_dstId)]
    (12, self.m_dataChannelNo) hall
  have e3 := concatFields_extract
    [(8, self.m_dataServiceOptions), (4, self.channelIdField), (12, self.m_dataChannelNo)]
    [(12, rxChNo F self &&& 0xFFF), (24, self.m_dstId)] (4, self.channelIdField) hall
  have e4 := concatFields_extract
    [(8, self.m_dataServiceOptions), (4, self.channelIdField), (12, self.m_dataChannelNo),
      (4, self.channelIdField)]
    [(24, self.m_dstId)] (12, rxChNo F self &&& 0xFFF) hall
  have e5 := concatFields_extract
    [(8, self.m_dataServiceOptions), (4, self.channelIdField), (12, self.m_dataChannelNo),
      (4, self.channelIdField), (12, rxChNo F self &&& 0xFFF)]
    [] (24, self.m_dstId) hall
  have e6 := concatFields_lt (fields F self) hall
  rw [hv, ← hc]
  refine ⟨e0, e2, ?_, e1.trans e3.symm, e1, e3, ?_, e6⟩
  · have e5b : concatFields (fields F self) / 2 ^ 0 % 2 ^ 24 = self.m_dstId := e5
    rw [Nat.pow_zero, Nat.div_one] at e5b
    exact e5b
  · have e4b : concatFields (fields F self) / 2 ^ 24 % 2 ^ 12 = rxChNo F self &&& 0xFFF := e4
    rw [and_0xFFF] at e4b
    exact e4b

/-- Witness for C35: `exampleDataGrant` has in-range fields and an unset channel
ID; both channel ID fields of its value hold 2, the channel ID of its site. -/
theorem sndcp_ch_gnt_layout_witness :
    exampleDataGrant.m_dataServiceOptions < 256 ∧ exampleDataGrant.channelIdField < 16 ∧
    exampleDataGrant.m_dataChannelNo < 4096 ∧ exampleDataGrant.m_dstId < 2 ^ 24 ∧
    encodeValue exampleFloatOps exampleDataGrant / 2 ^ 52 % 2 ^ 4 = 2 ∧
    encodeValue exampleFloatOps exampleDataGrant / 2 ^ 36 % 2 ^ 4 = 2 :=
  ⟨by decide, by decide, by decide, by decide,
    (sndcp_ch_gnt_layout exampleFloatOps exampleDataGrant (by decide) (by decide) (by decide)
      (by decide)).2.2.2.2.1,
    (sndcp_ch_gnt_layout exampleFloatOps exampleDataGrant (by decide) (by decide) (by decide)
      (by decide)).2.2.2.2.2.1⟩

end OSP_SNDCP_CH_GNT

end p25

/-! ## The bit macros -/

theorem bitMask_eq (i : Nat) : bitMask i = 2 ^ (7 - i % 8) := by
  unfold bitMask
  have h : i &&& 7 = i % 8 := Nat.and_pow_two_sub_one_eq_mod i 3
  rw [h]
  have hk : i % 8 < 8 := Nat.mod_lt _ (by decide)
  generalize i % 8 = k at hk
  interval_cases k <;> decide

theorem and_two_pow_ne_zero (x j : Nat) : ((x &&& 2 ^ j) != 0) = x.testBit j := by
  rw [Nat.and_two_pow]
  cases h : x.testBit j
  · simp
  · have hp : 0 < 2 ^ j := Nat.two_pow_pos j
    simp only [Bool.toNat_true, Nat.one_mul, bne_iff_ne, ne_eq]
    omega

/-- The macro `READ_BIT` reads bit `7 - i % 8` of byte `i / 8`. -/
theorem readBit_eq (p : Nat → Nat) (i : Nat) :
    readBit p i = (p (i / 8)).testBit (7 - i % 8) := by
  unfold readBit
  rw [bitMask_eq, and_two_pow_ne_zero, Nat.shiftRight_eq_div_pow]

theorem writeBit_of_ne (p : Nat → Nat) (i : Nat) (b : Bool) (k : Nat) (hk : k ≠ i / 8) :
    writeBit p i b k = p k := by
  unfold writeBit
  rw [Nat.shiftRight_eq_div_pow]
  exact Function.update_noteq hk _ _

theorem writeBit_same (p : Nat → Nat) (i : Nat) (b : Bool) :
    writeBit p i b (i / 8) =
      if b then (p (i / 8) ||| 2 ^ (7 - i % 8)) % 256
      else p (i / 8) &&& (0xFF ^^^ 2 ^ (7 - i % 8)) := by
  unfold writeBit
  rw [Nat.shiftRight_eq_div_pow, bitMask_eq]
  exact Function.update_same _ _ _

/-- Bit `j < 8` of the byte that `WRITE_BIT` stored. -/
theorem writeBit_testBit (p : Nat → Nat) (i : Nat) (b : Bool) (j : Nat) (hj : j < 8) :
    (writeBit p i b (i / 8)).testBit j =
      if j = 7 - i % 8 then b else (p (i / 8)).testBit j := by
  rw [writeBit_same]
  have e256 : (256 : Nat) = 2 ^ 8 := by decide
  have eFF : (0xFF : Nat) = 2 ^ 8 - 1 := by decide
  cases b
  · simp only [Bool.false_eq_true, if_false]
    rw [Nat.testBit_and, Nat.testBit_xor, eFF, Nat.testBit_two_pow_sub_one, Nat.testBit_two_pow]
    by_cases h : j = 7 - i % 8
    · rw [if_pos h]
      have h8 : 7 - i % 8 < 8 := by omega
      simp [h, h8]
    · rw [if_neg h]
      have h2 : ¬ (7 - i % 8 = j) := fun e => h e.symm
      simp [hj, h2]
  · simp only [if_true]
    rw [e256, Nat.testBit_mod_two_pow, Nat.testBit_or, Nat.testBit_two_pow]
    by_cases h : j = 7 - i % 8
    · rw [if_pos h]
      have h8 : 7 - i % 8 < 8 := by omega
      simp [h, h8]
    · rw [if_neg h]
      have h2 : ¬ (7 - i % 8 = j) := fun e => h e.symm
      simp [hj, h2]

/-- The byte that `WRITE_BIT` stored is a byte. -/
theorem writeBit_lt (p : Nat → Nat) (i : Nat) (b : Bool) (h : p (i / 8) < 256) :
    writeBit p i b (i / 8) < 256 := by
  rw [writeBit_same]
  cases b
  · simp only [Bool.false_eq_true, if_false]
    exact Nat.lt_of_le_of_lt Nat.and_le_left h
  · simp only [if_true]
    exact Nat.mod_lt _ (by decide)

/-- Reading after writing: the written bit is read back, every other bit is as
before. -/
theorem readBit_writeBit (p : Nat → Nat) (i : Nat) (b : Bool) (n : Nat) :
    readBit (writeBit p i b) n = if n = i then b else readBit p n := by
  rw [readBit_eq, readBit_eq]
  by_cases hk : n / 8 = i / 8
  · rw [hk, writeBit_testBit p i b _ (by omega)]
    by_cases hn : n = i
    · subst hn
      rw [if_pos rfl, if_pos rfl]
    · rw [if_neg (by omega), if_neg hn]
  · rw [writeBit_of_ne p i b _ hk, if_neg (fun e => hk (by rw [e]))]

namespace nxdn

namespace channel

namespace LICH

/-! ## The LICH byte -/

theorem and_0x03 (x : Nat) : x &&& 0x03 = x % 4 := Nat.and_pow_two_sub_one_eq_mod x 2

theorem and_0x01 (x : Nat) : x &&& 0x01 = x % 2 := Nat.and_pow_two_sub_one_eq_mod x 1

/-- The LICH byte that `encode` leaves in the object. -/
theorem encode_lich (fswLengthBits lichLengthBits : Nat) (self : LICH) (data : Nat → Nat) :
    (encode fswLengthBits lichLengthBits self data).1.m_lich =
      lichWord (self.m_rfct % 4) (self.m_fct % 4) (self.m_option % 4) self.m_outbound := by
  show (encodeParity (encodeFields self)).m_lich = _
  unfold encodeParity getParity encodeFields
  simp only [and_0x03]
  have hr : self.m_rfct % 4 < 4 := Nat.mod_lt _ (by decide)
  have hf : self.m_fct % 4 < 4 := Nat.mod_lt _ (by decide)
  have ho : self.m_option % 4 < 4 := Nat.mod_lt _ (by decide)
  generalize self.m_rfct % 4 = r at hr ⊢
  generalize self.m_fct % 4 = f at hf ⊢
  generalize self.m_option % 4 = o at ho ⊢
  generalize self.m_outbound = ob
  interval_cases r <;> interval_cases f <;> interval_cases o <;> cases ob <;> rfl

theorem lichWord_lt (r f o : Nat) (ob : Bool) (hr : r < 4) (hf : f < 4) (ho : o < 4) :
    lichWord r f o ob < 256 := by
  unfold lichWord
  cases ob <;> split_ifs <;> omega

/-- The fields and the parity bit read back from a LICH byte. -/
theorem lichWord_fields (r f o : Nat) (ob : Bool) (hr : r < 4) (hf : f < 4) (ho : o < 4) :
    lichWord r f o ob / 64 % 4 = r ∧ lichWord r f o ob / 16 % 4 = f ∧
    lichWord r f o ob / 4 % 4 = o ∧ (lichWord r f o ob / 2 % 2 = 1 ↔ ob = true) ∧
    (lichWord r f o ob % 2 = 1 ↔ (r = 2 ∧ (f = 0 ∨ f = 3))) ∧
    (lichWord r f o ob / 16 = 8 ∨ lichWord r f o ob / 16 = 11 ↔ (r = 2 ∧ (f = 0 ∨ f = 3))) := by
  interval_cases r <;> interval_cases f <;> interval_cases o <;> cases ob <;> decide

/-! ## The two bit loops -/

/-- The buffer after `n` iterations of the loop of `encode`. -/
theorem lich_encodeLoop_spec (lich data : Nat → Nat) (fsw n : Nat) :
    ((List.range n).foldl
      (fun (st : (Nat → Nat) × Nat) i =>
        let b := readBit lich i
        let data := writeBit st.1 st.2 b
        let offset := st.2 + 1
        let data := writeBit data offset true
        let offset := offset + 1
        (data, offset)) (data, fsw)).2 = fsw + 2 * n ∧
    (∀ m, readBit ((List.range n).foldl
      (fun (st : (Nat → Nat) × Nat) i =>
        let b := readBit lich i
        let data := writeBit st.1 st.2 b
        let offset := st.2 + 1
        let data := writeBit data offset true
        let offset := offset + 1
        (data, offset)) (data, fsw)).1 m =
      if fsw ≤ m ∧ m < fsw + 2 * n then
        (if (m - fsw) % 2 = 0 then readBit lich ((m - fsw) / 2) else true)
      else readBit data m) ∧
    (∀ k, (∀ m, fsw ≤ m → m < fsw + 2 * n → m / 8 ≠ k) →
      ((List.range n).foldl
      (fun (st : (Nat → Nat) × Nat) i =>
        let b := readBit lich i
        let data := writeBit st.1 st.2 b
        let offset := st.2 + 1
        let data := writeBit data offset true
        let offset := offset + 1
        (data, offset)) (data, fsw)).1 k = data k) := by
  induction n with
  | zero =>
    refine ⟨rfl, ?_, ?_⟩
    · intro m
      rw [if_neg (by omega)]
      rfl
    · intro k _
      rfl
  | succ n ih =>
    rw [edac.foldl_range_succ]
    obtain ⟨h1, h2, h3⟩ := ih
    generalize (List.range n).foldl
      (fun (st : (Nat → Nat) × Nat) i =>
        let b := readBit lich i
        let data := writeBit st.1 st.2 b
        let offset := st.2 + 1
        let data := writeBit data offset true
        let offset := offset + 1
        (data, offset)) (data, fsw) = st at h1 h2 h3
    refine ⟨?_, ?_, ?_⟩
    · show st.2 + 1 + 1 = _
      omega
    · intro m
      show readBit (writeBit (writeBit st.1 st.2 (readBit lich n)) (st.2 + 1) true) m = _
      rw [readBit_writeBit, readBit_writeBit, h2, h1]
      by_cases ha : m = fsw + 2 * n + 1
      · rw [if_pos ha, if_pos (by omega), if_neg (by omega)]
      · rw [if_neg ha]
        by_cases hb : m = fsw + 2 * n
        · rw [if_pos hb, if_pos (by omega), if_pos (by omega)]
          exact congrArg (readBit lich) (by omega)
        · rw [if_neg hb]
          by_cases hc : fsw ≤ m ∧ m < fsw + 2 * n
          · rw [if_pos hc, if_pos (show fsw ≤ m ∧ m < fsw + 2 * (n + 1) from ⟨hc.1, by omega⟩)]
          · rw [if_neg hc, if_neg (show ¬ (fsw ≤ m ∧ m < fsw + 2 * (n + 1)) by omega)]
    · intro k hk
      show writeBit (writeBit st.1 st.2 (readBit lich n)) (st.2 + 1) true k = _
      rw [writeBit_of_ne _ _ _ _ (fun e => hk (st.2 + 1) (by omega) (by omega) e.symm),
        writeBit_of_ne _ _ _ _ (fun e => hk st.2 (by omega) (by omega) e.symm)]
      exact h3 k (fun m hm1 hm2 => hk m hm1 (by omega))

/-- The local array `lich` after `n ≤ 8` iterations of the loop of `decode`. -/
theorem lich_decodeLoop_spec (data : Nat → Nat) (fsw n : Nat) (hn : n ≤ 8) :
    ((List.range n).foldl
      (fun (st : (Nat → Nat) × Nat) i =>
        let b := readBit data st.2
        (writeBit st.1 i b, st.2 + 2)) (fun _ => 0x00, fsw)).2 = fsw + 2 * n ∧
    ((List.range n).foldl
      (fun (st : (Nat → Nat) × Nat) i =>
        let b := readBit data st.2
        (writeBit st.1 i b, st.2 + 2)) (fun _ => 0x00, fsw)).1 0 < 256 ∧
    (∀ j, j < 8 → readBit ((List.range n).foldl
      (fun (st : (Nat → Nat) × Nat) i =>
        let b := readBit data st.2
        (writeBit st.1 i b, st.2 + 2)) (fun _ => 0x00, fsw)).1 j =
      if j < n then readBit data (fsw + 2 * j) else false) := by
  induction n with
  | zero =>
    refine ⟨rfl, (show (0 : Nat) < 256 by decide), ?_⟩
    intro j _
    rw [if_neg (by omega), readBit_eq]
    exact Nat.zero_testBit _
  | succ n ih =>
    rw [edac.foldl_range_succ]
    obtain ⟨h1, h2, h3⟩ := ih (by omega)
    generalize (List.range n).foldl
      (fun (st : (Nat → Nat) × Nat) i =>
        let b := readBit data st.2
        (writeBit st.1 i b, st.2 + 2)) (fun _ => 0x00, fsw) = st at h1 h2 h3
    have hn8 : n / 8 = 0 := by omega
    refine ⟨?_, ?_, ?_⟩
    · show st.2 + 2 = _
      omega
    · show writeBit st.1 n (readBit data st.2) 0 < 256
      have h := writeBit_lt st.1 n (readBit data st.2) (by rw [hn8]; exact h2)
      rw [hn8] at h
      exact h
    · intro j hj
      show readBit (writeBit st.1 n (readBit data st.2)) j = _
      rw [readBit_writeBit, h1, h3 j hj]
      by_cases hjn : j = n
      · subst hjn
        rw [if_pos rfl, if_pos (by omega)]
      · rw [if_neg hjn]
        by_cases hlt : j < n
        · rw [if_pos hlt, if_pos (by omega)]
        · rw [if_neg hlt, if_neg (by omega)]

/-- The LICH byte that `decode` assembles is the byte read at the even offsets. -/
theorem decode_lich (fsw : Nat) (self : LICH) (data : Nat → Nat) :
    (decode fsw 16 self data).2.m_lich = lichBits fsw data ∧ lichBits fsw data < 256 := by
  obtain ⟨_, h2, h3⟩ := lich_decodeLoop_spec data fsw 8 (Nat.le_refl 8)
  have hb : lichBits fsw data = ((List.range 8).foldl
      (fun (st : (Nat → Nat) × Nat) i =>
        let b := readBit data st.2
        (writeBit st.1 i b, st.2 + 2)) (fun _ => 0x00, fsw)).1 0 := by
    unfold lichBits
    apply Utils.bitsToByteBE_of_testBit _ _ _ h2
    intro i hi
    have h := h3 i hi
    rw [if_pos hi, readBit_eq] at h
    have e1 : i / 8 = 0 := by omega
    have e2 : i % 8 = i := by omega
    rw [e1, e2] at h
    rw [h, Nat.zero_add]
  constructor
  · rw [hb]
    rfl
  · rw [hb]
    exact h2

/-- What `decode` returns, in terms of the LICH byte it assembled. -/
theorem decode_eq (fsw : Nat) (self : LICH) (data : Nat → Nat) :
    decode fsw 16 self data =
      (((lichBits fsw data &&& 0x01) == 0x01) ==
          getParity { self with m_lich := lichBits fsw data },
        { self with
          m_lich := lichBits fsw data
          m_rfct := (lichBits fsw data >>> 6) &&& 0x03
          m_fct := (lichBits fsw data >>> 4) &&& 0x03
          m_option := (lichBits fsw data >>> 2) &&& 0x03
          m_outbound := ((lichBits fsw data >>> 1) &&& 0x01) == 0x01 }) := by
  rw [← (decode_lich fsw self data).1]
  rfl

/-- The parity check on a byte. -/
theorem parity_check_iff (b : Nat) (hb : b < 256) (self : LICH) :
    ((((b &&& 0x01) == 0x01) == getParity { self with m_lich := b }) = true ↔
      (b % 2 = 1 ↔ (b / 16 = 0x8 ∨ b / 16 = 0xB))) := by
  have hn : b &&& 0xF0 = b / 16 * 16 := by
    apply Nat.eq_of_testBit_eq
    intro i
    have eF0 : (0xF0 : Nat) = 0xFF - 0x0F := by decide
    rw [Nat.testBit_and]
    have hF0 : (0xF0 : Nat).testBit i = (decide (4 ≤ i) && decide (i < 8)) := by
      by_cases h8 : i < 8
      · interval_cases i <;> rfl
      · rw [Nat.testBit_lt_two_pow (show 0xF0 < 2 ^ i from
          Nat.lt_of_lt_of_le (by decide) (Nat.pow_le_pow_right (by decide) (show 8 ≤ i by omega)))]
        simp; omega
    rw [hF0]
    have e16 : b / 16 * 16 = 2 ^ 4 * (b / 2 ^ 4) := by
      simp only [Nat.reducePow]; omega
    rw [e16, Nat.testBit_mul_pow_two]
    by_cases h4 : 4 ≤ i
    · have hi : i - 4 + 4 = i := by omega
      rw [← Nat.shiftRight_eq_div_pow, Nat.testBit_shiftRight, Nat.add_comm 4, hi]
      by_cases h8 : i < 8
      · simp [h4, h8]
      · have : b.testBit i = false := Nat.testBit_lt_two_pow (Nat.lt_of_lt_of_le hb
          (show 256 ≤ 2 ^ i from (by
            have : (256 : Nat) = 2 ^ 8 := by decide
            rw [this]
            exact Nat.pow_le_pow_right (by decide) (by omega))))
        simp [this]
    · simp [h4]
  unfold getParity
  simp only [and_0x01, hn]
  have hq : b / 16 < 16 := by omega
  generalize b / 16 = q at hq
  have hp : b % 2 < 2 := Nat.mod_lt _ (by decide)
  generalize b % 2 = t at hp
  interval_cases q <;> interval_cases t <;> decide

theorem lichBits_testBit (fsw : Nat) (data : Nat → Nat) (i : Nat) (hi : i < 8) :
    (lichBits fsw data).testBit (7 - i) = readBit data (fsw + 2 * i) := by
  unfold lichBits
  rw [Utils.testBit_bitsToByteBE _ _ i hi, Nat.zero_add]

theorem lichBits_congr (fsw : Nat) (data data2 : Nat → Nat)
    (h : ∀ i, i < 8 → readBit data2 (fsw + 2 * i) = readBit data (fsw + 2 * i)) :
    lichBits fsw data2 = lichBits fsw data := by
  unfold lichBits
  apply edac.Utils.bitsToByteBE_congr
  intro i hi
  exact h _ (by omega)

/-- The bits of the buffer after `encode`. -/
theorem encode_buffer (fsw : Nat) (self : LICH) (data : Nat → Nat) :
    (∀ n, readBit (encode fsw 16 self data).2 n =
      if fsw ≤ n ∧ n < fsw + 16 then
        (if (n - fsw) % 2 = 0 then
          ((encode fsw 16 self data).1.m_lich).testBit (7 - (n - fsw) / 2)
        else true)
      else readBit data n) ∧
    (∀ k, (∀ m, fsw ≤ m → m < fsw + 16 → m / 8 ≠ k) → (encode fsw 16 self data).2 k = data k) := by
  obtain ⟨_, h2, h3⟩ := lich_encodeLoop_spec
    (Function.update (fun _ => 0x00) 0 (encode fsw 16 self data).1.m_lich) data fsw 8
  have hlich : ∀ i, i < 8 →
      readBit (Function.update (fun _ => 0x00) 0 (encode fsw 16 self data).1.m_lich) i =
        ((encode fsw 16 self data).1.m_lich).testBit (7 - i) := by
    intro i hi
    have e1 : i / 8 = 0 := by omega
    have e2 : i % 8 = i := by omega
    rw [readBit_eq, e1, e2, Function.update_same]
  constructor
  · intro n
    have h := h2 n
    by_cases hc : fsw ≤ n ∧ n < fsw + 16
    · rw [if_pos hc]
      rw [if_pos (show fsw ≤ n ∧ n < fsw + 2 * 8 by omega)] at h
      by_cases he : (n - fsw) % 2 = 0
      · rw [if_pos he]
        rw [if_pos he, hlich _ (by omega)] at h
        exact h
      · rw [if_neg he]
        rw [if_neg he] at h
        exact h
    · rw [if_neg hc]
      rw [if_neg (show ¬ (fsw ≤ n ∧ n < fsw + 2 * 8) by omega)] at h
      exact h
  · intro k hk
    exact h3 k (fun m hm1 hm2 => hk m hm1 (by omega))

/-- C37 (LICH parity check).  With `b` the byte assembled MSB-first from the 8
bits read at every second bit position starting at the frame-sync length,
`decode` stores `b`, returns true if and only if the least significant bit of
`b` is 1 exactly when the upper nibble of `b` is 0x8 or 0xB, and sets `rfct`,
`fct`, `option` and `outbound` from bits 7..6, 5..4, 3..2 and 1 of `b`
whatever the parity check says; a buffer that differs only elsewhere, the
interleaved odd positions included, gives the same result. -/
theorem lich_parity_check (fsw : Nat) (self : LICH) (data data2 : Nat → Nat) :
    (decode fsw 16 self data).2.m_lich = lichBits fsw data ∧
    lichBits fsw data < 256 ∧
    (∀ i, i < 8 → (lichBits fsw data).testBit (7 - i) = readBit data (fsw + 2 * i)) ∧
    ((decode fsw 16 self data).1 = true ↔
      (lichBits fsw data % 2 = 1 ↔
        (lichBits fsw data / 16 = 0x8 ∨ lichBits fsw data / 16 = 0xB))) ∧
    (decode fsw 16 self data).2.m_rfct = lichBits fsw data / 64 % 4 ∧
    (decode fsw 16 self data).2.m_fct = lichBits fsw data / 16 % 4 ∧
    (decode fsw 16 self data).2.m_option = lichBits fsw data / 4 % 4 ∧
    (decode fsw 16 self data).2.m_outbound = (lichBits fsw data).testBit 1 ∧
    ((∀ i, i < 8 → readBit data2 (fsw + 2 * i) = readBit data (fsw + 2 * i)) →
      decode fsw 16 self data2 = decode fsw 16 self data) := by
  have hb := (decode_lich fsw self data).2
  rw [decode_eq]
  refine ⟨rfl, hb, lichBits_testBit fsw data, parity_check_iff _ hb self, ?_, ?_, ?_, ?_, ?_⟩
  · show (lichBits fsw data >>> 6) &&& 0x03 = _
    rw [and_0x03, Nat.shiftRight_eq_div_pow]
  · show (lichBits fsw data >>> 4) &&& 0x03 = _
    rw [and_0x03, Nat.shiftRight_eq_div_pow]
  · show (lichBits fsw data >>> 2) &&& 0x03 = _
    rw [and_0x03, Nat.shiftRight_eq_div_pow]
  · show (((lichBits fsw data >>> 1) &&& 0x01) == 0x01) = _
    rw [and_0x01, Nat.shiftRight_eq_div_pow, Nat.testBit_to_div_mod]
    generalize lichBits fsw data / 2 ^ 1 % 2 = t
    by_cases ht : t = 1
    · subst ht; rfl
    · simp [ht]
  · intro h
    rw [decode_eq, lichBits_congr fsw data data2 h]

/-- The byte read back from a buffer written by `encode` is the LICH byte. -/
theorem lichBits_encode (fsw : Nat) (self : LICH) (data : Nat → Nat) :
    lichBits fsw (encode fsw 16 self data).2 = (encode fsw 16 self data).1.m_lich := by
  have hlt : (encode fsw 16 self data).1.m_lich < 256 := by
    rw [encode_lich]
    exact lichWord_lt _ _ _ _ (Nat.mod_lt _ (by decide)) (Nat.mod_lt _ (by decide))
      (Nat.mod_lt _ (by decide))
  unfold lichBits
  apply Utils.bitsToByteBE_of_testBit _ _ _ hlt
  intro i hi
  show readBit (encode fsw 16 self data).2 (fsw + 2 * (0 + i)) = _
  rw [(encode_buffer fsw self data).1, if_pos (by omega), if_pos (by omega)]
  exact congrArg (Nat.testBit _) (by omega)

/-- C36 (LICH round trip).  For every RF channel type, functional channel type
and option in 0..3, every outbound flag, every frame-sync length and every
initial frame buffer, `decode` - on any object - applied to the buffer
written by `encode` returns true and yields the same four field values. -/
theorem lich_round_trip (fsw : Nat) (self other : LICH) (data : Nat → Nat)
    (hr : self.m_rfct < 4) (hf : self.m_fct < 4) (ho : self.m_option < 4) :
    (decode fsw 16 other (encode fsw 16 self data).2).1 = true ∧
    (decode fsw 16 other (encode fsw 16 self data).2).2.m_rfct = self.m_rfct ∧
    (decode fsw 16 other (encode fsw 16 self data).2).2.m_fct = self.m_fct ∧
    (decode fsw 16 other (encode fsw 16 self data).2).2.m_option = self.m_option ∧
    (decode fsw 16 other (encode fsw 16 self data).2).2.m_outbound = self.m_outbound := by
  have hL : lichBits fsw (encode fsw 16 self data).2 =
      lichWord self.m_rfct self.m_fct self.m_option self.m_outbound := by
    rw [lichBits_encode, encode_lich, Nat.mod_eq_of_lt hr, Nat.mod_eq_of_lt hf,
      Nat.mod_eq_of_lt ho]
  obtain ⟨f1, f2, f3, f4, f5, f6⟩ :=
    lichWord_fields self.m_rfct self.m_fct self.m_option self.m_outbound hr hf ho
  have hlt := lichWord_lt self.m_rfct self.m_fct self.m_option self.m_outbound hr hf ho
  rw [decode_eq, hL]
  refine ⟨?_, ?_, ?_, ?_, ?_⟩
  · rw [parity_check_iff _ hlt other, f5, f6]
  · show (lichWord self.m_rfct self.m_fct self.m_option self.m_outbound >>> 6) &&& 0x03 = _
    rw [and_0x03, Nat.shiftRight_eq_div_pow]
    exact f1
  · show (lichWord self.m_rfct self.m_fct self.m_option self.m_outbound >>> 4) &&& 0x03 = _
    rw [and_0x03, Nat.shiftRight_eq_div_pow]
    exact f2
  · show (lichWord self.m_rfct self.m_fct self.m_option self.m_outbound >>> 2) &&& 0x03 = _
    rw [and_0x03, Nat.shiftRight_eq_div_pow]
    exact f3
  · show (((lichWord self.m_rfct self.m_fct self.m_option self.m_outbound >>> 1) &&& 0x01)
      == 0x01) = _
    rw [and_0x01, Nat.shiftRight_eq_div_pow]
    cases hob : self.m_outbound
    · rw [hob] at f4
      have : ¬ (lichWord self.m_rfct self.m_fct self.m_option false / 2 % 2 = 1) :=
        fun h => absurd (f4.mp h) (by decide)
      simpa using this
    · rw [hob] at f4
      have := f4.mpr rfl
      simpa using this

theorem lich_round_trip_witness :
    exampleLich.m_rfct < 4 ∧ exampleLich.m_fct < 4 ∧ exampleLich.m_option < 4 ∧
    (decode 20 16 exampleLich (encode 20 16 exampleLich (fun _ => 0xA5)).2).1 = true :=
  ⟨by decide, by decide, by decide,
    (lich_round_trip 20 exampleLich exampleLich (fun _ => 0xA5) (by decide) (by decide)
      (by decide)).1⟩

/-- C38 (frame effect of LICH::encode).  `encode` writes exactly the 16
consecutive bits of the buffer that start at the frame-sync length - the 8
bits of the LICH byte, MSB first, at the even offsets, each followed by a bit
set to 1 - and leaves every other bit, and every byte outside that range,
unchanged.  The LICH byte it leaves in the object has bits 7..6 = `rfct`,
5..4 = `fct`, 3..2 = `option` (each taken modulo 4), bit 1 = `outbound` and
bit 0 = 1 exactly when `rfct = 2` and `fct` is 0 or 3; the four fields of the
object are not changed. -/
theorem lich_encode_frame (fsw : Nat) (self : LICH) (data : Nat → Nat) :
    (∀ n, readBit (encode fsw 16 self data).2 n =
      if fsw ≤ n ∧ n < fsw + 16 then
        (if (n - fsw) % 2 = 0 then
          ((encode fsw 16 self data).1.m_lich).testBit (7 - (n - fsw) / 2)
        else true)
      else readBit data n) ∧
    (∀ k, (k < fsw / 8 ∨ (fsw + 15) / 8 < k) → (encode fsw 16 self data).2 k = data k) ∧
    (encode fsw 16 self data).1.m_lich =
      lichWord (self.m_rfct % 4) (self.m_fct % 4) (self.m_option % 4) self.m_outbound ∧
    (encode fsw 16 self data).1.m_lich / 64 = self.m_rfct % 4 ∧
    (encode fsw 16 self data).1.m_lich / 16 % 4 = self.m_fct % 4 ∧
    (encode fsw 16 self data).1.m_lich / 4 % 4 = self.m_option % 4 ∧
    ((encode fsw 16 self data).1.m_lich / 2 % 2 = 1 ↔ self.m_outbound = true) ∧
    ((encode fsw 16 self data).1.m_lich % 2 = 1 ↔
      (self.m_rfct % 4 = 2 ∧ (self.m_fct % 4 = 0 ∨ self.m_fct % 4 = 3))) ∧
    ((encode fsw 16 self data).1.m_rfct = self.m_rfct ∧
      (encode fsw 16 self data).1.m_fct = self.m_fct ∧
      (encode fsw 16 self data).1.m_option = self.m_option ∧
      (encode fsw 16 self data).1.m_outbound = self.m_outbound) := by
  have hr : self.m_rfct % 4 < 4 := Nat.mod_lt _ (by decide)
  have hf : self.m_fct % 4 < 4 := Nat.mod_lt _ (by decide)
  have ho : self.m_option % 4 < 4 := Nat.mod_lt _ (by decide)
  obtain ⟨f1, f2, f3, f4, f5, _⟩ :=
    lichWord_fields (self.m_rfct % 4) (self.m_fct % 4) (self.m_option % 4) self.m_outbound
      hr hf ho
  have hlt := lichWord_lt (self.m_rfct % 4) (self.m_fct % 4) (self.m_option % 4)
    self.m_outbound hr hf ho
  obtain ⟨b1, b2⟩ := encode_buffer fsw self data
  have hfields : (encode fsw 16 self data).1.m_rfct = self.m_rfct ∧
      (encode fsw 16 self data).1.m_fct = self.m_fct ∧
      (encode fsw 16 self data).1.m_option = self.m_option ∧
      (encode fsw 16 self data).1.m_outbound = self.m_outbound := by
    show (encodeParity (encodeFields self)).m_rfct = _ ∧ (encodeParity (encodeFields self)).m_fct = _
      ∧ (encodeParity (encodeFields self)).m_option = _ ∧
      (encodeParity (encodeFields self)).m_outbound = _
    unfold encodeParity
    by_cases hp : (encodeFields self).getParity = true
    · simp only [hp, if_true]
      exact ⟨rfl, rfl, rfl, rfl⟩
    · simp only [hp, if_false, Bool.false_eq_true]
      exact ⟨rfl, rfl, rfl, rfl⟩
  refine ⟨b1, ?_, encode_lich fsw 16 self data, ?_, ?_, ?_, ?_, ?_, hfields⟩
  · intro k hk
    apply b2
    intro m hm1 hm2 e
    omega
  · rw [encode_lich]
    generalize lichWord (self.m_rfct % 4) (self.m_fct % 4) (self.m_option % 4)
      self.m_outbound = L at f1 hlt
    omega
  · rw [encode_lich]; exact f2
  · rw [encode_lich]; exact f3
  · rw [encode_lich]; exact f4
  · rw [encode_lich]; exact f5

end LICH

end channel

end nxdn

namespace lookups

namespace TalkgroupRulesLookup

/-! ## Searching and replacing in the table -/

theorem findIf_none {α : Type} (p : α → Bool) (m : List α) :
    findIf p m = none ↔ ∀ x ∈ m, p x = false := by
  induction m with
  | nil => simp [findIf]
  | cons x xs ih =>
    unfold findIf
    by_cases hx : p x = true
    · simp [hx]
    · have hx2 : p x = false := by simpa using hx
      simp [hx2, ih]

/-- A successful search splits the vector at the first element that satisfies
the predicate. -/
theorem findIf_some {α : Type} (p : α → Bool) (m : List α) (i : Nat)
    (h : findIf p m = some i) :
    ∃ pre x post, m = pre ++ x :: post ∧ pre.length = i ∧ p x = true ∧
      ∀ y ∈ pre, p y = false := by
  induction m generalizing i with
  | nil => simp [findIf] at h
  | cons x xs ih =>
    unfold findIf at h
    by_cases hx : p x = true
    · rw [if_pos hx] at h
      have hi : i = 0 := by
        injection h with h
        exact h.symm
      subst hi
      exact ⟨[], x, xs, rfl, rfl, hx, by simp⟩
    · rw [if_neg hx] at h
      cases hf : findIf p xs with
      | none => rw [hf] at h; simp at h
      | some k =>
        rw [hf] at h
        have hi : i = k + 1 := by
          simp at h
          exact h.symm
        subst hi
        obtain ⟨pre, y, post, e1, e2, e3, e4⟩ := ih k hf
        refine ⟨x :: pre, y, post, by rw [e1]; rfl, by simp [e2], e3, ?_⟩
        intro z hz
        rcases List.mem_cons.mp hz with hz | hz
        · rw [hz]; simpa using hx
        · exact e4 z hz

theorem findIf_split {α : Type} (p : α → Bool) (pre post : List α) (x : α)
    (hpre : ∀ y ∈ pre, p y = false) (hx : p x = true) :
    findIf p (pre ++ x :: post) = some pre.length := by
  induction pre with
  | nil =>
    show (if p x then some 0 else _) = _
    rw [if_pos hx]
    rfl
  | cons y ys ih =>
    have hy : p y = false := hpre y (List.mem_cons_self y ys)
    show (if p y then some 0 else (findIf p (ys ++ x :: post)).map (fun i => i + 1)) = _
    rw [hy, ih (fun z hz => hpre z (List.mem_cons_of_mem y hz))]
    rfl

theorem set_split {α : Type} (pre post : List α) (x e : α) :
    (pre ++ x :: post).set pre.length e = pre ++ e :: post := by
  induction pre with
  | nil => rfl
  | cons y ys ih =>
    show y :: (ys ++ x :: post).set ys.length e = _
    rw [ih]
    rfl

theorem eraseIdx_split {α : Type} (pre post : List α) (x : α) :
    (pre ++ x :: post).eraseIdx pre.length = pre ++ post := by
  induction pre with
  | nil => rfl
  | cons y ys ih =>
    show y :: (ys ++ x :: post).eraseIdx ys.length = _
    rw [ih]
    rfl

theorem getD_split {α : Type} (pre post : List α) (x d : α) :
    (pre ++ x :: post).getD pre.length d = x := by
  induction pre with
  | nil => rfl
  | cons y ys ih =>
    show (ys ++ x :: post).getD ys.length d = _
    exact ih

theorem getElem_opt_split_ne {α : Type} (pre post : List α) (x e : α) (j : Nat)
    (hj : j ≠ pre.length) : (pre ++ e :: post)[j]? = (pre ++ x :: post)[j]? := by
  induction pre generalizing j with
  | nil =>
    cases j with
    | zero => exact absurd rfl hj
    | succ j => simp
  | cons y ys ih =>
    cases j with
    | zero => simp
    | succ j =>
      have h := ih j (fun h => hj (by rw [h]; rfl))
      simpa using h

theorem getElem_opt_split {α : Type} (pre post : List α) (x : α) :
    (pre ++ x :: post)[pre.length]? = some x := by
  induction pre with
  | nil => simp
  | cons y ys ih => simpa using ih

/-- The search predicate, spelled out. -/
theorem matchEntry_iff (id slot : Nat) (x : TalkgroupRuleGroupVoice) :
    matchEntry id slot x = true ↔
      (x.source.tgId = id ∧ (slot ≠ 0 → x.source.tgSlot = slot)) := by
  unfold matchEntry
  by_cases hs : slot = 0
  · subst hs
    simp
  · have : (slot != 0) = true := by simpa using hs
    rw [if_pos this]
    simp [hs]

theorem matchExact_iff (id slot : Nat) (x : TalkgroupRuleGroupVoice) :
    matchExact id slot x = true ↔ (x.source.tgId = id ∧ x.source.tgSlot = slot) := by
  unfold matchExact
  simp

/-! ## What the calls do to the table -/

/-- The two outcomes of `addEntry(id, slot, enabled, nonPreferred)`: no entry
matched and one is appended, or the first matching entry is replaced in
place by an entry that keeps its other members. -/
theorem addEntry_cases (dflt : TalkgroupRuleGroupVoice) (m : List TalkgroupRuleGroupVoice)
    (id slot : Nat) (enabled nonPreferred : Bool) :
    (findIf (matchEntry id slot) m = none ∧
      ∃ e, addEntry dflt m id slot enabled nonPreferred = m ++ [e] ∧
        e.source.tgId = id ∧ e.source.tgSlot = slot ∧ e.config.active = enabled ∧
        e.config.nonPreferred = nonPreferred ∧ e.other = dflt.other ∧
        e.config.other = dflt.config.other) ∨
    (∃ pre x post e, m = pre ++ x :: post ∧
      findIf (matchEntry id slot) m = some pre.length ∧
      matchEntry id slot x = true ∧ (∀ y ∈ pre, matchEntry id slot y = false) ∧
      addEntry dflt m id slot enabled nonPreferred = pre ++ e :: post ∧
      e.source.tgId = id ∧ e.source.tgSlot = slot ∧ e.config.active = enabled ∧
      e.config.nonPreferred = nonPreferred ∧ e.other = x.other ∧
      e.config.other = x.config.other) := by
  cases h : findIf (matchEntry id slot) m with
  | none =>
    refine Or.inl ⟨rfl,
      { dflt with
        config := { dflt.config with active := enabled, nonPreferred := nonPreferred }
        source := { dflt.source with tgId := id, tgSlot := slot } },
      ?_, rfl, rfl, rfl, rfl, rfl, rfl⟩
    unfold addEntry
    simp only [h]
  | some i =>
    obtain ⟨pre, x, post, e1, e2, e3, e4⟩ := findIf_some _ m i h
    subst e2
    refine Or.inr ⟨pre, x, post,
      { x with
        config := { x.config with active := enabled, nonPreferred := nonPreferred }
        source := { x.source with tgId := id, tgSlot := slot } },
      e1, rfl, e3, e4, ?_, rfl, rfl, rfl, rfl, rfl, rfl⟩
    unfold addEntry
    simp only [h]
    rw [e1, getD_split, set_split]

/-- The outcomes of `addEntry(groupVoice)`. -/
theorem addEntryGroup_cases (isInvalid : TalkgroupRuleGroupVoice → Bool)
    (m : List TalkgroupRuleGroupVoice) (g : TalkgroupRuleGroupVoice) :
    addEntryGroup isInvalid m g = m ∨
    ((∀ y ∈ m, matchEntry g.source.tgId g.source.tgSlot y = false) ∧
      addEntryGroup isInvalid m g = m ++ [g]) ∨
    (∃ pre x post, m = pre ++ x :: post ∧
      matchEntry g.source.tgId g.source.tgSlot x = true ∧
      (∀ y ∈ pre, matchEntry g.source.tgId g.source.tgSlot y = false) ∧
      addEntryGroup isInvalid m g = pre ++ g :: post) := by
  unfold addEntryGroup
  by_cases hi : isInvalid g = true
  · exact Or.inl (by rw [if_pos hi])
  · rw [if_neg hi]
    cases h : findIf (matchEntry g.source.tgId g.source.tgSlot) m with
    | none =>
      refine Or.inr (Or.inl ⟨(findIf_none _ m).mp h, ?_⟩)
      simp only [h]
    | some i =>
      obtain ⟨pre, x, post, e1, e2, e3, e4⟩ := findIf_some _ m i h
      subst e2
      refine Or.inr (Or.inr ⟨pre, x, post, e1, e3, e4, ?_⟩)
      simp only [h]
      rw [e1, set_split]

/-- The outcomes of `eraseEntry(id, slot)`. -/
theorem eraseEntry_cases (m : List TalkgroupRuleGroupVoice) (id slot : Nat) :
    eraseEntry m id slot = m ∨
    (∃ pre x post, m = pre ++ x :: post ∧ eraseEntry m id slot = pre ++ post) := by
  unfold eraseEntry
  cases h : findIf (matchExact id slot) m with
  | none => exact Or.inl rfl
  | some i =>
    obtain ⟨pre, x, post, e1, e2, _, _⟩ := findIf_some _ m i h
    subst e2
    refine Or.inr ⟨pre, x, post, e1, ?_⟩
    simp only []
    rw [e1, eraseIdx_split]

/-! ## The invariant of the table -/

theorem compatible_push (m : List TalkgroupRuleGroupVoice) (id slot : Nat)
    (e : TalkgroupRuleGroupVoice) (hm : m.Pairwise Compatible)
    (hno : ∀ y ∈ m, matchEntry id slot y = false) (h1 : e.source.tgId = id)
    (h2 : e.source.tgSlot = slot) : (m ++ [e]).Pairwise Compatible := by
  rw [List.pairwise_append]
  refine ⟨hm, List.pairwise_singleton _ _, ?_⟩
  intro a ha b hb
  rw [List.mem_singleton] at hb
  subst hb
  intro hid
  have hn := hno a ha
  have hn2 : ¬ (matchEntry id slot a = true) := by rw [hn]; decide
  rw [matchEntry_iff] at hn2
  rw [h2]
  constructor
  · intro h0
    exact hn2 ⟨by rw [hid, h1], fun h => absurd h0 h⟩
  · intro hs
    exact hn2 ⟨by rw [hid, h1], fun _ => hs.symm⟩

theorem compatible_replace (pre post : List TalkgroupRuleGroupVoice) (id slot : Nat)
    (x e : TalkgroupRuleGroupVoice) (hm : (pre ++ x :: post).Pairwise Compatible)
    (hx : matchEntry id slot x = true) (hno : ∀ y ∈ pre, matchEntry id slot y = false)
    (h1 : e.source.tgId = id) (h2 : e.source.tgSlot = slot) :
    (pre ++ e :: post).Pairwise Compatible := by
  rw [List.pairwise_append, List.pairwise_cons] at hm ⊢
  obtain ⟨hpre, ⟨hxp, hpost⟩, hcross⟩ := hm
  rw [matchEntry_iff] at hx
  refine ⟨hpre, ⟨?_, hpost⟩, ?_⟩
  · intro y hy hid
    have hxy := hxp y hy (by rw [hx.1, ← hid, h1])
    rw [h2]
    by_cases hs : slot = 0
    · subst hs
      exact ⟨hxy.1, hxy.1⟩
    · exact ⟨hxy.1, by rw [← hx.2 hs]; exact hxy.2⟩
  · intro a ha b hb
    rcases List.mem_cons.mp hb with hb | hb
    · subst hb
      intro hid
      have hn := hno a ha
      have hn2 : ¬ (matchEntry id slot a = true) := by rw [hn]; decide
      rw [matchEntry_iff] at hn2
      rw [h2]
      constructor
      · intro h0
        exact hn2 ⟨by rw [hid, h1], fun h => absurd h0 h⟩
      · intro hs
        exact hn2 ⟨by rw [hid, h1], fun _ => hs.symm⟩
    · exact hcross a ha b (List.mem_cons_of_mem x hb)

theorem compatible_erase (pre post : List TalkgroupRuleGroupVoice) (x : TalkgroupRuleGroupVoice)
    (hm : (pre ++ x :: post).Pairwise Compatible) : (pre ++ post).Pairwise Compatible := by
  rw [List.pairwise_append, List.pairwise_cons] at hm
  rw [List.pairwise_append]
  obtain ⟨hpre, ⟨_, hpost⟩, hcross⟩ := hm
  exact ⟨hpre, hpost, fun a ha b hb => hcross a ha b (List.mem_cons_of_mem x hb)⟩

/-- Every call keeps the entries of the table compatible. -/
theorem compatible_step (dflt : TalkgroupRuleGroupVoice)
    (isInvalid : TalkgroupRuleGroupVoice → Bool) (m : List TalkgroupRuleGroupVoice)
    (hm : m.Pairwise Compatible) (c : Call) : (step dflt isInvalid m c).Pairwise Compatible := by
  cases c with
  | add id slot enabled nonPreferred =>
    show (addEntry dflt m id slot enabled nonPreferred).Pairwise Compatible
    rcases addEntry_cases dflt m id slot enabled nonPreferred with
      ⟨hn, e, he, h1, h2, _⟩ | ⟨pre, x, post, e, hm2, _, hx, hno, he, h1, h2, _⟩
    · rw [he]
      exact compatible_push m id slot e hm ((findIf_none _ m).mp hn) h1 h2
    · rw [he]
      rw [hm2] at hm
      exact compatible_replace pre post id slot x e hm hx hno h1 h2
  | addGroup g =>
    show (addEntryGroup isInvalid m g).Pairwise Compatible
    rcases addEntryGroup_cases isInvalid m g with he | ⟨hno, he⟩ | ⟨pre, x, post, hm2, hx, hno, he⟩
    · rw [he]; exact hm
    · rw [he]
      exact compatible_push m _ _ g hm hno rfl rfl
    · rw [he]
      rw [hm2] at hm
      exact compatible_replace pre post _ _ x g hm hx hno rfl rfl
  | erase id slot =>
    show (eraseEntry m id slot).Pairwise Compatible
    rcases eraseEntry_cases m id slot with he | ⟨pre, x, post, hm2, he⟩
    · rw [he]; exact hm
    · rw [he]
      rw [hm2] at hm
      exact compatible_erase pre post x hm
  | clear => exact List.Pairwise.nil

theorem compatible_foldl (dflt : TalkgroupRuleGroupVoice)
    (isInvalid : TalkgroupRuleGroupVoice → Bool) (calls : List Call) :
    ∀ m : List TalkgroupRuleGroupVoice, m.Pairwise Compatible →
      (calls.foldl (step dflt isInvalid) m).Pairwise Compatible := by
  induction calls with
  | nil => intro m hm; exact hm
  | cons c cs ih =>
    intro m hm
    exact ih _ (compatible_step dflt isInvalid m hm c)

/-- C40 (key uniqueness in TalkgroupRulesLookup).  Starting from an empty
table, after any sequence of `addEntry` (either overload), `eraseEntry` and
`clear` calls: no two entries of the table have the same (talkgroup ID, slot)
pair, and no entry stands before an entry with slot 0 that carries the same
talkgroup ID - an entry with slot 0 is the first entry carrying its
talkgroup ID. -/
theorem key_uniqueness (dflt : TalkgroupRuleGroupVoice)
    (isInvalid : TalkgroupRuleGroupVoice → Bool) (calls : List Call) :
    ((run dflt isInvalid calls).map (fun x => (x.source.tgId, x.source.tgSlot))).Nodup ∧
    (run dflt isInvalid calls).Pairwise
      (fun x y => ¬ (x.source.tgId = y.source.tgId ∧ x.source.tgSlot = y.source.tgSlot)) ∧
    (run dflt isInvalid calls).Pairwise
      (fun x y => y.source.tgSlot = 0 → x.source.tgId ≠ y.source.tgId) ∧
    (∀ (i j : Nat) (x y : TalkgroupRuleGroupVoice), i < j →
      (run dflt isInvalid calls)[i]? = some x → (run dflt isInvalid calls)[j]? = some y →
      ¬ (x.source.tgId = y.source.tgId ∧ x.source.tgSlot = y.source.tgSlot) ∧
      (y.source.tgSlot = 0 → x.source.tgId ≠ y.source.tgId)) := by
  have h : (run dflt isInvalid calls).Pairwise Compatible :=
    compatible_foldl dflt isInvalid calls [] List.Pairwise.nil
  have hkey : (run dflt isInvalid calls).Pairwise
      (fun x y => ¬ (x.source.tgId = y.source.tgId ∧ x.source.tgSlot = y.source.tgSlot)) :=
    h.imp (fun {x y} hc hk => (hc hk.1).2 hk.2.symm)
  have hzero : (run dflt isInvalid calls).Pairwise
      (fun x y => y.source.tgSlot = 0 → x.source.tgId ≠ y.source.tgId) :=
    h.imp (fun {x y} hc h0 hid => (hc hid).1 h0)
  refine ⟨?_, hkey, hzero, ?_⟩
  · unfold List.Nodup
    rw [List.pairwise_map]
    exact hkey.imp (fun {x y} hk he => hk ⟨congrArg Prod.fst he, congrArg Prod.snd he⟩)
  · intro i j x y hij hx hy
    rw [List.pairwise_iff_getElem] at h
    obtain ⟨hi, hxi⟩ := List.getElem?_eq_some_iff.mp hx
    obtain ⟨hj, hyj⟩ := List.getElem?_eq_some_iff.mp hy
    have hc := h i j hi hj hij
    rw [hxi, hyj] at hc
    exact ⟨fun hk => (hc hk.1).2 hk.2.symm, fun h0 hid => (hc hid).1 h0⟩

/-- C39 (add-then-find in TalkgroupRulesLookup).  For every table, `id`,
`slot`, `enabled` and `nonPreferred`: after `addEntry(id, slot, enabled,
nonPreferred)` the call `find(id, slot)` returns an entry - one that is in
the table - whose source talkgroup ID is `id` and slot is `slot` and whose
config has `active = enabled` and `nonPreferred = nonPreferred`.  When no
entry matched (the ID alone when `slot` is 0, the ID and the slot otherwise)
the table is the old one with that entry appended, one entry longer; when
one matched, the table keeps its length and every entry except the first
matching one, which is replaced in place. -/
theorem add_then_find (dflt : TalkgroupRuleGroupVoice) (m : List TalkgroupRuleGroupVoice)
    (id slot : Nat) (enabled nonPreferred : Bool) :
    ((find dflt (addEntry dflt m id slot enabled nonPreferred) id slot).source.tgId = id ∧
      (find dflt (addEntry dflt m id slot enabled nonPreferred) id slot).source.tgSlot = slot ∧
      (find dflt (addEntry dflt m id slot enabled nonPreferred) id slot).config.active =
        enabled ∧
      (find dflt (addEntry dflt m id slot enabled nonPreferred) id slot).config.nonPreferred =
        nonPreferred) ∧
    find dflt (addEntry dflt m id slot enabled nonPreferred) id slot ∈
      addEntry dflt m id slot enabled nonPreferred ∧
    ((∀ x ∈ m, ¬ (x.source.tgId = id ∧ (slot ≠ 0 → x.source.tgSlot = slot))) →
      addEntry dflt m id slot enabled nonPreferred =
        m ++ [find dflt (addEntry dflt m id slot enabled nonPreferred) id slot] ∧
      (addEntry dflt m id slot enabled nonPreferred).length = m.length + 1) ∧
    (∀ i, findIf (matchEntry id slot) m = some i →
      (addEntry dflt m id slot enabled nonPreferred).length = m.length ∧
      (∀ j, j ≠ i → (addEntry dflt m id slot enabled nonPreferred)[j]? = m[j]?) ∧
      (addEntry dflt m id slot enabled nonPreferred)[i]? =
        some (find dflt (addEntry dflt m id slot enabled nonPreferred) id slot)) ∧
    (findIf (matchEntry id slot) m = none ↔
      ∀ x ∈ m, ¬ (x.source.tgId = id ∧ (slot ≠ 0 → x.source.tgSlot = slot))) := by
  have hnone : findIf (matchEntry id slot) m = none ↔
      ∀ x ∈ m, ¬ (x.source.tgId = id ∧ (slot ≠ 0 → x.source.tgSlot = slot)) := by
    rw [findIf_none]
    constructor
    · intro h x hx hk
      have := h x hx
      rw [(matchEntry_iff id slot x).mpr hk] at this
      exact absurd this (by decide)
    · intro h x hx
      cases hme : matchEntry id slot x
      · rfl
      · exact absurd ((matchEntry_iff id slot x).mp hme) (h x hx)
  rcases addEntry_cases dflt m id slot enabled nonPreferred with
    ⟨hn, e, he, h1, h2, h3, h4, _⟩ | ⟨pre, x, post, e, hm2, hf, hx, hno, he, h1, h2, h3, h4, _⟩
  · -- no entry matched: the new entry is appended and found there
    have hme : matchEntry id slot e = true := (matchEntry_iff id slot e).mpr ⟨h1, fun _ => h2⟩
    have hfind : find dflt (m ++ [e]) id slot = e := by
      unfold find
      rw [findIf_split _ m [] e ((findIf_none _ m).mp hn) hme]
      exact getD_split m [] e dflt
    rw [he, hfind]
    refine ⟨⟨h1, h2, h3, h4⟩, by simp, fun _ => ⟨rfl, by simp⟩, ?_, hnone⟩
    intro i hi
    rw [hn] at hi
    exact absurd hi (by simp)
  · -- the first matching entry is replaced in place and found there
    have hme : matchEntry id slot e = true := (matchEntry_iff id slot e).mpr ⟨h1, fun _ => h2⟩
    have hfind : find dflt (pre ++ e :: post) id slot = e := by
      unfold find
      rw [findIf_split _ pre post e hno hme]
      exact getD_split pre post e dflt
    rw [he, hfind]
    refine ⟨⟨h1, h2, h3, h4⟩, by simp, ?_, ?_, hnone⟩
    · intro hall
      have := hall x (by rw [hm2]; simp)
      exact absurd ((matchEntry_iff id slot x).mp hx) this
    · intro i hi
      rw [hf] at hi
      have hi2 : pre.length = i := by
        injection hi
      subst hi2
      refine ⟨by rw [hm2]; simp, ?_, getElem_opt_split pre post e⟩
      intro j hj
      rw [hm2]
      exact getElem_opt_split_ne pre post x e j hj

end TalkgroupRulesLookup

end lookups
